import Mathlib

/-!
# Verification of the ECE65 lab-setup tool (`helper.py`, `setup_lab.py`)

A shallow embedding of the oscilloscope-data copier and the `setup_lab`
command-line driver, together with theorems settling the specification's
claims about them.

The filesystem is modelled as an association list of file paths to file
contents plus a list of existing directories.  Python path-string
operations (`str.split("/")`, `os.path.join`, `os.path.basename`,
`str.lower`, slicing `[-7:]`, `glob`) are modelled character-exactly over
`String.data`.  Fallible Python operations return `Except`; operations of
the copier thread the filesystem state explicitly and, on an exception,
also return the state at the moment the exception was raised (Python
exceptions do not roll back completed filesystem effects).

Directory enumeration order (`os.scandir`) is unspecified in Python;
the model enumerates directory entries in a fixed lexicographic order.
-/

/-! ## Character and string primitives -/

/-- ASCII lowercasing of one character, as `str.lower` acts on the ASCII
letters actually occurring in the program's filenames. -/
def lowerChar (c : Char) : Char :=
  if 'A' ≤ c ∧ c ≤ 'Z' then Char.ofNat (c.toNat + 32) else c

/-- Python `s.lower()` (for ASCII data). -/
def asciiLower (s : String) : String := ⟨s.data.map lowerChar⟩

/-- Python slice `s[-n:]`: the last `n` characters, or all of `s` when it is
shorter than `n`. -/
def pyTakeRight (s : String) (n : Nat) : String := ⟨s.data.drop (s.data.length - n)⟩

/-- Python `s.split("/")` on the underlying character list: split at every
slash, keeping empty components (`"".split("/") == [""]`). -/
def splitSlash : List Char → List (List Char)
  | [] => [[]]
  | c :: rest =>
    let r := splitSlash rest
    if c = '/' then [] :: r else (c :: r.headD []) :: r.tail

/-- Python `s.split("/")`. -/
def pySplit (s : String) : List String := (splitSlash s.data).map (fun l => ⟨l⟩)

/-- Python `lst[-1]` for the nonempty lists produced by `split`; also
`os.path.basename` (everything after the last slash). -/
def pyBasename (p : String) : String :=
  match (pySplit p).reverse with
  | [] => ""
  | x :: _ => x

/-- Python `lst[-2]`: second element from the end, `IndexError` when the list
has fewer than two elements. -/
def pyIdxSecondLast (l : List String) : Option String :=
  match l.reverse with
  | _ :: x :: _ => some x
  | _ => none

/-- `os.path.dirname`: `p[:i]` up to the last slash, with trailing slashes
stripped unless the head consists only of slashes. -/
def pyDirname (p : String) : String :=
  let rev := p.data.reverse
  let head := (rev.dropWhile (fun c => c ≠ '/')).reverse
  if head ≠ [] ∧ head.any (fun c => c ≠ '/') then
    ⟨(head.reverse.dropWhile (fun c => c = '/')).reverse⟩
  else ⟨head⟩

/-- `os.path.join(a, b)` for two components (posixpath): an absolute second
component discards the first; no duplicate separator is inserted after an
empty or slash-terminated first component. -/
def pyJoin (a b : String) : String :=
  if b.data.head? = some '/' then b
  else if a.data = [] ∨ a.data.getLast? = some '/' then a ++ b
  else a ++ "/" ++ b

/-- A path usable as a directory reference: nonempty and without a trailing
slash (the shapes produced by `os.path.join` on ordinary arguments). -/
def goodPath (a : String) : Prop := a.data ≠ [] ∧ a.data.getLast? ≠ some '/'

/-- Helper for `fnmatch`: `'*'` consumes any (possibly empty) tail prefix and
the continuation `f` must accept the rest. -/
def starMatchAux (f : List Char → Bool) : List Char → Bool
  | [] => f []
  | c :: cs => f (c :: cs) || starMatchAux f cs

/-- `fnmatch.fnmatch` restricted to the pattern syntax the program uses:
literal characters and `*` (no `?`, no character classes). -/
def fnmatchList : List Char → List Char → Bool
  | [], cs => cs.isEmpty
  | p :: ps, cs =>
    if p = '*' then starMatchAux (fnmatchList ps) cs
    else match cs with
      | [] => false
      | c :: cs' => p = c && fnmatchList ps cs'

/-- `fnmatch` on strings. -/
def fnmatch (pat s : String) : Bool := fnmatchList pat.data s.data

/-- Hidden directory entry (leading dot): `glob` skips these for patterns
that do not themselves start with a dot. -/
def hiddenName (s : String) : Bool :=
  match s.data with
  | '.' :: _ => true
  | _ => false

/-- Total lexicographic comparison on character data, used to give the model
a fixed directory enumeration order. -/
def lexLe : List Char → List Char → Bool
  | [], _ => true
  | _ :: _, [] => false
  | a :: as, b :: bs =>
    if a.toNat < b.toNat then true
    else if b.toNat < a.toNat then false
    else lexLe as bs

/-- Insertion step of the fixed enumeration order. -/
def sortInsert (x : String) : List String → List String
  | [] => [x]
  | y :: ys => if lexLe x.data y.data then x :: y :: ys else y :: sortInsert x ys

/-- The model's fixed directory enumeration order. -/
def sortStrings : List String → List String
  | [] => []
  | x :: xs => sortInsert x (sortStrings xs)

/-! ### Lemmas about the string primitives -/

theorem splitSlash_ne_nil (l : List Char) : splitSlash l ≠ [] := by
  induction l with
  | nil => simp [splitSlash]
  | cons c rest ih =>
    simp only [splitSlash]
    split <;> simp

theorem splitSlash_append (xs ys : List Char) :
    splitSlash (xs ++ '/' :: ys) = splitSlash xs ++ splitSlash ys := by
  induction xs with
  | nil => simp [splitSlash]
  | cons c rest ih =>
    by_cases h : c = '/'
    · subst h; simp [splitSlash, ih]
    · have h2 := splitSlash_ne_nil rest
      match hsp : splitSlash rest with
      | [] => exact absurd hsp h2
      | h1 :: t1 =>
        have hl : splitSlash (rest ++ '/' :: ys) = h1 :: (t1 ++ splitSlash ys) := by
          rw [ih, hsp]; rfl
        simp [splitSlash, if_neg h, hl, hsp]

/-- A slash-free character list is a single split component. -/
theorem splitSlash_of_noSlash (xs : List Char) (h : ∀ c ∈ xs, c ≠ '/') :
    splitSlash xs = [xs] := by
  induction xs with
  | nil => simp [splitSlash]
  | cons c rest ih =>
    have hc : c ≠ '/' := h c (by simp)
    have hrest : splitSlash rest = [rest] := ih (fun d hd => h d (by simp [hd]))
    simp [splitSlash, hc, hrest]

theorem mem_sortInsert (a x : String) (l : List String) :
    a ∈ sortInsert x l ↔ a = x ∨ a ∈ l := by
  induction l with
  | nil => simp [sortInsert]
  | cons y ys ih =>
    simp only [sortInsert]
    split
    · simp [or_comm, or_assoc]
    · simp only [List.mem_cons, ih]
      tauto

theorem mem_sortStrings (a : String) (l : List String) :
    a ∈ sortStrings l ↔ a ∈ l := by
  induction l with
  | nil => simp [sortStrings]
  | cons x xs ih => simp [sortStrings, mem_sortInsert, ih]

theorem string_data_mk (l : List Char) : (String.mk l).data = l := rfl

theorem string_append_data (a b : String) : (a ++ b).data = a.data ++ b.data :=
  String.data_append a b

theorem asciiLower_append (a b : String) :
    asciiLower (a ++ b) = asciiLower a ++ asciiLower b := by
  apply String.ext
  simp [asciiLower, string_append_data]

/-- `starMatchAux` accepts exactly the suffix-splittings its continuation
accepts. -/
theorem starMatchAux_iff (f : List Char → Bool) (cs : List Char) :
    starMatchAux f cs = true ↔ ∃ a b, cs = a ++ b ∧ f b = true := by
  induction cs with
  | nil =>
    simp only [starMatchAux]
    constructor
    · intro h; exact ⟨[], [], rfl, h⟩
    · rintro ⟨a, b, hab, hf⟩
      have ha : a = [] := by cases a <;> simp_all
      have hb : b = [] := by cases a <;> simp_all
      subst ha; subst hb; exact hf
  | cons c cs ih =>
    simp only [starMatchAux, Bool.or_eq_true, ih]
    constructor
    · rintro (h | ⟨a, b, hab, hf⟩)
      · exact ⟨[], c :: cs, rfl, h⟩
      · exact ⟨c :: a, b, by simp [hab], hf⟩
    · rintro ⟨a, b, hab, hf⟩
      match a, hab with
      | [], hab =>
        left
        have hb : b = c :: cs := by simpa using hab.symm
        rw [hb] at hf
        exact hf
      | a' :: as, hab =>
        right
        have hab' : c = a' ∧ cs = as ++ b := by simpa using hab
        exact ⟨as, b, hab'.2, hf⟩

theorem fnmatchList_star_cons (ps : List Char) (cs : List Char) :
    fnmatchList ('*' :: ps) cs = starMatchAux (fnmatchList ps) cs := by
  simp [fnmatchList]

theorem fnmatchList_lit_nil (p : Char) (ps : List Char) (hp : p ≠ '*') :
    fnmatchList (p :: ps) [] = false := by
  simp [fnmatchList, hp]

theorem fnmatchList_lit_cons (p : Char) (ps : List Char) (hp : p ≠ '*')
    (c : Char) (cs : List Char) :
    fnmatchList (p :: ps) (c :: cs) = (decide (p = c) && fnmatchList ps cs) := by
  simp [fnmatchList, hp]

theorem fnmatchList_star_all (cs : List Char) : fnmatchList ['*'] cs = true := by
  rw [fnmatchList_star_cons, starMatchAux_iff]
  exact ⟨cs, [], by simp, by simp [fnmatchList]⟩

/-- The pattern `E*P*` accepts exactly the names of the form
`'E'` followed by anything, then `'P'`, then anything. -/
theorem fnmatch_EstarPstar (cs : List Char) :
    fnmatchList "E*P*".data cs = true ↔ ∃ xs ys, cs = 'E' :: (xs ++ 'P' :: ys) := by
  have hdata : ("E*P*".data : List Char) = 'E' :: '*' :: 'P' :: '*' :: [] := rfl
  rw [hdata]
  constructor
  · intro h
    match cs with
    | [] =>
      rw [fnmatchList_lit_nil _ _ (by decide)] at h
      exact absurd h (by simp)
    | c :: cs' =>
      rw [fnmatchList_lit_cons _ _ (by decide)] at h
      simp only [Bool.and_eq_true, decide_eq_true_eq] at h
      obtain ⟨hc, h2⟩ := h
      rw [fnmatchList_star_cons, starMatchAux_iff] at h2
      obtain ⟨a, b, hab, hb⟩ := h2
      match b, hb with
      | [], hb =>
        rw [fnmatchList_lit_nil _ _ (by decide)] at hb
        exact absurd hb (by simp)
      | d :: b', hb =>
        rw [fnmatchList_lit_cons _ _ (by decide)] at hb
        simp only [Bool.and_eq_true, decide_eq_true_eq] at hb
        obtain ⟨hd, _⟩ := hb
        exact ⟨a, b', by rw [← hc, hab, ← hd]⟩
  · rintro ⟨xs, ys, rfl⟩
    rw [fnmatchList_lit_cons _ _ (by decide)]
    simp only [Bool.and_eq_true, decide_eq_true_eq]
    refine ⟨by simp, ?_⟩
    rw [fnmatchList_star_cons, starMatchAux_iff]
    refine ⟨xs, 'P' :: ys, rfl, ?_⟩
    rw [fnmatchList_lit_cons _ _ (by decide)]
    simp only [Bool.and_eq_true, decide_eq_true_eq]
    exact ⟨by simp, fnmatchList_star_all ys⟩

/-! ## Filesystem model -/

/-- A filesystem state: files as an association list from absolute path to
contents, plus the set of existing directories. -/
structure FS where
  files : List (String × String)
  dirs : List String
deriving DecidableEq, Repr

/-- `os.path.isfile`. -/
def FS.isFile (fs : FS) (p : String) : Bool := fs.files.any (fun e => e.1 = p)

/-- `os.path.isdir`. -/
def FS.hasDir (fs : FS) (p : String) : Bool := fs.dirs.contains p

/-- `os.path.exists` for a string path. -/
def pathExists (fs : FS) (p : String) : Bool := fs.isFile p || fs.hasDir p

/-- Contents of the file at `p`, if any. -/
def FS.lookupFile (fs : FS) (p : String) : Option String :=
  (fs.files.find? (fun e => e.1 = p)).map (fun e => e.2)

/-- Overwrite-or-create update of the files association list, replacing an
existing binding in place. -/
def setEntry (p c : String) : List (String × String) → List (String × String)
  | [] => [(p, c)]
  | (q, d) :: t => if q = p then (p, c) :: t else (q, d) :: setEntry p c t

/-- Write `c` to the file at `p` (creating or overwriting it). -/
def FS.writeFile (fs : FS) (p c : String) : FS := ⟨setEntry p c fs.files, fs.dirs⟩

/-- `os.makedirs` at a call site where the parent already exists: one new
directory is created. -/
def FS.makedirs (fs : FS) (p : String) : FS := ⟨fs.files, fs.dirs ++ [p]⟩

/-- `os.remove`. -/
def FS.removeFile (fs : FS) (p : String) : FS :=
  ⟨fs.files.filter (fun e => e.1 ≠ p), fs.dirs⟩

/-- Errors the modelled Python code can raise. -/
inductive PyError where
  | fileNotFound (msg : String)
  | indexError
  | typeError (msg : String)
  | sameFileError
  | isADirectoryError (p : String)
  | notADirectoryError (p : String)
  | directoryNotEmpty (p : String)
deriving DecidableEq, Repr

/-- Whether an error is a `FileNotFoundError`. -/
def PyError.isFileNotFound : PyError → Bool
  | .fileNotFound _ => true
  | _ => false

/-- Whether an error is a `TypeError`. -/
def PyError.isTypeError : PyError → Bool
  | .typeError _ => true
  | _ => false

/-- Strictly-below relation on paths: `q` lies somewhere inside directory
`p`. -/
def pathUnder (p q : String) : Bool := (p ++ "/").data.isPrefixOf q.data

/-- `os.rmdir`: fails if the path is not a directory or the directory still
has entries. -/
def FS.rmdir (fs : FS) (p : String) : Except PyError FS :=
  if fs.hasDir p then
    if fs.files.any (fun e => pathUnder p e.1) || fs.dirs.any (fun d => pathUnder p d) then
      .error (.directoryNotEmpty p)
    else .ok ⟨fs.files, fs.dirs.erase p⟩
  else if fs.isFile p then .error (.notADirectoryError p)
  else .error (.fileNotFound p)

/-- The name of `p` as a direct child of directory `dir`, when it is one. -/
def childName (dir p : String) : Option String :=
  if (dir ++ "/").data.isPrefixOf p.data then
    let n := p.data.drop (dir.data.length + 1)
    if n ≠ [] ∧ ¬ n.any (fun c => c = '/') then some ⟨n⟩ else none
  else none

/-- The names of the direct children of `dir` (files and directories). -/
def childNames (fs : FS) (dir : String) : List String :=
  (fs.files.map Prod.fst).filterMap (childName dir) ++ fs.dirs.filterMap (childName dir)

/-- `glob.glob(os.path.join(dir, pat))` for a literal `dir` and a one-level
pattern `pat`: the matching, non-hidden direct children of `dir`, joined back
onto `dir`.  Python's enumeration order is unspecified; the model fixes the
lexicographic order. -/
def glob (fs : FS) (dir : String) (pat : String) : List String :=
  (sortStrings (((childNames fs dir).filter
      (fun n => fnmatch pat n && !hiddenName n)).dedup)).map (fun n => pyJoin dir n)

/-! ## Python values and `os`/`shutil` call wrappers -/

/-- A Python value that may flow into a path-typed position.  The `setup_lab`
script passes the boolean `-c` flag where a path is expected, so the model
keeps the dynamic type. -/
inductive PyVal where
  | str (s : String)
  | bool (b : Bool)
deriving DecidableEq, Repr

/-- `os.path.join(v, b)`: a `TypeError` when the first argument is a bool. -/
def osPathJoinChk : PyVal → String → Except PyError String
  | .str a, b => .ok (pyJoin a b)
  | .bool _, _ =>
    .error (.typeError "expected str, bytes or os.PathLike object, not bool")

/-- `os.path.exists(v)`.  A Python bool is an `int`, so `os.path.exists(True)`
checks file descriptor 1 (stdout) — which exists in a normal run — rather
than any path. -/
def osPathExistsArg (fs : FS) : PyVal → Bool
  | .str p => pathExists fs p
  | .bool _ => true

/-- `shutil.copy(src, dst)`: copy into `dst` if it is a directory, refuse to
copy a file onto itself (`SameFileError`) or a directory (`IsADirectoryError`),
and require the source file and the target's parent directory to exist. -/
def shutilCopy (fs : FS) (src dst : String) : Except PyError FS :=
  let dst2 := if fs.hasDir dst then pyJoin dst (pyBasename src) else dst
  if src = dst2 ∧ pathExists fs src then .error .sameFileError
  else if fs.hasDir src then .error (.isADirectoryError src)
  else match fs.lookupFile src with
    | none => .error (.fileNotFound src)
    | some c =>
      if fs.hasDir (pyDirname dst2) then .ok (fs.writeFile dst2 c)
      else .error (.notADirectoryError (pyDirname dst2))

/-! ## `OscilloscopeDataCopier` (helper.py) -/

/-- `OscilloscopeDataCopier.File`: a located file with the (possibly
renamed) name under which it will be saved. -/
structure File where
  location : String
  name : String
deriving DecidableEq, Repr

/-- `File.__init__`: record location and basename, `FileNotFoundError` if the
location does not exist. -/
def File.make (fs : FS) (location : String) : Except PyError File :=
  if pathExists fs location then .ok ⟨location, pyBasename location⟩
  else .error (.fileNotFound (location ++ " not found!"))

/-- `CSVFile.__init__`: construct the file, then (when `rename` is set)
rename it to `(location.split("/")[-2] + "." + name[-7:]).lower()`. -/
def CSVFile (fs : FS) (location : String) (rename : Bool) : Except PyError File := do
  let f ← File.make fs location
  if rename then
    match pyIdxSecondLast (pySplit location) with
    | none => throw .indexError
    | some parent =>
      pure { f with name := asciiLower (parent ++ "." ++ pyTakeRight f.name 7) }
  else pure f

/-- `JPGFile.__init__`: construct the file, then rename it to
`location.split("/")[-2].lower() + ".jpg"`. -/
def JPGFile (fs : FS) (location : String) : Except PyError File := do
  let f ← File.make fs location
  match pyIdxSecondLast (pySplit location) with
  | none => throw .indexError
  | some parent => pure { f with name := asciiLower parent ++ ".jpg" }

/-- `File.save(destination, verbose, softrun)`.  The `verbose or softrun`
branch formats a log line with `os.path.join(destination, self.name)`, so a
non-string destination raises `TypeError` there already; without `softrun`
the file is copied to that joined path.  On an exception the filesystem
state at the raise is returned alongside the error. -/
def File.save (fs : FS) (f : File) (destination : PyVal) (verbose softrun : Bool) :
    Except (PyError × FS) FS := do
  if ¬ osPathExistsArg fs destination then
    throw (.fileNotFound ((match destination with | .str s => s | .bool _ => "") ++
      " not found!"), fs)
  if verbose || softrun then
    match osPathJoinChk destination f.name with
    | .error e => throw (e, fs)
    | .ok _ => pure ()
  if softrun then
    pure fs
  else
    match osPathJoinChk destination f.name with
    | .error e => throw (e, fs)
    | .ok dst =>
      match shutilCopy fs f.location dst with
      | .error e => throw (e, fs)
      | .ok fs' => pure fs'

/-- The copier object: the drive root and the snapshot of exercise-part
folders found by `glob(os.path.join(drive_location, "E*P*"))`. -/
structure OscilloscopeDataCopier where
  drive_location : String
  exercise_parts : List String
deriving DecidableEq, Repr

/-- `OscilloscopeDataCopier.__init__(drive_name)`: look for the drive under
`/Volumes`, `FileNotFoundError` when absent, then glob the part folders. -/
def OscilloscopeDataCopier.make (fs : FS) (drive_name : String) :
    Except PyError OscilloscopeDataCopier :=
  let drive_location := pyJoin "/Volumes" drive_name
  if ¬ pathExists fs drive_location then
    .error (.fileNotFound ("There is no drive named " ++ drive_name))
  else .ok ⟨drive_location, glob fs drive_location "E*P*"⟩

/-- The JPG loop of `copy_scope_data`: for each part folder, save
`JPGFile(glob(os.path.join(exercise_part, "*.JPG"))[0])`; an empty glob is
the Python `IndexError` of the `[0]` subscript. -/
def saveJPGLoop (fs : FS) (parts : List String) (tsp : String)
    (verbose softrun : Bool) : Except (PyError × FS) FS :=
  match parts with
  | [] => pure fs
  | ep :: rest => do
    match glob fs ep "*.JPG" with
    | [] => throw (.indexError, fs)
    | j :: _ =>
      match JPGFile fs j with
      | .error e => throw (e, fs)
      | .ok f => do
        let fs' ← File.save fs f (.str tsp) verbose softrun
        saveJPGLoop fs' rest tsp verbose softrun

/-- The `save_jpg` phase of `copy_scope_data`: make `destination/jpgs` when
missing, run the JPG loop, and in a softrun remove the directory again. -/
def jpgPhase (fs : FS) (parts : List String) (destination : PyVal)
    (verbose softrun : Bool) : Except (PyError × FS) FS := do
  match osPathJoinChk destination "jpgs" with
  | .error e => throw (e, fs)
  | .ok tsp => do
    let fs1 := if pathExists fs tsp then fs else fs.makedirs tsp
    let fs2 ← saveJPGLoop fs1 parts tsp verbose softrun
    if softrun then
      match fs2.rmdir tsp with
      | .error e => throw (e, fs2)
      | .ok fs3 => pure fs3
    else pure fs2

/-- The inner CSV loop: save `CSVFile(csv_file, rename_csv)` for each glob
match into `to_save_path`. -/
def saveCSVLoop (fs : FS) (csvs : List String) (tsp : PyVal)
    (rename_csv verbose softrun : Bool) : Except (PyError × FS) FS :=
  match csvs with
  | [] => pure fs
  | cf :: rest => do
    match CSVFile fs cf rename_csv with
    | .error e => throw (e, fs)
    | .ok f => do
      let fs' ← File.save fs f tsp verbose softrun
      saveCSVLoop fs' rest tsp rename_csv verbose softrun

/-- The per-part CSV loop of `copy_scope_data`: choose `to_save_path`
(a joined per-part folder when `create_folders`, else the destination
itself), create it if needed, save the globbed CSV files, and in a softrun
with `create_folders` remove the folder again. -/
def csvPartsLoop (fs : FS) (parts : List String) (destination : PyVal)
    (create_folders rename_csv verbose softrun : Bool) : Except (PyError × FS) FS :=
  match parts with
  | [] => pure fs
  | ep :: rest => do
    let fs2 ←
      if create_folders then
        match osPathJoinChk destination (pyBasename ep) with
        | .error e => throw (e, fs)
        | .ok p => do
          let fs1 := if pathExists fs p then fs else fs.makedirs p
          let fs1' ← saveCSVLoop fs1 (glob fs1 ep "*.CSV") (.str p) rename_csv verbose softrun
          if softrun then
            match fs1'.rmdir p with
            | .error e => throw (e, fs1')
            | .ok x => pure x
          else pure fs1'
      else
        saveCSVLoop fs (glob fs ep "*.CSV") destination rename_csv verbose softrun
    csvPartsLoop fs2 rest destination create_folders rename_csv verbose softrun

/-- `OscilloscopeDataCopier.copy_scope_data(destination, create_folders,
rename_csv, save_jpg, verbose, softrun)`. -/
def OscilloscopeDataCopier.copy_scope_data (c : OscilloscopeDataCopier) (fs : FS)
    (destination : PyVal) (create_folders rename_csv save_jpg verbose softrun : Bool) :
    Except (PyError × FS) FS := do
  if ¬ osPathExistsArg fs destination then throw (.fileNotFound "", fs)
  let fs1 ←
    if save_jpg then jpgPhase fs c.exercise_parts destination verbose softrun
    else pure fs
  csvPartsLoop fs1 c.exercise_parts destination create_folders rename_csv verbose softrun

/-! ## `setup_lab.py` -/

/-- The parsed command line.  `argparse` with `nargs="+"` yields `None` when
a list flag is absent and a nonempty list otherwise. -/
structure Args where
  lab_number : Int
  num_exercises : Int
  generate_notebooks : Bool
  verbose : Bool
  drive_name : String
  c : Bool
  prelab_only : Bool
  student_names : Option (List String)
  student_ids : Option (List String)
deriving DecidableEq, Repr

/-- Python truthiness of an optional list: `not x` holds for `None` and for
an empty list. -/
def pyFalsyList : Option (List String) → Bool
  | none => true
  | some l => l.isEmpty

/-- The `parser.error` checks of `setup_lab.py` (lines 29–39), in program
order: notebook flags first, then the `--prelab-only`/`-c` conflict.
Returns the error message of the first failing check. -/
def validateArgs (a : Args) : Option String :=
  if a.generate_notebooks &&
      (pyFalsyList a.student_names || pyFalsyList a.student_ids) then
    some "You need to provide at least one student name and student id when generating notebooks"
  else if a.generate_notebooks &&
      ((a.student_names.getD []).length ≠ (a.student_ids.getD []).length) then
    some "There are a different number of student names and student ids"
  else if a.prelab_only && a.c then
    some "Can't copy and not copy data from the flash drive"
  else none

/-- The `name_string` accumulation loop for the notebook headers. -/
def nameString (names ids : List String) : String :=
  let pairs := names.zip ids
  let L := names.length
  (List.range pairs.length).foldl (fun acc idx =>
    let pr := pairs.getD idx ("", "")
    let suffix := if idx + 2 = L then ", and " else if idx + 1 ≠ L then ", " else ""
    acc ++ pr.1 ++ " (" ++ pr.2 ++ ")" ++ suffix) ""

/-- Modelled from the spec: the bytes `nbformat` serializes for the prelab
notebook.  Notebook JSON schemas are owned by the external `nbformat`
library (spec §1 non-goals), so the model records the notebook kind and the
inputs that flow into its cells. -/
def prelabNotebookContent (lab_number num_exercises : Int) (name_string : String) : String :=
  "prelab-notebook(" ++ toString lab_number ++ "," ++ toString num_exercises ++ "," ++
    name_string ++ ")"

/-- Modelled from the spec: the bytes `nbformat` serializes for the main lab
report notebook (see `prelabNotebookContent`). -/
def mainLabNotebookContent (lab_number num_exercises : Int) (name_string : String) : String :=
  "lab-report-notebook(" ++ toString lab_number ++ "," ++ toString num_exercises ++ "," ++
    name_string ++ ")"

/-- `os.makedirs(p)` guarded by `os.path.exists(p)`, the idiom used
throughout the scaffolding branch. -/
def makedirsIfAbsent (fs : FS) (p : String) : FS :=
  if pathExists fs p then fs else fs.makedirs p

/-- The scaffolding loop creating `assets`, `prelab` and `scope`. -/
def mkSubdirs (fs : FS) (lab_dir : String) : FS :=
  ["assets", "prelab", "scope"].foldl (fun s d => makedirsIfAbsent s (pyJoin lab_dir d)) fs

/-- The `exp<i>` loop under `prelab`, for `i` in `range(1, num_exercises+1)`. -/
def mkExpDirs (fs : FS) (lab_dir : String) (n : Nat) : FS :=
  (List.range n).foldl
    (fun s i => makedirsIfAbsent s (pyJoin (pyJoin lab_dir "prelab") ("exp" ++ toString (i + 1)))) fs

/-- The result of one `setup_lab.py` invocation: an argument-parser exit, a
propagated Python exception (with the filesystem state at the raise), or a
normal completion. -/
inductive RunResult where
  | usage (msg : String) (fs : FS)
  | raised (e : PyError) (fs : FS)
  | done (fs : FS)
deriving DecidableEq, Repr

/-- The notebook-generation tail of the scaffolding branch. -/
def genNotebooks (fs : FS) (a : Args) (lab_dir : String) : FS :=
  let ns := nameString (a.student_names.getD []) (a.student_ids.getD [])
  let fs1 := fs.writeFile (pyJoin lab_dir ("prelab" ++ toString a.lab_number ++ ".ipynb"))
    (prelabNotebookContent a.lab_number a.num_exercises ns)
  let report := pyJoin lab_dir ("Lab Report " ++ toString a.lab_number ++ ".ipynb")
  let fs2 := if pathExists fs1 report then fs1.removeFile report else fs1
  fs2.writeFile report (mainLabNotebookContent a.lab_number a.num_exercises ns)

/-- The `else` branch of `setup_lab.py` (lines 44–190): scaffold the lab
directory tree, copy the scope data unless `--prelab-only`, and generate the
notebooks when requested. -/
def scaffoldBranch (fs : FS) (cwd : String) (a : Args) : RunResult :=
  let lab_dir := pyJoin cwd ("Lab " ++ toString a.lab_number)
  let fs1 := makedirsIfAbsent fs lab_dir
  let fs2 := mkSubdirs fs1 lab_dir
  let fs3 := if a.num_exercises > 0 then mkExpDirs fs2 lab_dir a.num_exercises.toNat else fs2
  let afterCopy : Except (PyError × FS) FS :=
    if ¬ a.prelab_only then do
      match OscilloscopeDataCopier.make fs3 a.drive_name with
      | .error e => throw (e, fs3)
      | .ok copier =>
        copier.copy_scope_data fs3 (.str (pyJoin lab_dir "scope")) false true true a.verbose false
    else pure fs3
  match afterCopy with
  | .error (e, fsE) => .raised e fsE
  | .ok fs4 => .done (if a.generate_notebooks then genNotebooks fs4 a lab_dir else fs4)

/-- One full run of `setup_lab.py`: `parser.error` checks, then either the
copy-only branch — which passes the boolean `-c` flag itself as the
destination of `copy_scope_data` — or the scaffolding branch. -/
def setupLabRun (fs : FS) (cwd : String) (a : Args) : RunResult :=
  match validateArgs a with
  | some msg => .usage msg fs
  | none =>
    if a.c then
      match OscilloscopeDataCopier.make fs a.drive_name with
      | .error e => .raised e fs
      | .ok copier =>
        match copier.copy_scope_data fs (.bool a.c) false true true a.verbose false with
        | .error (e, fsE) => .raised e fsE
        | .ok fs' => .done fs'
    else scaffoldBranch fs cwd a

/-! ## Spec-side definitions and concrete states -/

/-- Modelled from the spec: a name of the fixed directory naming convention
`E<N>P<M>`, where `<N>` and `<M>` are (nonempty) numbers.  Used only to
compare the spec's convention against the glob pattern the code uses. -/
def isENPM (s : String) : Bool :=
  match s.data with
  | [] => false
  | c :: rest =>
    (c = 'E') &&
      ((rest.takeWhile (fun d => d.isDigit) ≠ []) &&
        (match rest.dropWhile (fun d => d.isDigit) with
          | [] => false
          | d :: ms => (d = 'P') && ((ms ≠ []) && ms.all (fun e => e.isDigit))))

/-- A drive `ECE65-DATA` holding one part folder `E1P1` with the Tektronix
file layout, and an unrelated destination directory. -/
def sampleDrive : FS :=
  ⟨[("/Volumes/ECE65-DATA/E1P1/F0000CH1.CSV", "ch1"),
    ("/Volumes/ECE65-DATA/E1P1/F0000CH2.CSV", "ch2"),
    ("/Volumes/ECE65-DATA/E1P1/F0000TEK.JPG", "jpg1"),
    ("/Volumes/ECE65-DATA/E1P1/F0000TEK.SET", "set1")],
   ["/", "/Volumes", "/Volumes/ECE65-DATA", "/Volumes/ECE65-DATA/E1P1", "/dest"]⟩

/-- A drive whose only part folder has a CSV but no JPG. -/
def noJpgDrive : FS :=
  ⟨[("/Volumes/D/E1P1/F0000CH1.CSV", "ch1")],
   ["/", "/Volumes", "/Volumes/D", "/Volumes/D/E1P1", "/dest"]⟩

/-- A drive whose top level holds a folder `EXPORT`: not of the `E<N>P<M>`
convention, yet matched by the glob pattern `E*P*`. -/
def exportDrive : FS :=
  ⟨[("/Volumes/D/EXPORT/X.CSV", "xdata")],
   ["/", "/Volumes", "/Volumes/D", "/Volumes/D/EXPORT", "/dest"]⟩

/-- A drive that already holds a file at the path a renamed copy will be
written to when the drive root itself is used as the destination. -/
def clobberState : FS :=
  ⟨[("/Volumes/D/E1P1/F0000CH1.CSV", "new"), ("/Volumes/D/e1p1.ch1.csv", "old")],
   ["/", "/Volumes", "/Volumes/D", "/Volumes/D/E1P1"]⟩

/-- Two part folders where `E1P1` is empty and used as the destination, so a
first copy writes into it and a second copy finds the written file. -/
def overlapState : FS :=
  ⟨[("/Volumes/D/E1P2/X.CSV", "x2")],
   ["/", "/Volumes", "/Volumes/D", "/Volumes/D/E1P1", "/Volumes/D/E1P2"]⟩

/-- The copier over `overlapState`. -/
def overlapCopier : OscilloscopeDataCopier :=
  ⟨"/Volumes/D", ["/Volumes/D/E1P1", "/Volumes/D/E1P2"]⟩

/-- The state `overlapState` reaches after one copy into `E1P1`. -/
def overlapState1 : FS :=
  ⟨[("/Volumes/D/E1P2/X.CSV", "x2"), ("/Volumes/D/E1P1/X.CSV", "x2")],
   ["/", "/Volumes", "/Volumes/D", "/Volumes/D/E1P1", "/Volumes/D/E1P2"]⟩

/-! ## C1: the CSV renaming formula -/

theorem pySplit_concat (pre p b : String)
    (hp : ∀ c ∈ p.data, c ≠ '/') (hb : ∀ c ∈ b.data, c ≠ '/') :
    pySplit (pre ++ "/" ++ p ++ "/" ++ b) = pySplit pre ++ [p, b] := by
  unfold pySplit
  have hdata : (pre ++ "/" ++ p ++ "/" ++ b).data =
      pre.data ++ '/' :: (p.data ++ '/' :: b.data) := by
    simp [string_append_data]
  rw [hdata, splitSlash_append, splitSlash_append,
    splitSlash_of_noSlash p.data hp, splitSlash_of_noSlash b.data hb]
  simp

theorem pyBasename_concat (pre p b : String)
    (hp : ∀ c ∈ p.data, c ≠ '/') (hb : ∀ c ∈ b.data, c ≠ '/') :
    pyBasename (pre ++ "/" ++ p ++ "/" ++ b) = b := by
  unfold pyBasename
  rw [pySplit_concat pre p b hp hb]
  simp

theorem pyIdxSecondLast_concat (pre p b : String)
    (hp : ∀ c ∈ p.data, c ≠ '/') (hb : ∀ c ∈ b.data, c ≠ '/') :
    pyIdxSecondLast (pySplit (pre ++ "/" ++ p ++ "/" ++ b)) = some p := by
  unfold pyIdxSecondLast
  rw [pySplit_concat pre p b hp hb]
  simp

/-- C1.  Constructing a `CSVFile` with `rename=True` on a path
`<pre>/<p>/<b>` sets the saved name to
`(p + "." + b[-7:]).lower()` — a function of the parent-directory name and
the last seven characters of the basename only — and on a channel file
`F0000CH<O>.CSV` this is `<p.lower()>.ch<o>.csv`. -/
theorem csv_rename_formula (fs : FS) (pre p b : String)
    (hp : ∀ c ∈ p.data, c ≠ '/') (hb : ∀ c ∈ b.data, c ≠ '/')
    (hex : pathExists fs (pre ++ "/" ++ p ++ "/" ++ b) = true) :
    CSVFile fs (pre ++ "/" ++ p ++ "/" ++ b) true =
      .ok ⟨pre ++ "/" ++ p ++ "/" ++ b, asciiLower (p ++ "." ++ pyTakeRight b 7)⟩ ∧
    (∀ ch : Char, b = "F0000CH" ++ String.mk [ch] ++ ".CSV" →
      asciiLower (p ++ "." ++ pyTakeRight b 7) =
        asciiLower p ++ ".ch" ++ String.mk [lowerChar ch] ++ ".csv") := by
  constructor
  · have h1 : File.make fs (pre ++ "/" ++ p ++ "/" ++ b) =
        .ok ⟨pre ++ "/" ++ p ++ "/" ++ b, b⟩ := by
      unfold File.make
      rw [pyBasename_concat pre p b hp hb, hex]
      simp
    unfold CSVFile
    rw [h1]
    simp [Bind.bind, Except.bind, pyIdxSecondLast_concat pre p b hp hb, Pure.pure, Except.pure]
  · rintro ch rfl
    have htr : pyTakeRight ("F0000CH" ++ String.mk [ch] ++ ".CSV") 7 =
        String.mk ('C' :: 'H' :: ch :: ".CSV".data) := by
      apply String.ext
      simp [pyTakeRight, string_append_data]
    rw [htr]
    apply String.ext
    simp only [asciiLower, string_append_data, string_data_mk, List.map_append]
    simp [lowerChar]

/-- Witness for `csv_rename_formula` at the sample drive state. -/
theorem csv_rename_formula_witness :
    CSVFile sampleDrive "/Volumes/ECE65-DATA/E1P1/F0000CH1.CSV" true =
      .ok ⟨"/Volumes/ECE65-DATA/E1P1/F0000CH1.CSV",
        asciiLower ("E1P1" ++ "." ++ pyTakeRight "F0000CH1.CSV" 7)⟩ ∧
    (∀ ch : Char, "F0000CH1.CSV" = "F0000CH" ++ String.mk [ch] ++ ".CSV" →
      asciiLower ("E1P1" ++ "." ++ pyTakeRight "F0000CH1.CSV" 7) =
        asciiLower "E1P1" ++ ".ch" ++ String.mk [lowerChar ch] ++ ".csv") :=
  csv_rename_formula sampleDrive "/Volumes/ECE65-DATA" "E1P1" "F0000CH1.CSV"
    (by decide) (by decide) (by decide)

/-! ## C3: missing drive / destination fail immediately, unchanged state -/

/-- C3.  A missing `/Volumes/<drive_name>` makes the constructor raise
`FileNotFoundError`, and a missing destination makes `copy_scope_data`
raise `FileNotFoundError` with the filesystem still in its initial state
(no directory created, no file copied). -/
theorem missing_paths_fail_immediately :
    (∀ (fs : FS) (drive_name : String),
      pathExists fs (pyJoin "/Volumes" drive_name) = false →
      OscilloscopeDataCopier.make fs drive_name =
        .error (.fileNotFound ("There is no drive named " ++ drive_name))) ∧
    (∀ (fs : FS) (c : OscilloscopeDataCopier) (d : String)
      (create_folders rename_csv save_jpg verbose softrun : Bool),
      pathExists fs d = false →
      c.copy_scope_data fs (.str d) create_folders rename_csv save_jpg verbose softrun =
        .error (.fileNotFound "", fs)) := by
  constructor
  · intro fs dn h
    simp [OscilloscopeDataCopier.make, h]
  · intro fs c d cf rn sj vb sr h
    simp [OscilloscopeDataCopier.copy_scope_data, osPathExistsArg, h,
      Bind.bind, Except.bind, throw, throwThe, MonadExceptOf.throw]

/-- Witness for `missing_paths_fail_immediately` on the empty filesystem. -/
theorem missing_paths_fail_immediately_witness :
    OscilloscopeDataCopier.make ⟨[], []⟩ "X" =
      .error (.fileNotFound "There is no drive named X") ∧
    OscilloscopeDataCopier.copy_scope_data ⟨"/Volumes/X", []⟩ ⟨[], []⟩ (.str "/d")
      false true true false false = .error (.fileNotFound "", ⟨[], []⟩) :=
  ⟨missing_paths_fail_immediately.1 ⟨[], []⟩ "X" (by decide),
   missing_paths_fail_immediately.2 ⟨[], []⟩ ⟨"/Volumes/X", []⟩ "/d"
     false true true false false (by decide)⟩

/-! ## C5: invalid flag combinations exit via parser errors -/

/-- C5.  Each invalid flag combination makes the run exit through a
`parser.error` with the filesystem untouched: `--generate-notebooks`
without names or ids, `--generate-notebooks` with differing counts, and
`--prelab-only` together with `-c`. -/
theorem invalid_flags_exit_via_usage (fs : FS) (cwd : String) (a : Args)
    (h : (a.generate_notebooks = true ∧
            (pyFalsyList a.student_names = true ∨ pyFalsyList a.student_ids = true)) ∨
         (a.generate_notebooks = true ∧
            (a.student_names.getD []).length ≠ (a.student_ids.getD []).length) ∨
         (a.prelab_only = true ∧ a.c = true)) :
    ∃ msg, setupLabRun fs cwd a = .usage msg fs := by
  have hv : validateArgs a ≠ none := by
    unfold validateArgs
    rcases h with ⟨hg, hf | hf⟩ | ⟨hg, hl⟩ | ⟨hp, hc⟩ <;>
      split_ifs <;> simp_all
  match hva : validateArgs a with
  | none => exact absurd hva hv
  | some msg =>
    refine ⟨msg, ?_⟩
    unfold setupLabRun
    rw [hva]

/-- Witness for `invalid_flags_exit_via_usage`: `--prelab-only` with `-c`. -/
theorem invalid_flags_exit_via_usage_witness :
    ∃ msg, setupLabRun ⟨[], []⟩ "/cwd"
      ⟨1, 0, false, false, "ECE65-DATA", true, true, none, none⟩ =
      .usage msg ⟨[], []⟩ :=
  invalid_flags_exit_via_usage ⟨[], []⟩ "/cwd"
    ⟨1, 0, false, false, "ECE65-DATA", true, true, none, none⟩
    (Or.inr (Or.inr ⟨rfl, rfl⟩))

/-! ## C7: the `-c` (copy-only) branch -/

/-- C7 (code bug).  With `-c` and a valid, populated drive mounted, the run
does not copy anything: `setup_lab.py` line 43 passes the boolean flag
`copy_only` itself as the destination of `copy_scope_data`, so
`os.path.join(destination, "jpgs")` raises `TypeError` with the filesystem
untouched, instead of copying the scope data into a directory. -/
theorem copy_only_branch_raises_typeerror :
    setupLabRun sampleDrive "/home/user"
      ⟨4, 0, false, false, "ECE65-DATA", true, false, none, none⟩ =
      .raised (.typeError "expected str, bytes or os.PathLike object, not bool")
        sampleDrive := rfl

/-! ## C2: which directories are selected -/

/-- C2 is false as stated: the drive's top-level folder `EXPORT` is not of
the form `E<N>P<M>` (no numbers), yet `glob("E*P*")` selects it and
`copy_scope_data` copies its CSV out (renamed `export.x.csv`). -/
theorem non_ENPM_directory_selected :
    OscilloscopeDataCopier.make exportDrive "D" =
      .ok ⟨"/Volumes/D", ["/Volumes/D/EXPORT"]⟩ ∧
    isENPM "EXPORT" = false ∧
    (match OscilloscopeDataCopier.copy_scope_data ⟨"/Volumes/D", ["/Volumes/D/EXPORT"]⟩
        exportDrive (.str "/dest") false true false false false with
     | .ok fs' => fs'.lookupFile "/dest/export.x.csv"
     | .error _ => none) = some "xdata" :=
  ⟨rfl, rfl, rfl⟩

theorem mem_glob (fs : FS) (dir pat : String) (p : String) :
    p ∈ glob fs dir pat ↔
      ∃ n, n ∈ childNames fs dir ∧ (fnmatch pat n && !hiddenName n) = true ∧
        p = pyJoin dir n := by
  unfold glob
  simp only [List.mem_map, mem_sortStrings, List.mem_dedup, List.mem_filter]
  constructor
  · rintro ⟨n, ⟨hn, hm⟩, rfl⟩
    exact ⟨n, hn, hm, rfl⟩
  · rintro ⟨n, hn, hm, rfl⟩
    exact ⟨n, ⟨hn, hm⟩, rfl⟩

/-- C2 as amended.  The selection is exactly by the glob pattern `E*P*`:
a top-level entry is selected iff its name is `'E'`, anything, `'P'`,
anything — which every `E<N>P<M>` name satisfies, but also names such as
`EXPORT` with non-numeric infixes. -/
theorem selection_is_EstarPstar (fs : FS) (drive_name : String)
    (c : OscilloscopeDataCopier)
    (h : OscilloscopeDataCopier.make fs drive_name = .ok c) :
    (∀ p, p ∈ c.exercise_parts ↔
      ∃ n, n ∈ childNames fs (pyJoin "/Volumes" drive_name) ∧
        p = pyJoin (pyJoin "/Volumes" drive_name) n ∧
        ∃ xs ys, n.data = 'E' :: (xs ++ 'P' :: ys)) ∧
    (∀ s, isENPM s = true → ∃ xs ys, s.data = 'E' :: (xs ++ 'P' :: ys)) := by
  constructor
  · intro p
    have hc : c.exercise_parts = glob fs (pyJoin "/Volumes" drive_name) "E*P*" := by
      simp only [OscilloscopeDataCopier.make] at h
      split_ifs at h with h1
      injection h with h2
      rw [← h2]
    rw [hc, mem_glob]
    constructor
    · rintro ⟨n, hn, hm, rfl⟩
      simp only [Bool.and_eq_true] at hm
      have hp : ∃ xs ys, n.data = 'E' :: (xs ++ 'P' :: ys) :=
        (fnmatch_EstarPstar n.data).mp hm.1
      exact ⟨n, hn, rfl, hp⟩
    · rintro ⟨n, hn, rfl, xs, ys, hd⟩
      refine ⟨n, hn, ?_, rfl⟩
      simp only [Bool.and_eq_true]
      refine ⟨(fnmatch_EstarPstar n.data).mpr ⟨xs, ys, hd⟩, ?_⟩
      unfold hiddenName
      rw [hd]
      simp
  · intro s hs
    unfold isENPM at hs
    match hd : s.data with
    | [] => rw [hd] at hs; simp at hs
    | c :: rest =>
      rw [hd] at hs
      simp only [Bool.and_eq_true, decide_eq_true_eq] at hs
      obtain ⟨hcE, hds, hrest⟩ := hs
      subst hcE
      match h2 : rest.dropWhile (fun d => d.isDigit) with
      | [] => rw [h2] at hrest; simp at hrest
      | d :: ms =>
        rw [h2] at hrest
        simp only [Bool.and_eq_true, decide_eq_true_eq] at hrest
        obtain ⟨hdP, hms, hall⟩ := hrest
        subst hdP
        refine ⟨rest.takeWhile (fun d => d.isDigit), ms, ?_⟩
        conv_lhs => rw [← List.takeWhile_append_dropWhile (p := fun d => d.isDigit) (l := rest)]
        rw [h2]

/-- Witness for `selection_is_EstarPstar` at the export-folder drive. -/
theorem selection_is_EstarPstar_witness :
    (∀ p, p ∈ (["/Volumes/D/EXPORT"] : List String) ↔
      ∃ n, n ∈ childNames exportDrive (pyJoin "/Volumes" "D") ∧
        p = pyJoin (pyJoin "/Volumes" "D") n ∧
        ∃ xs ys, n.data = 'E' :: (xs ++ 'P' :: ys)) ∧
    (∀ s, isENPM s = true → ∃ xs ys, s.data = 'E' :: (xs ++ 'P' :: ys)) :=
  selection_is_EstarPstar exportDrive "D" ⟨"/Volumes/D", ["/Volumes/D/EXPORT"]⟩ rfl

/-! ## C4: which exceptions the copier can raise -/

/-- C4 is false as stated: with `save_jpg` (the default) and a matched part
folder containing no JPG file, `copy_scope_data` raises the `IndexError` of
the `glob(...)[0]` subscript — not a `FileNotFoundError`. -/
theorem copy_raises_indexerror :
    OscilloscopeDataCopier.copy_scope_data ⟨"/Volumes/D", ["/Volumes/D/E1P1"]⟩
      noJpgDrive (.str "/dest") false true true false false =
      .error (.indexError, noJpgDrive.makedirs "/dest/jpgs") ∧
    PyError.indexError.isFileNotFound = false :=
  ⟨rfl, rfl⟩

theorem splitSlash_length_two (l : List Char) (h : '/' ∈ l) :
    2 ≤ (splitSlash l).length := by
  induction l with
  | nil => simp at h
  | cons c rest ih =>
    have hne : splitSlash rest ≠ [] := splitSlash_ne_nil rest
    have hlen : 1 ≤ (splitSlash rest).length := by
      cases hsp : splitSlash rest
      · exact absurd hsp hne
      · simp
    by_cases hc : c = '/'
    · subst hc
      simp only [splitSlash, if_pos rfl]
      simp
      omega
    · have hmem : '/' ∈ rest := by
        rcases List.mem_cons.mp h with h1 | h1
        · exact absurd h1.symm hc
        · exact h1
      have h2 := ih hmem
      simp only [splitSlash, if_neg hc]
      simp only [List.length_cons, List.length_tail]
      omega

theorem pyIdxSecondLast_some (l : List String) (h : 2 ≤ l.length) :
    ∃ x, pyIdxSecondLast l = some x := by
  unfold pyIdxSecondLast
  match hr : l.reverse with
  | [] =>
    have hc := congrArg List.length hr
    rw [List.length_reverse] at hc
    simp only [List.length_nil] at hc
    omega
  | [a] =>
    have hc := congrArg List.length hr
    rw [List.length_reverse] at hc
    simp only [List.length_cons, List.length_nil] at hc
    omega
  | a :: b :: t => exact ⟨b, rfl⟩

theorem pySplit_length_two (loc : String) (h : '/' ∈ loc.data) :
    2 ≤ (pySplit loc).length := by
  unfold pySplit
  rw [List.length_map]
  exact splitSlash_length_two loc.data h

/-- C4 as amended.  Constructing the copier or a `File`/`CSVFile`/`JPGFile`
(on a slash-containing path, as every glob result is) can only fail with a
`FileNotFoundError`; `copy_scope_data`, however, can raise exceptions that
are not path-existence failures — in particular `IndexError` when
`save_jpg` is set and a matched part folder holds no JPG file. -/
theorem error_classes :
    (∀ (fs : FS) (loc : String) (e : PyError),
      File.make fs loc = .error e → e.isFileNotFound = true) ∧
    (∀ (fs : FS) (dn : String) (e : PyError),
      OscilloscopeDataCopier.make fs dn = .error e → e.isFileNotFound = true) ∧
    (∀ (fs : FS) (loc : String) (rename : Bool) (e : PyError), '/' ∈ loc.data →
      CSVFile fs loc rename = .error e → e.isFileNotFound = true) ∧
    (∀ (fs : FS) (loc : String) (e : PyError), '/' ∈ loc.data →
      JPGFile fs loc = .error e → e.isFileNotFound = true) ∧
    OscilloscopeDataCopier.copy_scope_data ⟨"/Volumes/D", ["/Volumes/D/E1P1"]⟩
      noJpgDrive (.str "/dest") false true true false false =
      .error (.indexError, noJpgDrive.makedirs "/dest/jpgs") := by
  refine ⟨?_, ?_, ?_, ?_, rfl⟩
  · intro fs loc e h
    unfold File.make at h
    split_ifs at h
    injection h with h2
    rw [← h2]
    rfl
  · intro fs dn e h
    simp only [OscilloscopeDataCopier.make] at h
    split_ifs at h
    injection h with h2
    rw [← h2]
    rfl
  · intro fs loc rename e hslash h
    unfold CSVFile at h
    by_cases hex : pathExists fs loc = true
    · have hmk : File.make fs loc = .ok ⟨loc, pyBasename loc⟩ := by
        unfold File.make
        rw [hex]
        simp
      rw [hmk] at h
      simp only [Bind.bind, Except.bind] at h
      cases rename with
      | false => simp [Pure.pure, Except.pure] at h
      | true =>
        obtain ⟨x, hx⟩ := pyIdxSecondLast_some (pySplit loc) (pySplit_length_two loc hslash)
        rw [hx] at h
        simp [Pure.pure, Except.pure] at h
    · have hmk : File.make fs loc = .error (.fileNotFound (loc ++ " not found!")) := by
        unfold File.make
        rw [if_neg hex]
      rw [hmk] at h
      simp only [Bind.bind, Except.bind] at h
      injection h with h2
      rw [← h2]
      rfl
  · intro fs loc e hslash h
    unfold JPGFile at h
    by_cases hex : pathExists fs loc = true
    · have hmk : File.make fs loc = .ok ⟨loc, pyBasename loc⟩ := by
        unfold File.make
        rw [hex]
        simp
      rw [hmk] at h
      simp only [Bind.bind, Except.bind] at h
      obtain ⟨x, hx⟩ := pyIdxSecondLast_some (pySplit loc) (pySplit_length_two loc hslash)
      rw [hx] at h
      simp [Pure.pure, Except.pure] at h
    · have hmk : File.make fs loc = .error (.fileNotFound (loc ++ " not found!")) := by
        unfold File.make
        rw [if_neg hex]
      rw [hmk] at h
      simp only [Bind.bind, Except.bind] at h
      injection h with h2
      rw [← h2]
      rfl

/-- Witness for `error_classes` at concrete inputs. -/
theorem error_classes_witness :
    File.make (⟨[], []⟩ : FS) "/x" = .error (.fileNotFound "/x not found!") ∧
    (PyError.fileNotFound "/x not found!").isFileNotFound = true ∧
    '/' ∈ "/a/b".data ∧
    CSVFile (⟨[], []⟩ : FS) "/a/b" true = .error (.fileNotFound "/a/b not found!") :=
  ⟨rfl, error_classes.1 ⟨[], []⟩ "/x" (.fileNotFound "/x not found!") rfl, by decide, rfl⟩

/-! ## Generic `Except` plumbing -/

theorem bind_eq_ok {α β γ : Type} {x : Except γ α} {k : α → Except γ β} {b : β}
    (h : (x >>= k) = .ok b) : ∃ a, x = .ok a ∧ k a = .ok b := by
  cases x with
  | error e => simp [Bind.bind, Except.bind] at h
  | ok a => exact ⟨a, rfl, by simpa [Bind.bind, Except.bind] using h⟩

theorem ok_bind {α β γ : Type} (a : α) (k : α → Except γ β) :
    ((Except.ok a : Except γ α) >>= k) = k a := by
  simp [Bind.bind, Except.bind]


/-! ## C9: a successful softrun leaves the filesystem unchanged -/

theorem save_softrun_skips_copy (g : FS) (f : File) (dst : PyVal) (vb : Bool) :
    File.save g f dst vb true = .ok g ∨
      ∃ e, File.save g f dst vb true = .error (e, g) := by
  unfold File.save
  by_cases hex : osPathExistsArg g dst = true
  · cases hj : osPathJoinChk dst f.name with
    | error e =>
      right
      refine ⟨e, ?_⟩
      simp [hex, hj, Bind.bind, Except.bind, throw, throwThe, MonadExceptOf.throw,
        Pure.pure, Except.pure]
    | ok p =>
      left
      simp [hex, hj, Bind.bind, Except.bind, Pure.pure, Except.pure]
  · cases dst with
    | str s =>
      right
      refine ⟨.fileNotFound (s ++ " not found!"), ?_⟩
      simp only [hex]
      simp [Bind.bind, Except.bind, throw, throwThe, MonadExceptOf.throw]
    | bool b => exact absurd rfl hex

theorem saveJPGLoop_softrun (parts : List String) (g g' : FS) (tsp : String) (vb : Bool)
    (h : saveJPGLoop g parts tsp vb true = .ok g') : g' = g := by
  induction parts generalizing g with
  | nil =>
    unfold saveJPGLoop at h
    injection h with h2
    exact h2.symm
  | cons ep rest ih =>
    unfold saveJPGLoop at h
    cases hg : glob g ep "*.JPG" with
    | nil => simp only [hg] at h; simp [throw, throwThe, MonadExceptOf.throw] at h
    | cons j js =>
      simp only [hg] at h
      cases hj : JPGFile g j with
      | error e =>
        simp only [hj] at h
        simp [throw, throwThe, MonadExceptOf.throw] at h
      | ok f =>
        simp only [hj] at h
        rcases save_softrun_skips_copy g f (.str tsp) vb with hs | ⟨e, hs⟩
        · rw [hs, ok_bind] at h
          exact ih g h
        · rw [hs] at h
          simp [Bind.bind, Except.bind] at h

theorem saveCSVLoop_softrun (csvs : List String) (g g' : FS) (tsp : PyVal)
    (rn vb : Bool) (h : saveCSVLoop g csvs tsp rn vb true = .ok g') : g' = g := by
  induction csvs generalizing g with
  | nil =>
    unfold saveCSVLoop at h
    injection h with h2
    exact h2.symm
  | cons cf rest ih =>
    unfold saveCSVLoop at h
    cases hc : CSVFile g cf rn with
    | error e =>
      simp only [hc] at h
      simp [throw, throwThe, MonadExceptOf.throw] at h
    | ok f =>
      simp only [hc] at h
      rcases save_softrun_skips_copy g f tsp vb with hs | ⟨e, hs⟩
      · rw [hs, ok_bind] at h
        exact ih g h
      · rw [hs] at h
        simp [Bind.bind, Except.bind] at h

theorem erase_append_singleton {p : String} {l : List String} (h : p ∉ l) :
    (l ++ [p]).erase p = l := by
  rw [List.erase_append_right _ h, List.erase_cons_head, List.append_nil]

theorem jpgPhase_softrun (parts : List String) (fs fs' : FS) (d : String) (vb : Bool)
    (habsent : pathExists fs (pyJoin d "jpgs") = false)
    (h : jpgPhase fs parts (.str d) vb true = .ok fs') : fs' = fs := by
  unfold jpgPhase at h
  simp only [osPathJoinChk] at h
  rw [if_neg (by simp [habsent])] at h
  obtain ⟨fs2, h2, h3⟩ := bind_eq_ok h
  have hfs2 : fs2 = fs.makedirs (pyJoin d "jpgs") := saveJPGLoop_softrun _ _ _ _ _ h2
  subst hfs2
  rw [if_pos trivial] at h3
  have hnotin : pyJoin d "jpgs" ∉ fs.dirs := by
    intro hmem
    have hD : fs.hasDir (pyJoin d "jpgs") = true := by
      simp only [FS.hasDir, List.elem_iff]
      exact hmem
    simp [pathExists, hD] at habsent
  have hdirs : (fs.makedirs (pyJoin d "jpgs")).hasDir (pyJoin d "jpgs") = true := by
    simp [FS.makedirs, FS.hasDir, List.elem_iff]
  unfold FS.rmdir at h3
  rw [hdirs] at h3
  rw [if_pos rfl] at h3
  split_ifs at h3 with hne
  simp only [FS.makedirs] at h3
  rw [erase_append_singleton hnotin] at h3
  simp only [Pure.pure, Except.pure] at h3
  injection h3 with h4
  exact h4.symm

theorem rmdir_after_makedirs (fs : FS) (p : String) (hnotin : p ∉ fs.dirs)
    {x : FS} (h : (fs.makedirs p).rmdir p = .ok x) : x = fs := by
  have hdirs : (fs.makedirs p).hasDir p = true := by
    simp [FS.makedirs, FS.hasDir, List.elem_iff]
  unfold FS.rmdir at h
  rw [hdirs] at h
  rw [if_pos rfl] at h
  split_ifs at h with hne
  simp only [FS.makedirs] at h
  rw [erase_append_singleton hnotin] at h
  injection h with h2
  exact h2.symm

theorem pathExists_false_notin_dirs (fs : FS) (p : String)
    (h : pathExists fs p = false) : p ∉ fs.dirs := by
  intro hmem
  have hD : fs.hasDir p = true := by
    simp only [FS.hasDir, List.elem_iff]
    exact hmem
  simp [pathExists, hD] at h

theorem csvPartsLoop_softrun (parts : List String) (fs fs' : FS) (d : String)
    (cf rn vb : Bool)
    (habsent : cf = true → ∀ ep ∈ parts, pathExists fs (pyJoin d (pyBasename ep)) = false)
    (h : csvPartsLoop fs parts (.str d) cf rn vb true = .ok fs') : fs' = fs := by
  induction parts generalizing fs with
  | nil =>
    unfold csvPartsLoop at h
    injection h with h2
    exact h2.symm
  | cons ep rest ih =>
    unfold csvPartsLoop at h
    cases cf with
    | false =>
      rw [if_neg (by simp)] at h
      obtain ⟨fs2, hA, hB⟩ := bind_eq_ok h
      have hfs2 : fs2 = fs := saveCSVLoop_softrun _ _ _ _ _ _ hA
      rw [hfs2] at hB
      exact ih fs (fun hcf => absurd hcf (by simp)) hB
    | true =>
      rw [if_pos rfl] at h
      simp only [osPathJoinChk] at h
      have hep : pathExists fs (pyJoin d (pyBasename ep)) = false :=
        habsent rfl ep (by simp)
      rw [if_neg (by simp [hep])] at h
      obtain ⟨fs1, hA1, hrest⟩ := bind_eq_ok h
      have hfs1 : fs1 = fs.makedirs (pyJoin d (pyBasename ep)) :=
        saveCSVLoop_softrun _ _ _ _ _ _ hA1
      subst hfs1
      rw [if_pos trivial] at hrest
      cases hr : (fs.makedirs (pyJoin d (pyBasename ep))).rmdir (pyJoin d (pyBasename ep)) with
      | error e =>
        simp only [hr] at hrest
        simp [Bind.bind, Except.bind, throw, throwThe, MonadExceptOf.throw] at hrest
      | ok x =>
        simp only [hr] at hrest
        rw [pure_bind] at hrest
        have hx : x = fs := rmdir_after_makedirs fs _ (pathExists_false_notin_dirs fs _ hep) hr
        rw [hx] at hrest
        exact ih fs (fun hcf ep' hep' => habsent hcf ep' (by simp [hep'])) hrest

/-- C9.  With `softrun=True` a successful `copy_scope_data` writes nothing:
`File.save` skips the copy, and when the destination did not already
contain `jpgs` (for `save_jpg`) or the per-part folders (for
`create_folders`), every directory created during the run is removed again,
so the filesystem is returned exactly as it was. -/
theorem softrun_leaves_destination_unchanged (fs fs' : FS) (c : OscilloscopeDataCopier)
    (d : String) (create_folders rename_csv save_jpg verbose : Bool)
    (hjpg : save_jpg = true → pathExists fs (pyJoin d "jpgs") = false)
    (hcf : create_folders = true →
      ∀ ep ∈ c.exercise_parts, pathExists fs (pyJoin d (pyBasename ep)) = false)
    (hok : c.copy_scope_data fs (.str d) create_folders rename_csv save_jpg verbose true =
      .ok fs') :
    fs' = fs ∧
    ∀ (g : FS) (f : File) (dst : PyVal) (vb : Bool),
      File.save g f dst vb true = .ok g ∨ ∃ e, File.save g f dst vb true = .error (e, g) := by
  refine ⟨?_, fun g f dst vb => save_softrun_skips_copy g f dst vb⟩
  unfold OscilloscopeDataCopier.copy_scope_data at hok
  by_cases hex : osPathExistsArg fs (.str d) = true
  · rw [if_neg (by simp [hex])] at hok
    simp only [pure_bind] at hok
    cases save_jpg with
    | true =>
      rw [if_pos rfl] at hok
      obtain ⟨fs1, hA, hB⟩ := bind_eq_ok hok
      have hfs1 : fs1 = fs := jpgPhase_softrun _ _ _ _ _ (hjpg rfl) hA
      rw [hfs1] at hB
      exact csvPartsLoop_softrun _ _ _ _ _ _ _ hcf hB
    | false =>
      rw [if_neg (by simp)] at hok
      exact csvPartsLoop_softrun _ _ _ _ _ _ _ hcf hok
  · rw [if_pos (by simp [hex])] at hok
    simp [Bind.bind, Except.bind, throw, throwThe, MonadExceptOf.throw] at hok

/-- Witness for `softrun_leaves_destination_unchanged` at the sample drive. -/
theorem softrun_leaves_destination_unchanged_witness :
    sampleDrive = sampleDrive ∧
    ∀ (g : FS) (f : File) (dst : PyVal) (vb : Bool),
      File.save g f dst vb true = .ok g ∨ ∃ e, File.save g f dst vb true = .error (e, g) :=
  softrun_leaves_destination_unchanged sampleDrive sampleDrive
    ⟨"/Volumes/ECE65-DATA", ["/Volumes/ECE65-DATA/E1P1"]⟩ "/dest" false true true false
    (fun _ => by decide) (fun hcf => absurd hcf (by decide)) rfl

/-! ## Path-cone and write-frame infrastructure -/

theorem string_append_assoc (a b c : String) : (a ++ b) ++ c = a ++ (b ++ c) := by
  apply String.ext
  simp [string_append_data]

/-- `t` is the destination itself or lies below it. -/
def inCone (d t : String) : Prop := t = d ∨ pathUnder d t = true

/-- Neither of the two directories contains (or equals) the other. -/
def partsSeparated (d ep : String) : Prop :=
  ¬ (d ++ "/").data <+: (ep ++ "/").data ∧ ¬ (ep ++ "/").data <+: (d ++ "/").data

theorem pathUnder_append (d s r : String) (h : pathUnder d s = true) :
    pathUnder d (s ++ r) = true := by
  unfold pathUnder at h ⊢
  rw [List.isPrefixOf_iff_prefix] at h ⊢
  rw [string_append_data]
  exact h.trans (List.prefix_append s.data r.data)

theorem pyJoin_extends (s b : String) (hb : b.data.head? ≠ some '/') :
    ∃ r, pyJoin s b = s ++ r := by
  unfold pyJoin
  rw [if_neg hb]
  by_cases h2 : s.data = [] ∨ s.data.getLast? = some '/'
  · rw [if_pos h2]
    exact ⟨b, rfl⟩
  · rw [if_neg h2]
    exact ⟨"/" ++ b, string_append_assoc s "/" b⟩

theorem pyJoin_good (a b : String) (ha : goodPath a) (hb : b.data.head? ≠ some '/') :
    pyJoin a b = a ++ "/" ++ b := by
  unfold pyJoin
  rw [if_neg hb, if_neg (by push_neg; exact ha)]

theorem pathUnder_join_self (d b : String) (hg : goodPath d) (hb : b.data.head? ≠ some '/') :
    pathUnder d (pyJoin d b) = true := by
  rw [pyJoin_good d b hg hb]
  unfold pathUnder
  rw [List.isPrefixOf_iff_prefix, string_append_data]
  exact List.prefix_append _ _

theorem pathUnder_cone (d t b : String) (hg : goodPath d) (hc : inCone d t)
    (hb : b.data.head? ≠ some '/') : pathUnder d (pyJoin t b) = true := by
  rcases hc with rfl | hu
  · exact pathUnder_join_self t b hg hb
  · obtain ⟨r, hr⟩ := pyJoin_extends t b hb
    rw [hr]
    exact pathUnder_append d t r hu

/-- A path under the destination is not under a separated part folder. -/
theorem not_under_of_separated (d ep q : String) (hsep : partsSeparated d ep)
    (hq : pathUnder d q = true) : pathUnder ep q = false := by
  by_contra hne
  have hep : pathUnder ep q = true := by
    cases h : pathUnder ep q
    · exact absurd h hne
    · rfl
  unfold pathUnder at hq hep
  rw [List.isPrefixOf_iff_prefix] at hq hep
  rcases List.prefix_or_prefix_of_prefix hq hep with h | h
  · exact hsep.1 h
  · exact hsep.2 h

/-- The two directories of a separated pair are distinct. -/
theorem ne_of_separated (d ep : String) (hsep : partsSeparated d ep) : d ≠ ep := by
  intro h
  subst h
  exact hsep.1 (List.prefix_refl _)

theorem childName_none_of_not_under (ep q : String) (h : pathUnder ep q = false) :
    childName ep q = none := by
  unfold childName
  unfold pathUnder at h
  rw [h]
  rfl

/-! ### Write operations and their frame lemmas -/

theorem setEntry_keys (p c : String) (l : List (String × String)) :
    (setEntry p c l).map Prod.fst =
      if l.any (fun e => e.1 = p) then l.map Prod.fst else l.map Prod.fst ++ [p] := by
  induction l with
  | nil => simp [setEntry]
  | cons e t ih =>
    by_cases he : e.1 = p
    · simp [setEntry, he]
    · simp only [setEntry, if_neg he, List.map_cons, List.any_cons, ih]
      simp only [he, decide_False, Bool.false_or]
      split_ifs <;> simp

theorem childNames_writeFile (fs : FS) (w c ep : String) (h : childName ep w = none) :
    childNames (fs.writeFile w c) ep = childNames fs ep := by
  unfold childNames FS.writeFile
  simp only []
  rw [setEntry_keys]
  split_ifs
  · rfl
  · rw [List.filterMap_append]
    simp [h]

theorem childNames_makedirs (fs : FS) (p ep : String) (h : childName ep p = none) :
    childNames (fs.makedirs p) ep = childNames fs ep := by
  unfold childNames FS.makedirs
  simp only []
  rw [List.filterMap_append]
  simp [h]

theorem glob_congr (fs1 fs2 : FS) (dir pat : String)
    (h : childNames fs1 dir = childNames fs2 dir) : glob fs1 dir pat = glob fs2 dir pat := by
  unfold glob
  rw [h]

theorem lookup_writeFile_ne (fs : FS) (w c q : String) (h : q ≠ w) :
    (fs.writeFile w c).lookupFile q = fs.lookupFile q := by
  have hwq : (decide (w = q)) = false := by
    simp only [decide_eq_false_iff_not]
    exact fun hh => h hh.symm
  unfold FS.writeFile FS.lookupFile
  simp only []
  induction fs.files with
  | nil => simp [setEntry, List.find?, hwq]
  | cons e t ih =>
    by_cases he : e.1 = w
    · have heq : (decide (e.1 = q)) = false := by
        simp only [decide_eq_false_iff_not]
        intro hh
        exact h (hh ▸ he)
      simp only [setEntry, if_pos he, List.find?, hwq, heq]
    · simp only [setEntry, if_neg he, List.find?]
      cases hq : (decide (e.1 = q)) <;> simp [hq, ih]

theorem lookup_writeFile_self (fs : FS) (w c : String) :
    (fs.writeFile w c).lookupFile w = some c := by
  unfold FS.writeFile FS.lookupFile
  simp only []
  induction fs.files with
  | nil => simp [setEntry, List.find?]
  | cons e t ih =>
    by_cases he : e.1 = w
    · simp [setEntry, if_pos he, List.find?]
    · have heq : (decide (e.1 = w)) = false := by
        simp only [decide_eq_false_iff_not]
        exact he
      simp only [setEntry, if_neg he, List.find?, heq]
      exact ih

theorem any_setEntry_of (w c q : String) (l : List (String × String))
    (h : l.any (fun e => e.1 = q) = true) :
    (setEntry w c l).any (fun e => e.1 = q) = true := by
  induction l with
  | nil => simp at h
  | cons e t ih =>
    simp only [List.any_cons, Bool.or_eq_true] at h
    by_cases he : e.1 = w
    · simp only [setEntry, if_pos he, List.any_cons, Bool.or_eq_true]
      rcases h with h | h
      · left
        simp only [decide_eq_true_eq] at h ⊢
        rw [← he]
        exact h
      · right
        exact h
    · simp only [setEntry, if_neg he, List.any_cons, Bool.or_eq_true]
      rcases h with h | h
      · left
        exact h
      · right
        exact ih h

theorem isFile_writeFile_of (fs : FS) (w c q : String) (h : fs.isFile q = true) :
    (fs.writeFile w c).isFile q = true := by
  unfold FS.isFile at h ⊢
  unfold FS.writeFile
  simp only []
  exact any_setEntry_of w c q fs.files h

theorem hasDir_makedirs_ne (fs : FS) (p q : String) (h : q ≠ p) :
    (fs.makedirs p).hasDir q = fs.hasDir q := by
  unfold FS.makedirs FS.hasDir
  simp only []
  by_cases hq : q ∈ fs.dirs <;> simp [List.elem_iff, hq, h]

/-! ### Slash-freedom of the names the copier constructs -/

theorem splitSlash_comp_noSlash (l : List Char) :
    ∀ comp ∈ splitSlash l, ∀ ch ∈ comp, ch ≠ '/' := by
  induction l with
  | nil => simp [splitSlash]
  | cons c rest ih =>
    by_cases hc : c = '/'
    · subst hc
      simp only [splitSlash, if_pos rfl]
      intro comp hcomp
      rcases List.mem_cons.mp hcomp with rfl | hmem
      · simp
      · exact ih comp hmem
    · simp only [splitSlash, if_neg hc]
      intro comp hcomp
      have hne := splitSlash_ne_nil rest
      match hsp : splitSlash rest with
      | [] => exact absurd hsp hne
      | h0 :: t0 =>
        rw [hsp] at hcomp
        simp only [List.headD_cons, List.tail_cons] at hcomp
        rcases List.mem_cons.mp hcomp with rfl | hmem
        · intro ch hch
          rcases List.mem_cons.mp hch with rfl | hch'
          · exact hc
          · exact ih h0 (by rw [hsp]; simp) ch hch'
        · exact ih comp (by rw [hsp]; simp [hmem])

theorem mem_reverse_head {α : Type} (l : List α) (x : α) (t : List α)
    (h : l.reverse = x :: t) : x ∈ l := by
  have : x ∈ l.reverse := by rw [h]; simp
  simpa using this

theorem pyBasename_noSlash (p : String) : ∀ ch ∈ (pyBasename p).data, ch ≠ '/' := by
  unfold pyBasename
  match hr : (pySplit p).reverse with
  | [] => simp
  | x :: t =>
    have hx : x ∈ pySplit p := mem_reverse_head _ _ _ hr
    unfold pySplit at hx
    obtain ⟨comp, hcomp, rfl⟩ := List.mem_map.mp hx
    exact splitSlash_comp_noSlash p.data comp hcomp

theorem pyIdxSecondLast_mem (l : List String) (x : String)
    (h : pyIdxSecondLast l = some x) : x ∈ l := by
  unfold pyIdxSecondLast at h
  match hr : l.reverse with
  | [] => rw [hr] at h; simp at h
  | [a] => rw [hr] at h; simp at h
  | a :: b :: t =>
    rw [hr] at h
    injection h with h2
    rw [← h2]
    have : b ∈ l.reverse := by rw [hr]; simp
    simpa using this

theorem head_ne_slash_of_noSlash (s : String) (h : ∀ ch ∈ s.data, ch ≠ '/') :
    s.data.head? ≠ some '/' := by
  cases hd : s.data with
  | nil => simp
  | cons c cs =>
    simp only [List.head?_cons, ne_eq, Option.some.injEq]
    intro hc
    exact h c (by rw [hd]; simp) hc

theorem lowerChar_ne_slash (c : Char) (h : c ≠ '/') : lowerChar c ≠ '/' := by
  unfold lowerChar
  split_ifs with hAZ
  · intro heq
    have hv : (c.toNat + 32).isValidChar := by
      have h90 : c.toNat ≤ 90 := hAZ.2
      left
      omega
    have h65 : 65 ≤ c.toNat := hAZ.1
    have ht : (Char.ofNat (c.toNat + 32)).toNat = c.toNat + 32 := by
      rw [Char.ofNat, dif_pos hv]
      rfl
    rw [heq] at ht
    have : ('/' : Char).toNat = 47 := rfl
    omega
  · exact h

theorem asciiLower_noSlash (s : String) (h : ∀ ch ∈ s.data, ch ≠ '/') :
    ∀ ch ∈ (asciiLower s).data, ch ≠ '/' := by
  unfold asciiLower
  intro ch hch
  simp only [string_data_mk, List.mem_map] at hch
  obtain ⟨c0, hc0, rfl⟩ := hch
  exact lowerChar_ne_slash c0 (h c0 hc0)

theorem noSlash_append (a b : String) (ha : ∀ ch ∈ a.data, ch ≠ '/')
    (hb : ∀ ch ∈ b.data, ch ≠ '/') : ∀ ch ∈ (a ++ b).data, ch ≠ '/' := by
  intro ch hch
  rw [string_append_data] at hch
  rcases List.mem_append.mp hch with h | h
  · exact ha ch h
  · exact hb ch h

theorem pyTakeRight_noSlash (s : String) (n : Nat) (h : ∀ ch ∈ s.data, ch ≠ '/') :
    ∀ ch ∈ (pyTakeRight s n).data, ch ≠ '/' := by
  unfold pyTakeRight
  intro ch hch
  simp only [string_data_mk] at hch
  exact h ch (List.mem_of_mem_drop hch)

theorem File_make_name_noSlash (fs : FS) (loc : String) (f : File)
    (h : File.make fs loc = .ok f) : ∀ ch ∈ f.name.data, ch ≠ '/' := by
  unfold File.make at h
  split_ifs at h
  injection h with h2
  rw [← h2]
  exact pyBasename_noSlash loc

theorem CSVFile_name_noSlash (fs : FS) (loc : String) (rn : Bool) (f : File)
    (h : CSVFile fs loc rn = .ok f) : ∀ ch ∈ f.name.data, ch ≠ '/' := by
  unfold CSVFile at h
  cases hmk : File.make fs loc with
  | error e => rw [hmk] at h; simp [Bind.bind, Except.bind] at h
  | ok f0 =>
    rw [hmk] at h
    simp only [Bind.bind, Except.bind] at h
    cases rn with
    | false =>
      simp only [Pure.pure, Except.pure] at h
      injection h with h2
      rw [← h2]
      exact File_make_name_noSlash fs loc f0 hmk
    | true =>
      cases hp : pyIdxSecondLast (pySplit loc) with
      | none => rw [hp] at h; simp [throw, throwThe, MonadExceptOf.throw] at h
      | some parent =>
        rw [hp] at h
        simp only [Pure.pure, Except.pure] at h
        injection h with h2
        rw [← h2]
        apply asciiLower_noSlash
        apply noSlash_append
        · apply noSlash_append
          · have hpmem := pyIdxSecondLast_mem _ _ hp
            unfold pySplit at hpmem
            obtain ⟨comp, hcomp, rfl⟩ := List.mem_map.mp hpmem
            exact splitSlash_comp_noSlash loc.data comp hcomp
          · intro ch hch
            rw [show ("." : String).data = ['.'] from rfl] at hch
            rcases List.mem_singleton.mp hch with rfl
            decide
        · exact pyTakeRight_noSlash f0.name 7 (File_make_name_noSlash fs loc f0 hmk)

theorem JPGFile_name_noSlash (fs : FS) (loc : String) (f : File)
    (h : JPGFile fs loc = .ok f) : ∀ ch ∈ f.name.data, ch ≠ '/' := by
  unfold JPGFile at h
  cases hmk : File.make fs loc with
  | error e => rw [hmk] at h; simp [Bind.bind, Except.bind] at h
  | ok f0 =>
    rw [hmk] at h
    simp only [Bind.bind, Except.bind] at h
    cases hp : pyIdxSecondLast (pySplit loc) with
    | none => rw [hp] at h; simp [throw, throwThe, MonadExceptOf.throw] at h
    | some parent =>
      rw [hp] at h
      simp only [Pure.pure, Except.pure] at h
      injection h with h2
      rw [← h2]
      apply noSlash_append
      · apply asciiLower_noSlash
        have hpmem := pyIdxSecondLast_mem _ _ hp
        unfold pySplit at hpmem
        obtain ⟨comp, hcomp, rfl⟩ := List.mem_map.mp hpmem
        exact splitSlash_comp_noSlash loc.data comp hcomp
      · intro ch hch
        rw [show (".jpg" : String).data = ['.', 'j', 'p', 'g'] from rfl] at hch
        have hd4 : ch = '.' ∨ ch = 'j' ∨ ch = 'p' ∨ ch = 'g' := by simpa using hch
        rcases hd4 with rfl | rfl | rfl | rfl <;> decide

/-! ### The frame property: writes stay under the destination -/

/-- `fs2` differs from `fs` only inside the cone of `d`: outside it, file
contents and directory status agree; no file was removed anywhere; and the
children of any directory separated from `d` are unchanged. -/
def FrameOutside (d : String) (fs fs2 : FS) : Prop :=
  (∀ q, pathUnder d q = false → fs2.lookupFile q = fs.lookupFile q) ∧
  (∀ q, pathUnder d q = false → fs2.hasDir q = fs.hasDir q) ∧
  (∀ q, fs.isFile q = true → fs2.isFile q = true) ∧
  (∀ ep, partsSeparated d ep → childNames fs2 ep = childNames fs ep)

theorem frameOutside_refl (d : String) (fs : FS) : FrameOutside d fs fs :=
  ⟨fun _ _ => rfl, fun _ _ => rfl, fun _ h => h, fun _ _ => rfl⟩

theorem frameOutside_trans (d : String) (a b c : FS)
    (h1 : FrameOutside d a b) (h2 : FrameOutside d b c) : FrameOutside d a c :=
  ⟨fun q hq => (h2.1 q hq).trans (h1.1 q hq),
   fun q hq => (h2.2.1 q hq).trans (h1.2.1 q hq),
   fun q hq => h2.2.2.1 q (h1.2.2.1 q hq),
   fun ep hsep => (h2.2.2.2 ep hsep).trans (h1.2.2.2 ep hsep)⟩

theorem frameOutside_write (d w c : String) (fs : FS) (hw : pathUnder d w = true) :
    FrameOutside d fs (fs.writeFile w c) := by
  refine ⟨?_, ?_, ?_, ?_⟩
  · intro q hq
    have hne : q ≠ w := by
      intro h
      rw [h, hw] at hq
      exact absurd hq (by simp)
    exact lookup_writeFile_ne fs w c q hne
  · intro q _
    rfl
  · intro q hq
    exact isFile_writeFile_of fs w c q hq
  · intro ep hsep
    exact childNames_writeFile fs w c ep
      (childName_none_of_not_under ep w (not_under_of_separated d ep w hsep hw))

theorem frameOutside_makedirs (d w : String) (fs : FS) (hw : pathUnder d w = true) :
    FrameOutside d fs (fs.makedirs w) := by
  refine ⟨?_, ?_, ?_, ?_⟩
  · intro q _
    rfl
  · intro q hq
    have hne : q ≠ w := by
      intro h
      rw [h, hw] at hq
      exact absurd hq (by simp)
    exact hasDir_makedirs_ne fs w q hne
  · intro q hq
    exact hq
  · intro ep hsep
    exact childNames_makedirs fs w ep
      (childName_none_of_not_under ep w (not_under_of_separated d ep w hsep hw))

theorem shutilCopy_frame (d : String) (fs fs2 : FS) (src dst : String)
    (hdst : pathUnder d dst = true)
    (hok : shutilCopy fs src dst = .ok fs2) : FrameOutside d fs fs2 := by
  unfold shutilCopy at hok
  dsimp only [] at hok
  generalize hD : (if fs.hasDir dst = true then pyJoin dst (pyBasename src) else dst) = dst2 at hok
  have hdst2 : pathUnder d dst2 = true := by
    rw [← hD]
    split_ifs
    · obtain ⟨r, hr⟩ := pyJoin_extends dst (pyBasename src)
        (head_ne_slash_of_noSlash _ (pyBasename_noSlash src))
      rw [hr]
      exact pathUnder_append d dst r hdst
    · exact hdst
  split_ifs at hok
  · cases hl : fs.lookupFile src with
    | none => rw [hl] at hok; exact absurd hok (by simp)
    | some c0 =>
      rw [hl] at hok
      dsimp only [] at hok
      injection hok with h4
      rw [← h4]
      exact frameOutside_write d dst2 c0 fs hdst2
  · cases hl : fs.lookupFile src with
    | none => rw [hl] at hok; exact absurd hok (by simp)
    | some c0 => rw [hl] at hok; exact absurd hok (by simp)

theorem save_frame (d t : String) (fs fs2 : FS) (f : File) (vb : Bool)
    (hg : goodPath d) (hc : inCone d t)
    (hname : ∀ ch ∈ f.name.data, ch ≠ '/')
    (hok : File.save fs f (.str t) vb false = .ok fs2) : FrameOutside d fs fs2 := by
  unfold File.save at hok
  by_cases hex : osPathExistsArg fs (.str t) = true
  · rw [if_neg (by simp [hex])] at hok
    simp only [osPathJoinChk, Bool.or_false] at hok
    have hdst : pathUnder d (pyJoin t f.name) = true :=
      pathUnder_cone d t f.name hg hc (head_ne_slash_of_noSlash _ hname)
    cases hs : shutilCopy fs f.location (pyJoin t f.name) with
    | error e =>
      simp only [hs] at hok
      cases vb <;>
        simp [Bind.bind, Except.bind, throw, throwThe, MonadExceptOf.throw,
          Pure.pure, Except.pure] at hok
    | ok x =>
      simp only [hs] at hok
      have hx : x = fs2 := by
        cases vb <;>
          simp [Bind.bind, Except.bind, Pure.pure, Except.pure] at hok <;>
          exact hok
      rw [← hx]
      exact shutilCopy_frame d fs x f.location (pyJoin t f.name) hdst hs
  · rw [if_pos (by simp [hex])] at hok
    simp [Bind.bind, Except.bind, throw, throwThe, MonadExceptOf.throw] at hok

theorem saveJPGLoop_frame (d tsp : String) (parts : List String) (fs fs2 : FS) (vb : Bool)
    (hg : goodPath d) (hc : inCone d tsp)
    (hok : saveJPGLoop fs parts tsp vb false = .ok fs2) : FrameOutside d fs fs2 := by
  induction parts generalizing fs with
  | nil =>
    unfold saveJPGLoop at hok
    injection hok with h2
    rw [h2]
    exact frameOutside_refl d fs2
  | cons ep rest ih =>
    unfold saveJPGLoop at hok
    cases hgl : glob fs ep "*.JPG" with
    | nil =>
      simp only [hgl] at hok
      simp [throw, throwThe, MonadExceptOf.throw] at hok
    | cons j js =>
      simp only [hgl] at hok
      cases hj : JPGFile fs j with
      | error e =>
        simp only [hj] at hok
        simp [throw, throwThe, MonadExceptOf.throw] at hok
      | ok f =>
        simp only [hj] at hok
        obtain ⟨g1, hA, hB⟩ := bind_eq_ok hok
        exact frameOutside_trans d fs g1 fs2
          (save_frame d tsp fs g1 f vb hg hc (JPGFile_name_noSlash fs j f hj) hA)
          (ih g1 hB)

theorem saveCSVLoop_frame (d t : String) (csvs : List String) (fs fs2 : FS)
    (rn vb : Bool) (hg : goodPath d) (hc : inCone d t)
    (hok : saveCSVLoop fs csvs (.str t) rn vb false = .ok fs2) : FrameOutside d fs fs2 := by
  induction csvs generalizing fs with
  | nil =>
    unfold saveCSVLoop at hok
    injection hok with h2
    rw [h2]
    exact frameOutside_refl d fs2
  | cons cf rest ih =>
    unfold saveCSVLoop at hok
    cases hcv : CSVFile fs cf rn with
    | error e =>
      simp only [hcv] at hok
      simp [throw, throwThe, MonadExceptOf.throw] at hok
    | ok f =>
      simp only [hcv] at hok
      obtain ⟨g1, hA, hB⟩ := bind_eq_ok hok
      exact frameOutside_trans d fs g1 fs2
        (save_frame d t fs g1 f vb hg hc (CSVFile_name_noSlash fs cf rn f hcv) hA)
        (ih g1 hB)

theorem csvPartsLoop_frame (d : String) (parts : List String) (fs fs2 : FS)
    (cf rn vb : Bool) (hg : goodPath d)
    (hok : csvPartsLoop fs parts (.str d) cf rn vb false = .ok fs2) :
    FrameOutside d fs fs2 := by
  induction parts generalizing fs with
  | nil =>
    unfold csvPartsLoop at hok
    injection hok with h2
    rw [h2]
    exact frameOutside_refl d fs2
  | cons ep rest ih =>
    unfold csvPartsLoop at hok
    cases cf with
    | false =>
      rw [if_neg (by simp)] at hok
      obtain ⟨g1, hA, hB⟩ := bind_eq_ok hok
      exact frameOutside_trans d fs g1 fs2
        (saveCSVLoop_frame d d _ fs g1 rn vb hg (Or.inl rfl) hA)
        (ih g1 hB)
    | true =>
      rw [if_pos rfl] at hok
      simp only [osPathJoinChk] at hok
      have hpU : pathUnder d (pyJoin d (pyBasename ep)) = true :=
        pathUnder_join_self d (pyBasename ep) hg
          (head_ne_slash_of_noSlash _ (pyBasename_noSlash ep))
      by_cases hexp : pathExists fs (pyJoin d (pyBasename ep)) = true
      · rw [if_pos hexp] at hok
        obtain ⟨g1, hA, hB⟩ := bind_eq_ok hok
        rw [if_neg (by simp)] at hB
        rw [pure_bind] at hB
        exact frameOutside_trans d fs g1 fs2
          (saveCSVLoop_frame d _ _ fs g1 rn vb hg (Or.inr hpU) hA)
          (ih g1 hB)
      · rw [if_neg hexp] at hok
        obtain ⟨g1, hA, hB⟩ := bind_eq_ok hok
        rw [if_neg (by simp)] at hB
        rw [pure_bind] at hB
        exact frameOutside_trans d fs g1 fs2
          (frameOutside_trans d fs (fs.makedirs (pyJoin d (pyBasename ep))) g1
            (frameOutside_makedirs d _ fs hpU)
            (saveCSVLoop_frame d _ _ _ g1 rn vb hg (Or.inr hpU) hA))
          (ih g1 hB)

theorem jpgPhase_frame (d : String) (parts : List String) (fs fs2 : FS) (vb : Bool)
    (hg : goodPath d)
    (hok : jpgPhase fs parts (.str d) vb false = .ok fs2) : FrameOutside d fs fs2 := by
  unfold jpgPhase at hok
  simp only [osPathJoinChk] at hok
  have htspU : pathUnder d (pyJoin d "jpgs") = true :=
    pathUnder_join_self d "jpgs" hg (by decide)
  by_cases hexT : pathExists fs (pyJoin d "jpgs") = true
  · rw [if_pos hexT] at hok
    obtain ⟨g1, hA, hB⟩ := bind_eq_ok hok
    rw [if_neg (by simp)] at hB
    simp only [Pure.pure, Except.pure] at hB
    injection hB with h2
    rw [← h2]
    exact saveJPGLoop_frame d _ parts fs g1 vb hg (Or.inr htspU) hA
  · rw [if_neg hexT] at hok
    obtain ⟨g1, hA, hB⟩ := bind_eq_ok hok
    rw [if_neg (by simp)] at hB
    simp only [Pure.pure, Except.pure] at hB
    injection hB with h2
    rw [← h2]
    exact frameOutside_trans d fs (fs.makedirs (pyJoin d "jpgs")) g1
      (frameOutside_makedirs d _ fs htspU)
      (saveJPGLoop_frame d _ parts _ g1 vb hg (Or.inr htspU) hA)

/-- C8 is false as stated: when the destination is the drive root itself,
the run overwrites a pre-existing file on the drive (`/Volumes/D/e1p1.ch1.csv`
goes from "old" to the copied contents "new"). -/
theorem drive_file_overwritten_when_destination_on_drive :
    (match OscilloscopeDataCopier.copy_scope_data ⟨"/Volumes/D", ["/Volumes/D/E1P1"]⟩
        clobberState (.str "/Volumes/D") false true false false false with
     | .ok fs' => fs'.lookupFile "/Volumes/D/e1p1.ch1.csv"
     | .error _ => none) = some "new" ∧
    clobberState.lookupFile "/Volumes/D/e1p1.ch1.csv" = some "old" :=
  ⟨rfl, rfl⟩

/-- C8 as amended.  A (non-softrun) `copy_scope_data` writes only below its
destination: every path not under the destination keeps its file contents
and its directory status, and no file anywhere is removed (`shutil.copy`,
never a move).  In particular all drive files are untouched whenever the
destination does not lie inside the drive. -/
theorem copy_preserves_outside_destination (fs fs' : FS) (c : OscilloscopeDataCopier)
    (d : String) (cf rn sj vb : Bool) (hg : goodPath d)
    (hok : c.copy_scope_data fs (.str d) cf rn sj vb false = .ok fs') :
    (∀ q, pathUnder d q = false → fs'.lookupFile q = fs.lookupFile q) ∧
    (∀ q, pathUnder d q = false → fs'.hasDir q = fs.hasDir q) ∧
    (∀ q, fs.isFile q = true → fs'.isFile q = true) := by
  have hframe : FrameOutside d fs fs' := by
    unfold OscilloscopeDataCopier.copy_scope_data at hok
    by_cases hex : osPathExistsArg fs (.str d) = true
    · rw [if_neg (by simp [hex])] at hok
      simp only [pure_bind] at hok
      cases sj with
      | true =>
        rw [if_pos rfl] at hok
        obtain ⟨g1, hA, hB⟩ := bind_eq_ok hok
        exact frameOutside_trans d fs g1 fs' (jpgPhase_frame d _ fs g1 vb hg hA)
          (csvPartsLoop_frame d _ g1 fs' cf rn vb hg hB)
      | false =>
        rw [if_neg (by simp)] at hok
        exact csvPartsLoop_frame d _ fs fs' cf rn vb hg hok
    · rw [if_pos (by simp [hex])] at hok
      simp [Bind.bind, Except.bind, throw, throwThe, MonadExceptOf.throw] at hok
  exact ⟨hframe.1, hframe.2.1, hframe.2.2.1⟩

/-- The state the sample-drive copy produces. -/
def sampleCopyResult : FS :=
  ⟨[("/Volumes/ECE65-DATA/E1P1/F0000CH1.CSV", "ch1"),
    ("/Volumes/ECE65-DATA/E1P1/F0000CH2.CSV", "ch2"),
    ("/Volumes/ECE65-DATA/E1P1/F0000TEK.JPG", "jpg1"),
    ("/Volumes/ECE65-DATA/E1P1/F0000TEK.SET", "set1"),
    ("/dest/jpgs/e1p1.jpg", "jpg1"),
    ("/dest/e1p1.ch1.csv", "ch1"),
    ("/dest/e1p1.ch2.csv", "ch2")],
   ["/", "/Volumes", "/Volumes/ECE65-DATA", "/Volumes/ECE65-DATA/E1P1", "/dest",
    "/dest/jpgs"]⟩

/-- Witness for `copy_preserves_outside_destination` at the sample drive. -/
theorem copy_preserves_outside_destination_witness :
    (∀ q, pathUnder "/dest" q = false →
      sampleCopyResult.lookupFile q = sampleDrive.lookupFile q) ∧
    (∀ q, pathUnder "/dest" q = false →
      sampleCopyResult.hasDir q = sampleDrive.hasDir q) ∧
    (∀ q, sampleDrive.isFile q = true → sampleCopyResult.isFile q = true) :=
  copy_preserves_outside_destination sampleDrive sampleCopyResult
    ⟨"/Volumes/ECE65-DATA", ["/Volumes/ECE65-DATA/E1P1"]⟩ "/dest" false true true false
    (by constructor <;> decide) rfl

/-! ## C10: one JPG per part folder, into `jpgs`, renamed -/

theorem childName_shape (dir p n : String) (h : childName dir p = some n) :
    n.data ≠ [] ∧ (∀ ch ∈ n.data, ch ≠ '/') := by
  unfold childName at h
  dsimp only [] at h
  split_ifs at h with h1 h2
  injection h with h3
  rw [← h3]
  refine ⟨h2.1, ?_⟩
  intro ch hch heq
  exact h2.2 (List.any_eq_true.mpr ⟨ch, hch, by simp [heq]⟩)

theorem mem_childNames_shape (fs : FS) (dir n : String) (h : n ∈ childNames fs dir) :
    n.data ≠ [] ∧ (∀ ch ∈ n.data, ch ≠ '/') := by
  unfold childNames at h
  rcases List.mem_append.mp h with h1 | h1
  · obtain ⟨p, _, hp⟩ := List.mem_filterMap.mp h1
    exact childName_shape dir p n hp
  · obtain ⟨p, _, hp⟩ := List.mem_filterMap.mp h1
    exact childName_shape dir p n hp

theorem glob_shape (fs : FS) (dir pat j : String) (h : j ∈ glob fs dir pat) :
    ∃ n, j = pyJoin dir n ∧ n.data ≠ [] ∧ (∀ ch ∈ n.data, ch ≠ '/') ∧
      fnmatch pat n = true := by
  obtain ⟨n, hn, hm, rfl⟩ := (mem_glob fs dir pat j).mp h
  obtain ⟨hne, hsl⟩ := mem_childNames_shape fs dir n hn
  simp only [Bool.and_eq_true] at hm
  exact ⟨n, rfl, hne, hsl, hm.1⟩

/-- Splitting `pyJoin ep n` when `ep` is a good path and `n` slash-free:
the basename is `n` and the second-to-last component is `basename ep`. -/
theorem join_split_facts (ep n : String) (hg : goodPath ep)
    (hn : ∀ ch ∈ n.data, ch ≠ '/') :
    pyBasename (pyJoin ep n) = n ∧
    pyIdxSecondLast (pySplit (pyJoin ep n)) = some (pyBasename ep) := by
  have hjoin : pyJoin ep n = ep ++ "/" ++ n :=
    pyJoin_good ep n hg (head_ne_slash_of_noSlash n hn)
  have hsplit : pySplit (pyJoin ep n) = pySplit ep ++ [n] := by
    rw [hjoin]
    unfold pySplit
    have hdata : (ep ++ "/" ++ n).data = ep.data ++ '/' :: n.data := by
      simp [string_append_data]
    rw [hdata, splitSlash_append, splitSlash_of_noSlash n.data hn]
    simp
  have hne : pySplit ep ≠ [] := by
    unfold pySplit
    simp [splitSlash_ne_nil]
  constructor
  · unfold pyBasename
    rw [hsplit, List.reverse_append]
    simp
  · unfold pyIdxSecondLast pyBasename
    rw [hsplit, List.reverse_append]
    match hr : (pySplit ep).reverse with
    | [] => exact absurd (by simpa using congrArg List.reverse hr) hne
    | b :: t => simp [hr]

theorem fnmatchList_noStar (ps : List Char) (h : '*' ∉ ps) (cs : List Char) :
    fnmatchList ps cs = true ↔ cs = ps := by
  induction ps generalizing cs with
  | nil => cases cs <;> simp [fnmatchList]
  | cons p pt ih =>
    have hp : p ≠ '*' := fun he => h (he ▸ List.mem_cons_self p pt)
    cases cs with
    | nil =>
      rw [fnmatchList_lit_nil p pt hp]
      simp
    | cons c ct =>
      rw [fnmatchList_lit_cons p pt hp]
      simp only [Bool.and_eq_true, decide_eq_true_eq,
        ih (fun hm => h (List.mem_cons.mpr (Or.inr hm)))]
      constructor
      · rintro ⟨rfl, rfl⟩
        rfl
      · intro h2
        injection h2 with h3 h4
        exact ⟨h3.symm, h4⟩

theorem fnmatch_starDotCSV (cs : List Char) :
    fnmatchList "*.CSV".data cs = true ↔ ∃ a, cs = a ++ ".CSV".data := by
  have hdata : ("*.CSV".data : List Char) = '*' :: ".CSV".data := rfl
  rw [hdata, fnmatchList_star_cons, starMatchAux_iff]
  constructor
  · rintro ⟨a, b, rfl, hb⟩
    rw [fnmatchList_noStar ".CSV".data (by decide) b] at hb
    exact ⟨a, by rw [hb]⟩
  · rintro ⟨a, rfl⟩
    exact ⟨a, ".CSV".data, rfl, (fnmatchList_noStar ".CSV".data (by decide) _).mpr rfl⟩

theorem CSVFile_ok_inv (g : FS) (cf : String) (rn : Bool) (f : File)
    (h : CSVFile g cf rn = .ok f) :
    pathExists g cf = true ∧ f.location = cf ∧
    (rn = false → f.name = pyBasename cf) ∧
    (rn = true → ∃ parent, pyIdxSecondLast (pySplit cf) = some parent ∧
      f.name = asciiLower (parent ++ "." ++ pyTakeRight (pyBasename cf) 7)) := by
  unfold CSVFile File.make at h
  by_cases hex : pathExists g cf = true
  · rw [if_pos hex] at h
    simp only [Bind.bind, Except.bind] at h
    refine ⟨hex, ?_⟩
    cases rn with
    | false =>
      simp only [Pure.pure, Except.pure] at h
      injection h with h2
      rw [← h2]
      exact ⟨rfl, fun _ => rfl, fun hc => absurd hc (by simp)⟩
    | true =>
      cases hp : pyIdxSecondLast (pySplit cf) with
      | none =>
        rw [hp] at h
        simp [throw, throwThe, MonadExceptOf.throw] at h
      | some parent =>
        rw [hp] at h
        simp only [Pure.pure, Except.pure] at h
        injection h with h2
        rw [← h2]
        exact ⟨rfl, fun hc => absurd hc (by simp), fun _ => ⟨parent, rfl, rfl⟩⟩
  · rw [if_neg hex] at h
    simp [Bind.bind, Except.bind] at h

theorem JPGFile_ok_inv (g : FS) (j : String) (f : File)
    (h : JPGFile g j = .ok f) :
    pathExists g j = true ∧ f.location = j ∧
    ∃ parent, pyIdxSecondLast (pySplit j) = some parent ∧
      f.name = asciiLower parent ++ ".jpg" := by
  unfold JPGFile File.make at h
  by_cases hex : pathExists g j = true
  · rw [if_pos hex] at h
    simp only [Bind.bind, Except.bind] at h
    cases hp : pyIdxSecondLast (pySplit j) with
    | none =>
      rw [hp] at h
      simp [throw, throwThe, MonadExceptOf.throw] at h
    | some parent =>
      rw [hp] at h
      simp only [Pure.pure, Except.pure] at h
      injection h with h2
      rw [← h2]
      exact ⟨hex, rfl, parent, rfl, rfl⟩
  · rw [if_neg hex] at h
    simp [Bind.bind, Except.bind] at h

theorem shutilCopy_ok_inv (g g2 : FS) (src dst : String)
    (hnodir : g.hasDir dst = false)
    (hok : shutilCopy g src dst = .ok g2) :
    ∃ cont, g.lookupFile src = some cont ∧ g2 = g.writeFile dst cont := by
  unfold shutilCopy at hok
  dsimp only [] at hok
  rw [hnodir] at hok
  have hred : (if (false : Bool) = true then pyJoin dst (pyBasename src) else dst) = dst := by
    simp
  simp only [hred] at hok
  split_ifs at hok
  · cases hl : g.lookupFile src with
    | none => rw [hl] at hok; exact absurd hok (by simp)
    | some c0 =>
      rw [hl] at hok
      dsimp only [] at hok
      injection hok with h4
      exact ⟨c0, rfl, h4.symm⟩
  · cases hl : g.lookupFile src with
    | none => rw [hl] at hok; exact absurd hok (by simp)
    | some c0 => rw [hl] at hok; exact absurd hok (by simp)

theorem save_writes_target (g g1 : FS) (f : File) (t : String) (vb : Bool)
    (hnodir : g.hasDir (pyJoin t f.name) = false)
    (hok : File.save g f (.str t) vb false = .ok g1) :
    ∃ cont, g.lookupFile f.location = some cont ∧
      g1 = g.writeFile (pyJoin t f.name) cont := by
  unfold File.save at hok
  by_cases hex : osPathExistsArg g (.str t) = true
  · rw [if_neg (by simp [hex])] at hok
    simp only [osPathJoinChk, Bool.or_false] at hok
    cases hs : shutilCopy g f.location (pyJoin t f.name) with
    | error e =>
      simp only [hs] at hok
      cases vb <;>
        simp [Bind.bind, Except.bind, throw, throwThe, MonadExceptOf.throw,
          Pure.pure, Except.pure] at hok
    | ok x =>
      simp only [hs] at hok
      have hx : x = g1 := by
        cases vb <;>
          simp [Bind.bind, Except.bind, Pure.pure, Except.pure] at hok <;>
          exact hok
      obtain ⟨c0, hc0, hw⟩ := shutilCopy_ok_inv g x f.location (pyJoin t f.name) hnodir hs
      exact ⟨c0, hc0, by rw [← hx, hw]⟩
  · rw [if_pos (by simp [hex])] at hok
    simp [Bind.bind, Except.bind, throw, throwThe, MonadExceptOf.throw] at hok

theorem partsSeparated_symm (d ep : String) (h : partsSeparated d ep) :
    partsSeparated ep d := ⟨h.2, h.1⟩

theorem child_not_under (d ep n : String) (hg : goodPath ep)
    (hn : ∀ ch ∈ n.data, ch ≠ '/') (hsep : partsSeparated d ep) :
    pathUnder d (pyJoin ep n) = false :=
  not_under_of_separated ep d (pyJoin ep n) (partsSeparated_symm d ep hsep)
    (pathUnder_join_self ep n hg (head_ne_slash_of_noSlash n hn))

theorem jpgTargetName_noSlash (ep : String) :
    ∀ ch ∈ (asciiLower (pyBasename ep) ++ ".jpg").data, ch ≠ '/' := by
  apply noSlash_append
  · exact asciiLower_noSlash _ (pyBasename_noSlash ep)
  · intro ch hch
    rw [show (".jpg" : String).data = ['.', 'j', 'p', 'g'] from rfl] at hch
    have hd4 : ch = '.' ∨ ch = 'j' ∨ ch = 'p' ∨ ch = 'g' := by simpa using hch
    rcases hd4 with rfl | rfl | rfl | rfl <;> decide

theorem pyJoin_inj (t a b : String) (ht : goodPath t)
    (ha : a.data.head? ≠ some '/') (hb : b.data.head? ≠ some '/')
    (h : pyJoin t a = pyJoin t b) : a = b := by
  rw [pyJoin_good t a ht ha, pyJoin_good t b ht hb] at h
  have hd := congrArg String.data h
  rw [string_append_data, string_append_data] at hd
  exact String.ext (List.append_cancel_left hd)

theorem hasDir_writeFile (fs : FS) (w c q : String) :
    (fs.writeFile w c).hasDir q = fs.hasDir q := rfl

theorem saveJPGLoop_spec (d tsp : String) (parts : List String) (g g' : FS) (vb : Bool)
    (hgD : goodPath d) (htsp : pathUnder d tsp = true) (htspG : goodPath tsp)
    (hsep : ∀ ep ∈ parts, partsSeparated d ep)
    (hepG : ∀ ep ∈ parts, goodPath ep)
    (hnodir : ∀ ep ∈ parts,
      g.hasDir (pyJoin tsp (asciiLower (pyBasename ep) ++ ".jpg")) = false)
    (hnodup : (parts.map (fun e => asciiLower (pyBasename e) ++ ".jpg")).Nodup)
    (hok : saveJPGLoop g parts tsp vb false = .ok g') :
    (∀ q, (∀ ep ∈ parts, q ≠ pyJoin tsp (asciiLower (pyBasename ep) ++ ".jpg")) →
      g'.lookupFile q = g.lookupFile q) ∧
    g'.dirs = g.dirs ∧
    (∀ ep ∈ parts, ∃ j js, glob g ep "*.JPG" = j :: js ∧
      g'.lookupFile (pyJoin tsp (asciiLower (pyBasename ep) ++ ".jpg")) =
        g.lookupFile j) := by
  induction parts generalizing g with
  | nil =>
    unfold saveJPGLoop at hok
    injection hok with h2
    rw [h2]
    exact ⟨fun q _ => rfl, rfl, by simp⟩
  | cons ep rest ih =>
    unfold saveJPGLoop at hok
    cases hgl : glob g ep "*.JPG" with
    | nil =>
      simp only [hgl] at hok
      simp [throw, throwThe, MonadExceptOf.throw] at hok
    | cons j js =>
      simp only [hgl] at hok
      cases hj : JPGFile g j with
      | error e =>
        simp only [hj] at hok
        simp [throw, throwThe, MonadExceptOf.throw] at hok
      | ok f =>
        simp only [hj] at hok
        obtain ⟨g1, hA, hB⟩ := bind_eq_ok hok
        have hjmem : j ∈ glob g ep "*.JPG" := by rw [hgl]; simp
        obtain ⟨n, hjn, hnne, hnsl, _⟩ := glob_shape g ep "*.JPG" j hjmem
        have hepGood : goodPath ep := hepG ep (by simp)
        obtain ⟨_, hfloc, parent, hpar, hfname⟩ := JPGFile_ok_inv g j f hj
        have hparval : parent = pyBasename ep := by
          have h2 := (join_split_facts ep n hepGood hnsl).2
          rw [← hjn] at h2
          rw [h2] at hpar
          injection hpar with h3
          exact h3.symm
        have hfname2 : f.name = asciiLower (pyBasename ep) ++ ".jpg" := by
          rw [hfname, hparval]
        obtain ⟨c0, hc0, hg1⟩ := save_writes_target g g1 f tsp vb
          (by rw [hfname2]; exact hnodir ep (by simp)) hA
        rw [hfloc] at hc0
        rw [hfname2] at hg1
        have hnameH : (asciiLower (pyBasename ep) ++ ".jpg").data.head? ≠ some '/' :=
          head_ne_slash_of_noSlash _ (jpgTargetName_noSlash ep)
        have htgtU : pathUnder d (pyJoin tsp (asciiLower (pyBasename ep) ++ ".jpg")) = true :=
          pathUnder_cone d tsp _ hgD (Or.inr htsp) hnameH
        have ihres := ih g1
          (fun e he => hsep e (by simp [he]))
          (fun e he => hepG e (by simp [he]))
          (fun e he => by
            rw [hg1, hasDir_writeFile]
            exact hnodir e (by simp [he]))
          (by simpa using hnodup.of_cons)
          hB
        obtain ⟨ihB, ihC, ihA⟩ := ihres
        have hdirs1 : g1.dirs = g.dirs := by rw [hg1]; rfl
        have htgt_notin_rest : ∀ e ∈ rest,
            pyJoin tsp (asciiLower (pyBasename ep) ++ ".jpg") ≠
              pyJoin tsp (asciiLower (pyBasename e) ++ ".jpg") := by
          intro e he heq
          have hnames := pyJoin_inj tsp _ _ htspG hnameH
            (head_ne_slash_of_noSlash _ (jpgTargetName_noSlash e)) heq
          have : asciiLower (pyBasename ep) ++ ".jpg" ∈
              rest.map (fun x => asciiLower (pyBasename x) ++ ".jpg") := by
            rw [hnames]
            exact List.mem_map.mpr ⟨e, he, rfl⟩
          exact (List.nodup_cons.mp hnodup).1 this
        refine ⟨?_, ?_, ?_⟩
        · intro q hq
          have h1 : g'.lookupFile q = g1.lookupFile q :=
            ihB q (fun e he => hq e (by simp [he]))
          have h2 : g1.lookupFile q = g.lookupFile q := by
            rw [hg1]
            exact lookup_writeFile_ne g _ c0 q (hq ep (by simp))
          rw [h1, h2]
        · rw [ihC, hdirs1]
        · intro e he
          rcases List.mem_cons.mp he with rfl | hmem
          · refine ⟨j, js, hgl, ?_⟩
            have h1 : g'.lookupFile (pyJoin tsp (asciiLower (pyBasename e) ++ ".jpg")) =
                g1.lookupFile (pyJoin tsp (asciiLower (pyBasename e) ++ ".jpg")) :=
              ihB _ htgt_notin_rest
            rw [h1, hg1, lookup_writeFile_self, hc0]
          · obtain ⟨j', js', hgl', hlook'⟩ := ihA e hmem
            have hsepE : partsSeparated d e := hsep e (by simp [hmem])
            have hglob_eq : glob g1 e "*.JPG" = glob g e "*.JPG" := by
              apply glob_congr
              rw [hg1]
              exact childNames_writeFile g _ c0 e
                (childName_none_of_not_under e _
                  (not_under_of_separated d e _ hsepE htgtU))
            rw [hglob_eq] at hgl'
            have hj'mem : j' ∈ glob g e "*.JPG" := by rw [hgl']; simp
            obtain ⟨n', hj'n, _, hn'sl, _⟩ := glob_shape g e "*.JPG" j' hj'mem
            have hj'notU : pathUnder d j' = false := by
              rw [hj'n]
              exact child_not_under d e n' (hepG e (by simp [hmem])) hn'sl hsepE
            have hj'ne : j' ≠ pyJoin tsp (asciiLower (pyBasename ep) ++ ".jpg") := by
              intro heq
              rw [heq, htgtU] at hj'notU
              exact absurd hj'notU (by simp)
            have h2 : g1.lookupFile j' = g.lookupFile j' := by
              rw [hg1]
              exact lookup_writeFile_ne g _ c0 j' hj'ne
            exact ⟨j', js', hgl', by rw [hlook', h2]⟩

theorem data_pyJoin_good (a b : String) (ha : goodPath a) (hb : b.data.head? ≠ some '/') :
    (pyJoin a b).data = a.data ++ '/' :: b.data := by
  rw [pyJoin_good a b ha hb, string_append_data, string_append_data]
  rw [show ("/" : String).data = ['/'] from rfl]
  simp [List.append_assoc]

theorem data_pyJoin_empty (a : String) (ha : goodPath a) :
    (pyJoin a "").data = a.data ++ ['/'] := by
  unfold pyJoin
  rw [if_neg (by decide), if_neg (by push_neg; exact ⟨ha.1, ha.2⟩)]
  rw [string_append_data, string_append_data]
  simp

theorem data_pyJoin_slashEnd (a b : String) (hend : a.data.getLast? = some '/')
    (hb : b.data.head? ≠ some '/') : (pyJoin a b).data = a.data ++ b.data := by
  unfold pyJoin
  rw [if_neg hb, if_pos (Or.inr hend)]
  exact string_append_data a b

theorem goodPath_extend (a : String) (l : List Char) (w : String)
    (hw : w.data = a.data ++ '/' :: l)
    (hl : l ≠ []) (hsl : ∀ ch ∈ l, ch ≠ '/') : goodPath w := by
  constructor
  · rw [hw]; simp
  · rw [hw, List.getLast?_append_of_ne_nil _ (by simp : ('/' :: l) ≠ [])]
    have h2 : ('/' :: l).getLast? = l.getLast? := by
      rw [show ('/' :: l) = ['/'] ++ l from rfl, List.getLast?_append_of_ne_nil _ hl]
    rw [h2]
    intro hc
    obtain ⟨t, ht⟩ := List.getLast?_eq_some_iff.mp hc
    exact hsl '/' (ht ▸ List.mem_append.mpr (Or.inr (List.mem_singleton.mpr rfl))) rfl

theorem goodPath_join (a b : String) (ha : goodPath a) (hbne : b.data ≠ [])
    (hbsl : ∀ ch ∈ b.data, ch ≠ '/') : goodPath (pyJoin a b) :=
  goodPath_extend a b.data (pyJoin a b)
    (data_pyJoin_good a b ha (head_ne_slash_of_noSlash b hbsl)) hbne hbsl

theorem pyJoin_ne_base (t nm : String) (ht : goodPath t)
    (hh : nm.data.head? ≠ some '/') : pyJoin t nm ≠ t := by
  intro he
  have hd := congrArg String.data he
  rw [data_pyJoin_good t nm ht hh] at hd
  have hl := congrArg List.length hd
  simp at hl

theorem jpgsDir_data_slash (d : String) (hgD : goodPath d) :
    (pyJoin d "jpgs" ++ "/").data = d.data ++ '/' :: ('j' :: 'p' :: 'g' :: 's' :: '/' :: []) := by
  rw [string_append_data, data_pyJoin_good d "jpgs" hgD (by decide)]
  rw [show ("jpgs" : String).data = ['j','p','g','s'] from rfl,
    show ("/" : String).data = ['/'] from rfl]
  simp

theorem components_head (x y : String) (r1 r2 : List Char)
    (hx : ∀ c ∈ x.data, c ≠ '/') (hy : ∀ c ∈ y.data, c ≠ '/')
    (h : x.data ++ '/' :: r1 = y.data ++ '/' :: r2) : x = y := by
  have h2 := congrArg splitSlash h
  rw [splitSlash_append, splitSlash_append, splitSlash_of_noSlash _ hx,
    splitSlash_of_noSlash _ hy] at h2
  simp only [List.cons_append, List.nil_append] at h2
  injection h2 with h3
  exact String.ext h3

theorem not_under_jpgs_shape1 (d w name : String) (hgD : goodPath d)
    (hw : w.data = d.data ++ '/' :: name.data)
    (hnsl : ∀ ch ∈ name.data, ch ≠ '/') :
    pathUnder (pyJoin d "jpgs") w = false := by
  by_contra hc
  have hu : pathUnder (pyJoin d "jpgs") w = true := by
    cases hres : pathUnder (pyJoin d "jpgs") w
    · exact absurd hres hc
    · rfl
  unfold pathUnder at hu
  obtain ⟨t2, ht2⟩ := List.isPrefixOf_iff_prefix.mp hu
  rw [jpgsDir_data_slash d hgD] at ht2
  rw [hw] at ht2
  simp only [List.append_assoc, List.cons_append, List.nil_append] at ht2
  have h3 := List.append_cancel_left ht2
  injection h3 with h4 h5
  exact hnsl '/' (h5 ▸ (by simp : '/' ∈ ('j' :: 'p' :: 'g' :: 's' :: '/' :: t2))) rfl

theorem not_under_jpgs_shape2 (d w x : String) (r : List Char) (hgD : goodPath d)
    (hw : w.data = d.data ++ '/' :: (x.data ++ '/' :: r))
    (hx : ∀ ch ∈ x.data, ch ≠ '/') (hxne : x ≠ "jpgs") :
    pathUnder (pyJoin d "jpgs") w = false := by
  by_contra hc
  have hu : pathUnder (pyJoin d "jpgs") w = true := by
    cases hres : pathUnder (pyJoin d "jpgs") w
    · exact absurd hres hc
    · rfl
  unfold pathUnder at hu
  obtain ⟨t2, ht2⟩ := List.isPrefixOf_iff_prefix.mp hu
  rw [jpgsDir_data_slash d hgD] at ht2
  rw [hw] at ht2
  simp only [List.append_assoc, List.cons_append, List.nil_append] at ht2
  have h3 := List.append_cancel_left ht2
  injection h3 with h4 h5
  have h6 : ("jpgs" : String).data ++ '/' :: t2 = x.data ++ '/' :: r := h5
  exact hxne (components_head "jpgs" x t2 r (by decide) hx h6).symm

theorem lookup_makedirs (fs : FS) (p q : String) :
    (fs.makedirs p).lookupFile q = fs.lookupFile q := rfl

theorem shutilCopy_ok_shape (g g2 : FS) (src dst : String)
    (hok : shutilCopy g src dst = .ok g2) :
    ∃ w c, g2 = g.writeFile w c ∧ (w = dst ∨ w = pyJoin dst (pyBasename src)) := by
  unfold shutilCopy at hok
  dsimp only [] at hok
  generalize hD2 : (if g.hasDir dst = true then pyJoin dst (pyBasename src) else dst) = dst2 at hok
  split_ifs at hok
  · cases hl : g.lookupFile src with
    | none => rw [hl] at hok; exact absurd hok (by simp)
    | some c0 =>
      rw [hl] at hok
      dsimp only [] at hok
      injection hok with h4
      refine ⟨dst2, c0, h4.symm, ?_⟩
      by_cases hD : g.hasDir dst = true
      · rw [if_pos hD] at hD2
        exact Or.inr hD2.symm
      · rw [if_neg hD] at hD2
        exact Or.inl hD2.symm
  · cases hl : g.lookupFile src with
    | none => rw [hl] at hok; exact absurd hok (by simp)
    | some c0 => rw [hl] at hok; exact absurd hok (by simp)

theorem save_write_shape (g g1 : FS) (f : File) (t : String) (vb : Bool)
    (hok : File.save g f (.str t) vb false = .ok g1) :
    ∃ w c, g1 = g.writeFile w c ∧
      (w = pyJoin t f.name ∨
        w = pyJoin (pyJoin t f.name) (pyBasename f.location)) := by
  unfold File.save at hok
  by_cases hex : osPathExistsArg g (.str t) = true
  · rw [if_neg (by simp [hex])] at hok
    simp only [osPathJoinChk, Bool.or_false] at hok
    cases hs : shutilCopy g f.location (pyJoin t f.name) with
    | error e =>
      simp only [hs] at hok
      cases vb <;>
        simp [Bind.bind, Except.bind, throw, throwThe, MonadExceptOf.throw,
          Pure.pure, Except.pure] at hok
    | ok x =>
      simp only [hs] at hok
      have hx : x = g1 := by
        cases vb <;>
          simp [Bind.bind, Except.bind, Pure.pure, Except.pure] at hok <;>
          exact hok
      obtain ⟨w, c, hw, hor⟩ := shutilCopy_ok_shape g x f.location (pyJoin t f.name) hs
      exact ⟨w, c, by rw [← hx, hw], hor⟩
  · rw [if_pos (by simp [hex])] at hok
    simp [Bind.bind, Except.bind, throw, throwThe, MonadExceptOf.throw] at hok

theorem CSVFile_name_props (g : FS) (cf : String) (rn : Bool) (f : File)
    (h : CSVFile g cf rn = .ok f) (hm : fnmatch "*.CSV" (pyBasename cf) = true) :
    f.name.data ≠ [] ∧ f.name ≠ "jpgs" := by
  obtain ⟨-, -, hfalse, htrue⟩ := CSVFile_ok_inv g cf rn f h
  cases rn with
  | false =>
    obtain ⟨a, ha⟩ := (fnmatch_starDotCSV (pyBasename cf).data).mp hm
    rw [hfalse rfl]
    constructor
    · rw [ha]; simp
    · intro hj
      have hd : ("jpgs" : String).data = a ++ ".CSV".data := by rw [← hj]; exact ha
      have hl := congrArg List.length hd
      simp at hl
      subst hl
      exact absurd hd (by decide)
  | true =>
    obtain ⟨parent, -, hname⟩ := htrue rfl
    have hdot : '.' ∈ f.name.data := by
      rw [hname]
      show '.' ∈ ((parent ++ "." ++ pyTakeRight (pyBasename cf) 7).data.map lowerChar)
      refine List.mem_map.mpr ⟨'.', ?_, rfl⟩
      rw [string_append_data, string_append_data]
      exact List.mem_append.mpr (Or.inl (List.mem_append.mpr (Or.inr (by decide))))
    constructor
    · exact List.ne_nil_of_mem hdot
    · intro hj
      rw [hj] at hdot
      exact absurd hdot (by decide)

theorem save_target_safe (d s : String) (g g1 : FS) (f : File) (vb : Bool)
    (hgD : goodPath d)
    (hs : s = d ∨ ∃ bn, s = pyJoin d bn ∧ (∀ ch ∈ bn.data, ch ≠ '/') ∧ bn ≠ "jpgs")
    (hne : f.name.data ≠ []) (hnj : f.name ≠ "jpgs")
    (hnsl : ∀ ch ∈ f.name.data, ch ≠ '/')
    (hok : File.save g f (.str s) vb false = .ok g1) :
    ∃ w c, g1 = g.writeFile w c ∧ pathUnder (pyJoin d "jpgs") w = false := by
  obtain ⟨w, c, hw, hor⟩ := save_write_shape g g1 f s vb hok
  refine ⟨w, c, hw, ?_⟩
  have hnh : f.name.data.head? ≠ some '/' := head_ne_slash_of_noSlash f.name hnsl
  have hb2 : (pyBasename f.location).data.head? ≠ some '/' :=
    head_ne_slash_of_noSlash _ (pyBasename_noSlash f.location)
  rcases hs with rfl | ⟨bn, rfl, hbnsl, hbnne⟩
  · rcases hor with rfl | rfl
    · exact not_under_jpgs_shape1 s _ f.name hgD (data_pyJoin_good s f.name hgD hnh) hnsl
    · have hinner : (pyJoin s f.name).data = s.data ++ '/' :: f.name.data :=
        data_pyJoin_good s f.name hgD hnh
      have hig : goodPath (pyJoin s f.name) := goodPath_extend s f.name.data _ hinner hne hnsl
      refine not_under_jpgs_shape2 s _ f.name
        (pyBasename f.location).data hgD ?_ hnsl hnj
      rw [data_pyJoin_good _ _ hig hb2, hinner]
      simp [List.append_assoc]
  · by_cases hbn0 : bn.data = []
    · have hbn : bn = "" := String.ext hbn0
      subst hbn
      have hdE : (pyJoin d "").data = d.data ++ ['/'] := data_pyJoin_empty d hgD
      have hlast : (pyJoin d "").data.getLast? = some '/' := by
        rw [hdE, List.getLast?_append_of_ne_nil _ (by simp)]
        rfl
      have hinner : (pyJoin (pyJoin d "") f.name).data = d.data ++ '/' :: f.name.data := by
        rw [data_pyJoin_slashEnd _ _ hlast hnh, hdE]
        simp
      rcases hor with rfl | rfl
      · exact not_under_jpgs_shape1 d _ f.name hgD hinner hnsl
      · have hig : goodPath (pyJoin (pyJoin d "") f.name) :=
          goodPath_extend d f.name.data _ hinner hne hnsl
        refine not_under_jpgs_shape2 d _ f.name
          (pyBasename f.location).data hgD ?_ hnsl hnj
        rw [data_pyJoin_good _ _ hig hb2, hinner]
        simp [List.append_assoc]
    · have hsg : goodPath (pyJoin d bn) := goodPath_join d bn hgD hbn0 hbnsl
      have hsd : (pyJoin d bn).data = d.data ++ '/' :: bn.data :=
        data_pyJoin_good d bn hgD (head_ne_slash_of_noSlash bn hbnsl)
      have hinner : (pyJoin (pyJoin d bn) f.name).data =
          d.data ++ '/' :: (bn.data ++ '/' :: f.name.data) := by
        rw [data_pyJoin_good _ _ hsg hnh, hsd]
        simp [List.append_assoc]
      rcases hor with rfl | rfl
      · exact not_under_jpgs_shape2 d _ bn _ hgD hinner hbnsl hbnne
      · have hig : goodPath (pyJoin (pyJoin d bn) f.name) :=
          goodPath_extend (pyJoin d bn) f.name.data _
            (data_pyJoin_good _ _ hsg hnh) hne hnsl
        refine not_under_jpgs_shape2 d _ bn
          (f.name.data ++ '/' :: (pyBasename f.location).data) hgD ?_ hbnsl hbnne
        rw [data_pyJoin_good _ _ hig hb2, hinner]
        simp [List.append_assoc]

theorem saveCSVLoop_preserves (d s : String) (csvs : List String) (g g2 : FS)
    (rn vb : Bool) (hgD : goodPath d)
    (hs : s = d ∨ ∃ bn, s = pyJoin d bn ∧ (∀ ch ∈ bn.data, ch ≠ '/') ∧ bn ≠ "jpgs")
    (hcs : ∀ cf ∈ csvs, fnmatch "*.CSV" (pyBasename cf) = true)
    (hok : saveCSVLoop g csvs (.str s) rn vb false = .ok g2) :
    ∀ q, pathUnder (pyJoin d "jpgs") q = true → g2.lookupFile q = g.lookupFile q := by
  induction csvs generalizing g with
  | nil =>
    unfold saveCSVLoop at hok
    injection hok with h2
    rw [h2]
    exact fun q _ => rfl
  | cons cf rest ih =>
    unfold saveCSVLoop at hok
    cases hc : CSVFile g cf rn with
    | error e =>
      simp only [hc] at hok
      simp [throw, throwThe, MonadExceptOf.throw] at hok
    | ok f =>
      simp only [hc] at hok
      obtain ⟨g1, hA, hB⟩ := bind_eq_ok hok
      obtain ⟨hne, hnj⟩ := CSVFile_name_props g cf rn f hc (hcs cf (by simp))
      have hnsl := CSVFile_name_noSlash g cf rn f hc
      obtain ⟨w, c, hg1, hwsafe⟩ :=
        save_target_safe d s g g1 f vb hgD hs hne hnj hnsl hA
      intro q hq
      have h1 : g2.lookupFile q = g1.lookupFile q :=
        ih g1 (fun x hx => hcs x (by simp [hx])) hB q hq
      have h2 : g1.lookupFile q = g.lookupFile q := by
        rw [hg1]
        refine lookup_writeFile_ne g w c q ?_
        intro heq
        rw [heq, hwsafe] at hq
        exact absurd hq (by simp)
      rw [h1, h2]

theorem glob_csv_matches (g : FS) (ep : String) (hepG : goodPath ep) :
    ∀ cf ∈ glob g ep "*.CSV", fnmatch "*.CSV" (pyBasename cf) = true := by
  intro cf hcf
  obtain ⟨n, rfl, hne, hnsl, hfn⟩ := glob_shape g ep "*.CSV" cf hcf
  rw [(join_split_facts ep n hepG hnsl).1]
  exact hfn

theorem csvPartsLoop_preserves (d : String) (parts : List String) (fs fs2 : FS)
    (cf rn vb : Bool) (hgD : goodPath d)
    (hepG : ∀ ep ∈ parts, goodPath ep)
    (hbn : ∀ ep ∈ parts, pyBasename ep ≠ "jpgs")
    (hok : csvPartsLoop fs parts (.str d) cf rn vb false = .ok fs2) :
    ∀ q, pathUnder (pyJoin d "jpgs") q = true → fs2.lookupFile q = fs.lookupFile q := by
  induction parts generalizing fs with
  | nil =>
    unfold csvPartsLoop at hok
    injection hok with h2
    rw [h2]
    exact fun q _ => rfl
  | cons ep rest ih =>
    unfold csvPartsLoop at hok
    intro q hq
    cases cf with
    | false =>
      rw [if_neg (by simp)] at hok
      obtain ⟨fsm, hA, hB⟩ := bind_eq_ok hok
      have hrest : fs2.lookupFile q = fsm.lookupFile q :=
        ih fsm (fun x hx => hepG x (by simp [hx])) (fun x hx => hbn x (by simp [hx])) hB q hq
      have h1 : fsm.lookupFile q = fs.lookupFile q :=
        saveCSVLoop_preserves d d _ fs fsm rn vb hgD (Or.inl rfl)
          (glob_csv_matches fs ep (hepG ep (by simp))) hA q hq
      rw [hrest, h1]
    | true =>
      rw [if_pos rfl] at hok
      simp only [osPathJoinChk] at hok
      have hsArg : pyJoin d (pyBasename ep) = d ∨
          ∃ bn, pyJoin d (pyBasename ep) = pyJoin d bn ∧
            (∀ ch ∈ bn.data, ch ≠ '/') ∧ bn ≠ "jpgs" :=
        Or.inr ⟨pyBasename ep, rfl, pyBasename_noSlash ep, hbn ep (by simp)⟩
      by_cases hE : pathExists fs (pyJoin d (pyBasename ep)) = true
      · rw [if_pos hE] at hok
        obtain ⟨fs1t, hA1, hC⟩ := bind_eq_ok hok
        rw [if_neg (by simp)] at hC
        rw [pure_bind] at hC
        have hrest : fs2.lookupFile q = fs1t.lookupFile q :=
          ih fs1t (fun x hx => hepG x (by simp [hx])) (fun x hx => hbn x (by simp [hx])) hC q hq
        have h1 : fs1t.lookupFile q = fs.lookupFile q :=
          saveCSVLoop_preserves d _ _ fs fs1t rn vb hgD hsArg
            (glob_csv_matches fs ep (hepG ep (by simp))) hA1 q hq
        rw [hrest, h1]
      · rw [if_neg hE] at hok
        obtain ⟨fs1t, hA1, hC⟩ := bind_eq_ok hok
        rw [if_neg (by simp)] at hC
        rw [pure_bind] at hC
        have hrest : fs2.lookupFile q = fs1t.lookupFile q :=
          ih fs1t (fun x hx => hepG x (by simp [hx])) (fun x hx => hbn x (by simp [hx])) hC q hq
        have h1 : fs1t.lookupFile q = (fs.makedirs (pyJoin d (pyBasename ep))).lookupFile q :=
          saveCSVLoop_preserves d _ _ _ fs1t rn vb hgD hsArg
            (glob_csv_matches _ ep (hepG ep (by simp))) hA1 q hq
        rw [hrest, h1, lookup_makedirs]

theorem jpgPhase_spec (d : String) (parts : List String) (fs fsJ : FS) (vb : Bool)
    (hgD : goodPath d)
    (hsep : ∀ ep ∈ parts, partsSeparated d ep)
    (hepG : ∀ ep ∈ parts, goodPath ep)
    (hnodir : ∀ ep ∈ parts,
      fs.hasDir (pyJoin (pyJoin d "jpgs") (asciiLower (pyBasename ep) ++ ".jpg")) = false)
    (hnodup : (parts.map (fun e => asciiLower (pyBasename e) ++ ".jpg")).Nodup)
    (hok : jpgPhase fs parts (.str d) vb false = .ok fsJ) :
    (∀ q, (∀ ep ∈ parts,
        q ≠ pyJoin (pyJoin d "jpgs") (asciiLower (pyBasename ep) ++ ".jpg")) →
      fsJ.lookupFile q = fs.lookupFile q) ∧
    (∀ ep ∈ parts, ∃ j js, glob fs ep "*.JPG" = j :: js ∧
      fsJ.lookupFile (pyJoin (pyJoin d "jpgs") (asciiLower (pyBasename ep) ++ ".jpg")) =
        fs.lookupFile j) := by
  have htspU : pathUnder d (pyJoin d "jpgs") = true :=
    pathUnder_join_self d "jpgs" hgD (by decide)
  have htspG : goodPath (pyJoin d "jpgs") :=
    goodPath_join d "jpgs" hgD (by decide) (by decide)
  unfold jpgPhase at hok
  simp only [osPathJoinChk] at hok
  by_cases hexT : pathExists fs (pyJoin d "jpgs") = true
  · rw [if_pos hexT] at hok
    obtain ⟨g1, hA, hB⟩ := bind_eq_ok hok
    rw [if_neg (by simp)] at hB
    simp only [Pure.pure, Except.pure] at hB
    injection hB with h2
    rw [← h2]
    obtain ⟨hB', -, hA'⟩ := saveJPGLoop_spec d (pyJoin d "jpgs") parts fs g1 vb
      hgD htspU htspG hsep hepG hnodir hnodup hA
    exact ⟨hB', hA'⟩
  · rw [if_neg hexT] at hok
    obtain ⟨g1, hA, hB⟩ := bind_eq_ok hok
    rw [if_neg (by simp)] at hB
    simp only [Pure.pure, Except.pure] at hB
    injection hB with h2
    rw [← h2]
    have hnodir1 : ∀ ep ∈ parts,
        (fs.makedirs (pyJoin d "jpgs")).hasDir
          (pyJoin (pyJoin d "jpgs") (asciiLower (pyBasename ep) ++ ".jpg")) = false := by
      intro ep hep
      rw [hasDir_makedirs_ne fs _ _
        (pyJoin_ne_base (pyJoin d "jpgs") _ htspG
          (head_ne_slash_of_noSlash _ (jpgTargetName_noSlash ep)))]
      exact hnodir ep hep
    obtain ⟨hB', -, hA'⟩ := saveJPGLoop_spec d (pyJoin d "jpgs") parts
      (fs.makedirs (pyJoin d "jpgs")) g1 vb hgD htspU htspG hsep hepG hnodir1 hnodup hA
    have hglobeq : ∀ ep ∈ parts,
        glob (fs.makedirs (pyJoin d "jpgs")) ep "*.JPG" = glob fs ep "*.JPG" := by
      intro ep hep
      exact glob_congr _ _ ep "*.JPG"
        (childNames_makedirs fs (pyJoin d "jpgs") ep
          (childName_none_of_not_under ep _
            (not_under_of_separated d ep _ (hsep ep hep) htspU)))
    constructor
    · intro q hq
      rw [hB' q hq, lookup_makedirs]
    · intro ep hep
      obtain ⟨j, js, hgl, hlook⟩ := hA' ep hep
      rw [hglobeq ep hep] at hgl
      rw [lookup_makedirs] at hlook
      exact ⟨j, js, hgl, hlook⟩

/-- C10.  With `save_jpg` set, a successful `copy_scope_data` saves exactly
one JPG per matched exercise-part directory — the first `*.JPG` glob match —
into the destination subdirectory `jpgs`, renamed to the lowercased part
directory name plus `.jpg`; every other path under `jpgs` (in particular
any path a second JPG of the same part directory could have been copied to)
keeps its previous contents. -/
theorem one_jpg_per_part (c : OscilloscopeDataCopier) (fs fs' : FS) (d : String)
    (cf rn vb : Bool)
    (hgD : goodPath d)
    (hsep : ∀ ep ∈ c.exercise_parts, partsSeparated d ep)
    (hepG : ∀ ep ∈ c.exercise_parts, goodPath ep)
    (hbn : ∀ ep ∈ c.exercise_parts, pyBasename ep ≠ "jpgs")
    (hnodir : ∀ ep ∈ c.exercise_parts,
      fs.hasDir (pyJoin (pyJoin d "jpgs") (asciiLower (pyBasename ep) ++ ".jpg")) = false)
    (hnodup : (c.exercise_parts.map (fun e => asciiLower (pyBasename e) ++ ".jpg")).Nodup)
    (hok : c.copy_scope_data fs (.str d) cf rn true vb false = .ok fs') :
    (∀ ep ∈ c.exercise_parts, ∃ j js, glob fs ep "*.JPG" = j :: js ∧
      fs'.lookupFile (pyJoin (pyJoin d "jpgs") (asciiLower (pyBasename ep) ++ ".jpg")) =
        fs.lookupFile j) ∧
    (∀ q, pathUnder (pyJoin d "jpgs") q = true →
      (∀ ep ∈ c.exercise_parts,
        q ≠ pyJoin (pyJoin d "jpgs") (asciiLower (pyBasename ep) ++ ".jpg")) →
      fs'.lookupFile q = fs.lookupFile q) := by
  have htspG : goodPath (pyJoin d "jpgs") :=
    goodPath_join d "jpgs" hgD (by decide) (by decide)
  unfold OscilloscopeDataCopier.copy_scope_data at hok
  by_cases hex : osPathExistsArg fs (.str d) = true
  · rw [if_neg (by simp [hex])] at hok
    simp only [pure_bind] at hok
    rw [if_pos trivial] at hok
    obtain ⟨fsJ, hJ, hC⟩ := bind_eq_ok hok
    obtain ⟨hB, hA⟩ := jpgPhase_spec d _ fs fsJ vb hgD hsep hepG hnodir hnodup hJ
    have hP := csvPartsLoop_preserves d _ fsJ fs' cf rn vb hgD hepG hbn hC
    constructor
    · intro ep hep
      obtain ⟨j, js, hgl, hlook⟩ := hA ep hep
      refine ⟨j, js, hgl, ?_⟩
      have hu : pathUnder (pyJoin d "jpgs")
          (pyJoin (pyJoin d "jpgs") (asciiLower (pyBasename ep) ++ ".jpg")) = true :=
        pathUnder_join_self _ _ htspG
          (head_ne_slash_of_noSlash _ (jpgTargetName_noSlash ep))
      rw [hP _ hu, hlook]
    · intro q hq hne
      rw [hP q hq, hB q hne]
  · rw [if_pos (by simp [hex])] at hok
    simp [Bind.bind, Except.bind, throw, throwThe, MonadExceptOf.throw] at hok

/-- Witness for `one_jpg_per_part`: on the sample drive, `E1P1`'s single
JPG `F0000TEK.JPG` is globbed first and lands at `/dest/jpgs/e1p1.jpg`. -/
theorem one_jpg_per_part_witness :
    (∀ ep ∈ ["/Volumes/ECE65-DATA/E1P1"], ∃ j js,
      glob sampleDrive ep "*.JPG" = j :: js ∧
      sampleCopyResult.lookupFile (pyJoin (pyJoin "/dest" "jpgs")
        (asciiLower (pyBasename ep) ++ ".jpg")) = sampleDrive.lookupFile j) ∧
    (∀ q, pathUnder (pyJoin "/dest" "jpgs") q = true →
      (∀ ep ∈ ["/Volumes/ECE65-DATA/E1P1"],
        q ≠ pyJoin (pyJoin "/dest" "jpgs") (asciiLower (pyBasename ep) ++ ".jpg")) →
      sampleCopyResult.lookupFile q = sampleDrive.lookupFile q) :=
  one_jpg_per_part ⟨"/Volumes/ECE65-DATA", ["/Volumes/ECE65-DATA/E1P1"]⟩
    sampleDrive sampleCopyResult "/dest" false true false
    (by constructor <;> decide)
    (by intro ep hep; rcases List.mem_singleton.mp hep with rfl; constructor <;> decide)
    (by intro ep hep; rcases List.mem_singleton.mp hep with rfl; constructor <;> decide)
    (by intro ep hep; rcases List.mem_singleton.mp hep with rfl; decide)
    (by intro ep hep; rcases List.mem_singleton.mp hep with rfl; decide)
    (by decide)
    rfl

/-! ## C6: idempotence of copying -/

/-- C6 fails as stated: when the destination is one of the matched part
folders, the first run succeeds, but the second run finds the copied file
inside that part folder and `shutil.copy` raises `SameFileError` instead of
overwriting — the run does not complete, let alone leave the tree
unchanged. -/
theorem second_run_raises_samefileerror :
    OscilloscopeDataCopier.copy_scope_data overlapCopier overlapState
      (.str "/Volumes/D/E1P1") false false false false false = .ok overlapState1 ∧
    OscilloscopeDataCopier.copy_scope_data overlapCopier overlapState1
      (.str "/Volumes/D/E1P1") false false false false false =
      .error (.sameFileError, overlapState1) :=
  ⟨rfl, rfl⟩

/-- Apply a list of `(path, contents)` writes in order. -/
def applyWrites (g : FS) : List (String × String) → FS
  | [] => g
  | wc :: rest => applyWrites (g.writeFile wc.1 wc.2) rest

theorem applyWrites_append (P1 P2 : List (String × String)) (g : FS) :
    applyWrites g (P1 ++ P2) = applyWrites (applyWrites g P1) P2 := by
  induction P1 generalizing g with
  | nil => rfl
  | cons wc rest ih =>
    simp only [List.cons_append, applyWrites]
    exact ih _

theorem applyWrites_dirs (P : List (String × String)) (g : FS) :
    (applyWrites g P).dirs = g.dirs := by
  induction P generalizing g with
  | nil => rfl
  | cons wc rest ih => simp only [applyWrites, ih]; rfl

/-- The contents the last write in the plan puts at `p`, if any. -/
def planLast : List (String × String) → String → Option String
  | [], _ => none
  | wc :: rest, p =>
    match planLast rest p with
    | some c => some c
    | none => if wc.1 = p then some wc.2 else none

theorem lookup_applyWrites (P : List (String × String)) (g : FS) (p : String) :
    (applyWrites g P).lookupFile p =
      match planLast P p with
      | some c => some c
      | none => g.lookupFile p := by
  induction P generalizing g with
  | nil => rfl
  | cons wc rest ih =>
    simp only [applyWrites, planLast, ih]
    cases planLast rest p with
    | some c => rfl
    | none =>
      by_cases hw : wc.1 = p
      · rw [if_pos hw, ← hw, lookup_writeFile_self]
      · rw [if_neg hw, lookup_writeFile_ne g wc.1 wc.2 p (fun hh => hw hh.symm)]

theorem isFile_writeFile_self (g : FS) (w c : String) :
    (g.writeFile w c).isFile w = true := by
  unfold FS.writeFile FS.isFile
  simp only []
  induction g.files with
  | nil => simp [setEntry]
  | cons e t ih =>
    by_cases he : e.1 = w
    · simp [setEntry, if_pos he]
    · simp only [setEntry, if_neg he, List.any_cons, Bool.or_eq_true]
      exact Or.inr ih

theorem isFile_applyWrites_of (P : List (String × String)) (g : FS) (q : String)
    (h : g.isFile q = true) : (applyWrites g P).isFile q = true := by
  induction P generalizing g with
  | nil => exact h
  | cons wc rest ih => exact ih _ (isFile_writeFile_of g wc.1 wc.2 q h)

theorem isFile_applyWrites_target (P : List (String × String)) (g : FS) (w c : String)
    (h : (w, c) ∈ P) : (applyWrites g P).isFile w = true := by
  induction P generalizing g with
  | nil => simp at h
  | cons wc rest ih =>
    rcases List.mem_cons.mp h with h1 | h1
    · rw [← h1]
      exact isFile_applyWrites_of rest _ w (isFile_writeFile_self g w c)
    · exact ih _ h1

theorem keys_writeFile_present (g : FS) (w c : String) (h : g.isFile w = true) :
    (g.writeFile w c).files.map Prod.fst = g.files.map Prod.fst := by
  unfold FS.writeFile
  simp only []
  rw [setEntry_keys]
  unfold FS.isFile at h
  rw [if_pos h]

theorem keys_applyWrites_present (P : List (String × String)) (g : FS)
    (h : ∀ wc ∈ P, g.isFile wc.1 = true) :
    (applyWrites g P).files.map Prod.fst = g.files.map Prod.fst := by
  induction P generalizing g with
  | nil => rfl
  | cons wc rest ih =>
    simp only [applyWrites]
    rw [ih _ (fun x hx => isFile_writeFile_of g wc.1 wc.2 x.1 (h x (by simp [hx]))),
      keys_writeFile_present g wc.1 wc.2 (h wc (by simp))]

theorem nodup_keys_writeFile (g : FS) (w c : String)
    (h : (g.files.map Prod.fst).Nodup) :
    ((g.writeFile w c).files.map Prod.fst).Nodup := by
  unfold FS.writeFile
  simp only []
  rw [setEntry_keys]
  split_ifs with hp
  · exact h
  · rw [List.nodup_append]
    refine ⟨h, by simp, ?_⟩
    intro a ha hb
    rcases List.mem_singleton.mp hb with rfl
    obtain ⟨e, he, hfst⟩ := List.mem_map.mp ha
    have : g.files.any (fun e => e.1 = a) = true :=
      List.any_eq_true.mpr ⟨e, he, by simp [hfst]⟩
    exact absurd this (by simpa using hp)

theorem nodup_keys_applyWrites (P : List (String × String)) (g : FS)
    (h : (g.files.map Prod.fst).Nodup) :
    ((applyWrites g P).files.map Prod.fst).Nodup := by
  induction P generalizing g with
  | nil => exact h
  | cons wc rest ih => exact ih _ (nodup_keys_writeFile g wc.1 wc.2 h)

theorem assoc_ext (l l' : List (String × String))
    (hk : l.map Prod.fst = l'.map Prod.fst) (hn : (l.map Prod.fst).Nodup)
    (hl : ∀ p, (l.find? (fun e => e.1 = p)).map (fun e => e.2) =
      (l'.find? (fun e => e.1 = p)).map (fun e => e.2)) : l = l' := by
  induction l generalizing l' with
  | nil =>
    have h0 : l'.map Prod.fst = [] := hk.symm
    rw [List.map_eq_nil_iff.mp h0]
  | cons e t ih =>
    cases l' with
    | nil => simp at hk
    | cons e' t' =>
      simp only [List.map_cons, List.cons.injEq] at hk
      obtain ⟨hk1, hk2⟩ := hk
      have h1 := hl e.1
      rw [List.find?_cons_of_pos _ (by simp), List.find?_cons_of_pos _ (by simp [hk1])] at h1
      simp only [Option.map_some'] at h1
      injection h1 with h1v
      obtain ⟨hnotin, hnt⟩ := List.nodup_cons.mp hn
      have htl : ∀ p, (t.find? (fun x => x.1 = p)).map (fun x => x.2) =
          (t'.find? (fun x => x.1 = p)).map (fun x => x.2) := by
        intro p
        by_cases hp : p = e.1
        · subst hp
          rw [List.find?_eq_none.mpr, List.find?_eq_none.mpr]
          · intro x hx
            simp only [decide_eq_true_eq]
            intro hx1
            rw [hk2] at hnotin
            exact hnotin (List.mem_map.mpr ⟨x, hx, hx1⟩)
          · intro x hx
            simp only [decide_eq_true_eq]
            intro hx1
            exact hnotin (List.mem_map.mpr ⟨x, hx, hx1⟩)
        · have h2 := hl p
          rw [List.find?_cons_of_neg _ (by simp; exact fun hh => hp hh.symm),
            List.find?_cons_of_neg _ (by simp; rw [← hk1]; exact fun hh => hp hh.symm)] at h2
          exact h2
      have hts : t = t' := ih t' hk2 hnt htl
      have hee : e = e' := Prod.ext hk1 h1v
      rw [hts, hee]

theorem fs_ext (g g' : FS) (hd : g.dirs = g'.dirs)
    (hk : g.files.map Prod.fst = g'.files.map Prod.fst)
    (hn : (g.files.map Prod.fst).Nodup)
    (hl : ∀ p, g.lookupFile p = g'.lookupFile p) : g = g' := by
  obtain ⟨f1, d1⟩ := g
  obtain ⟨f2, d2⟩ := g'
  simp only [] at hd hk hn
  have hf : f1 = f2 := assoc_ext f1 f2 hk hn (fun p => hl p)
  rw [hf, hd]

theorem applyWrites_idem (P : List (String × String)) (g : FS)
    (hn : (g.files.map Prod.fst).Nodup) :
    applyWrites (applyWrites g P) P = applyWrites g P := by
  have hpres : ∀ wc ∈ P, (applyWrites g P).isFile wc.1 = true := by
    intro wc hwc
    apply isFile_applyWrites_target P g wc.1 wc.2
    rw [Prod.mk.eta]
    exact hwc
  apply fs_ext
  · rw [applyWrites_dirs]
  · exact keys_applyWrites_present P _ hpres
  · rw [keys_applyWrites_present P _ hpres]
    exact nodup_keys_applyWrites P g hn
  · intro p
    cases hpl : planLast P p <;>
      simp [lookup_applyWrites, hpl]

/-- The name `CSVFile` gives a file at `cf`, as a pure function of the
path (the `none` fallback is never reached on the paths the copier uses). -/
def csvName (cf : String) (rn : Bool) : String :=
  if rn then
    match pyIdxSecondLast (pySplit cf) with
    | some parent => asciiLower (parent ++ "." ++ pyTakeRight (pyBasename cf) 7)
    | none => pyBasename cf
  else pyBasename cf

/-- The single write a save of `cf` performs, as seen from the pre-run
state `fs0`: target (with the `shutil.copy` into-directory redirect) and
contents. -/
def planEntry (fs0 : FS) (d : String) (rn : Bool) (cf : String) : String × String :=
  ((if fs0.hasDir (pyJoin d (csvName cf rn)) then
      pyJoin (pyJoin d (csvName cf rn)) (pyBasename cf)
    else pyJoin d (csvName cf rn)),
   (fs0.lookupFile cf).getD "")

/-- The write plan of one CSV loop. -/
def csvPlan (fs0 : FS) (L : List String) (d : String) (rn : Bool) :
    List (String × String) :=
  L.map (planEntry fs0 d rn)

/-- The write plan of the whole per-part CSV pass (`create_folders=False`). -/
def partsPlan (fs0 : FS) (parts : List String) (d : String) (rn : Bool) :
    List (String × String) :=
  match parts with
  | [] => []
  | ep :: r => csvPlan fs0 (glob fs0 ep "*.CSV") d rn ++ partsPlan fs0 r d rn

theorem csvName_noSlash (cf : String) (rn : Bool) :
    ∀ ch ∈ (csvName cf rn).data, ch ≠ '/' := by
  unfold csvName
  cases rn with
  | false => exact pyBasename_noSlash cf
  | true =>
    rw [if_pos rfl]
    cases hp : pyIdxSecondLast (pySplit cf) with
    | none => exact pyBasename_noSlash cf
    | some parent =>
      apply asciiLower_noSlash
      apply noSlash_append
      · apply noSlash_append
        · have hpmem := pyIdxSecondLast_mem _ _ hp
          unfold pySplit at hpmem
          obtain ⟨comp, hcomp, rfl⟩ := List.mem_map.mp hpmem
          exact splitSlash_comp_noSlash cf.data comp hcomp
        · intro ch hch
          rw [show ("." : String).data = ['.'] from rfl] at hch
          rcases List.mem_singleton.mp hch with rfl
          decide
      · exact pyTakeRight_noSlash (pyBasename cf) 7 (pyBasename_noSlash cf)

theorem CSVFile_name_eq_csvName (g : FS) (cf : String) (rn : Bool) (f : File)
    (h : CSVFile g cf rn = .ok f) : f.name = csvName cf rn ∧ f.location = cf := by
  obtain ⟨-, hloc, hfalse, htrue⟩ := CSVFile_ok_inv g cf rn f h
  refine ⟨?_, hloc⟩
  unfold csvName
  cases rn with
  | false => simpa using hfalse rfl
  | true =>
    rw [if_pos rfl]
    obtain ⟨parent, hp, hname⟩ := htrue rfl
    rw [hp, hname]

theorem shutilCopy_ok_exact (g g2 : FS) (src dst : String)
    (hok : shutilCopy g src dst = .ok g2) :
    ∃ c, g.lookupFile src = some c ∧
      g2 = g.writeFile (if g.hasDir dst then pyJoin dst (pyBasename src) else dst) c := by
  unfold shutilCopy at hok
  dsimp only [] at hok
  generalize hD2 : (if g.hasDir dst = true then pyJoin dst (pyBasename src) else dst) = dst2 at hok
  split_ifs at hok
  · cases hl : g.lookupFile src with
    | none => rw [hl] at hok; exact absurd hok (by simp)
    | some c0 =>
      rw [hl] at hok
      dsimp only [] at hok
      injection hok with h4
      exact ⟨c0, rfl, h4.symm⟩
  · cases hl : g.lookupFile src with
    | none => rw [hl] at hok; exact absurd hok (by simp)
    | some c0 => rw [hl] at hok; exact absurd hok (by simp)

theorem save_plan (g g1 : FS) (f : File) (d : String) (vb : Bool)
    (hok : File.save g f (.str d) vb false = .ok g1) :
    ∃ c, g.lookupFile f.location = some c ∧
      g1 = g.writeFile
        (if g.hasDir (pyJoin d f.name) then
          pyJoin (pyJoin d f.name) (pyBasename f.location)
        else pyJoin d f.name) c := by
  unfold File.save at hok
  by_cases hex : osPathExistsArg g (.str d) = true
  · rw [if_neg (by simp [hex])] at hok
    simp only [osPathJoinChk, Bool.or_false] at hok
    cases hs : shutilCopy g f.location (pyJoin d f.name) with
    | error e =>
      simp only [hs] at hok
      cases vb <;>
        simp [Bind.bind, Except.bind, throw, throwThe, MonadExceptOf.throw,
          Pure.pure, Except.pure] at hok
    | ok x =>
      simp only [hs] at hok
      have hx : x = g1 := by
        cases vb <;>
          simp [Bind.bind, Except.bind, Pure.pure, Except.pure] at hok <;>
          exact hok
      obtain ⟨c, hc, hw⟩ := shutilCopy_ok_exact g x f.location (pyJoin d f.name) hs
      exact ⟨c, hc, by rw [← hx, hw]⟩
  · rw [if_pos (by simp [hex])] at hok
    simp [Bind.bind, Except.bind, throw, throwThe, MonadExceptOf.throw] at hok

theorem save_target_under (d nm loc : String) (hgD : goodPath d) (b : Bool)
    (hnm : nm.data.head? ≠ some '/') :
    pathUnder d (if b then pyJoin (pyJoin d nm) (pyBasename loc) else pyJoin d nm) = true := by
  cases b with
  | false =>
    rw [if_neg (by simp)]
    exact pathUnder_join_self d nm hgD hnm
  | true =>
    rw [if_pos rfl]
    exact pathUnder_cone d (pyJoin d nm) (pyBasename loc) hgD
      (Or.inr (pathUnder_join_self d nm hgD hnm))
      (head_ne_slash_of_noSlash _ (pyBasename_noSlash loc))

theorem csvPlan_targets_under (fs0 : FS) (L : List String) (d : String) (rn : Bool)
    (hgD : goodPath d) :
    ∀ wc ∈ csvPlan fs0 L d rn, pathUnder d wc.1 = true := by
  intro wc hwc
  obtain ⟨cf, _, rfl⟩ := List.mem_map.mp hwc
  unfold planEntry
  dsimp only []
  exact save_target_under d (csvName cf rn) cf hgD _
    (head_ne_slash_of_noSlash _ (csvName_noSlash cf rn))

theorem partsPlan_targets_under (fs0 : FS) (parts : List String) (d : String) (rn : Bool)
    (hgD : goodPath d) :
    ∀ wc ∈ partsPlan fs0 parts d rn, pathUnder d wc.1 = true := by
  induction parts with
  | nil => simp [partsPlan]
  | cons ep rest ih =>
    intro wc hwc
    unfold partsPlan at hwc
    rcases List.mem_append.mp hwc with h | h
    · exact csvPlan_targets_under fs0 _ d rn hgD wc h
    · exact ih wc h

theorem applyWrites_outside (d : String) (P : List (String × String)) (g : FS)
    (hP : ∀ wc ∈ P, pathUnder d wc.1 = true) :
    ∀ r, pathUnder d r = false → (applyWrites g P).lookupFile r = g.lookupFile r := by
  induction P generalizing g with
  | nil => exact fun r _ => rfl
  | cons wc rest ih =>
    intro r hr
    have h1 := ih (g.writeFile wc.1 wc.2) (fun x hx => hP x (by simp [hx])) r hr
    rw [applyWrites, h1, lookup_writeFile_ne]
    intro heq
    rw [heq, hP wc (by simp)] at hr
    exact absurd hr (by simp)

theorem applyWrites_childNames (d ep : String) (P : List (String × String)) (g : FS)
    (hP : ∀ wc ∈ P, pathUnder d wc.1 = true) (hsepEp : partsSeparated d ep) :
    childNames (applyWrites g P) ep = childNames g ep := by
  induction P generalizing g with
  | nil => rfl
  | cons wc rest ih =>
    rw [applyWrites, ih _ (fun x hx => hP x (by simp [hx])),
      childNames_writeFile g wc.1 wc.2 ep
        (childName_none_of_not_under ep wc.1
          (not_under_of_separated d ep wc.1 hsepEp (hP wc (by simp))))]

theorem hasDir_of_dirs_eq (g g' : FS) (h : g.dirs = g'.dirs) (p : String) :
    g.hasDir p = g'.hasDir p := by
  unfold FS.hasDir
  rw [h]

theorem saveCSVLoop_plan (d : String) (L : List String) (fs0 g gout : FS) (rn vb : Bool)
    (hgD : goodPath d)
    (hdirs : g.dirs = fs0.dirs)
    (hout : ∀ r, pathUnder d r = false → g.lookupFile r = fs0.lookupFile r)
    (hL : ∀ cf ∈ L, pathUnder d cf = false)
    (hok : saveCSVLoop g L (.str d) rn vb false = .ok gout) :
    gout = applyWrites g (csvPlan fs0 L d rn) := by
  induction L generalizing g with
  | nil =>
    unfold saveCSVLoop at hok
    injection hok with h2
    exact h2.symm
  | cons cf rest ih =>
    unfold saveCSVLoop at hok
    cases hc : CSVFile g cf rn with
    | error e =>
      simp only [hc] at hok
      simp [throw, throwThe, MonadExceptOf.throw] at hok
    | ok f =>
      simp only [hc] at hok
      obtain ⟨g1, hA, hB⟩ := bind_eq_ok hok
      obtain ⟨hname, hloc⟩ := CSVFile_name_eq_csvName g cf rn f hc
      obtain ⟨c, hcl, hg1⟩ := save_plan g g1 f d vb hA
      rw [hloc] at hcl
      have hc0 : (fs0.lookupFile cf).getD "" = c := by
        rw [← hout cf (hL cf (by simp)), hcl]
        rfl
      have hDir : g.hasDir (pyJoin d (csvName cf rn)) =
          fs0.hasDir (pyJoin d (csvName cf rn)) :=
        hasDir_of_dirs_eq g fs0 hdirs _
      have hg1' : g1 = g.writeFile (planEntry fs0 d rn cf).1 (planEntry fs0 d rn cf).2 := by
        rw [hg1, hname, hloc]
        unfold planEntry
        dsimp only []
        rw [hDir, hc0]
      have hU : pathUnder d (planEntry fs0 d rn cf).1 = true := by
        unfold planEntry
        dsimp only []
        exact save_target_under d (csvName cf rn) cf hgD _
          (head_ne_slash_of_noSlash _ (csvName_noSlash cf rn))
      have hrec := ih g1
        (by rw [hg1']; exact hdirs)
        (by
          intro r hr
          rw [hg1', lookup_writeFile_ne, hout r hr]
          intro heq
          rw [heq, hU] at hr
          exact absurd hr (by simp))
        (fun x hx => hL x (by simp [hx]))
        hB
      show gout = applyWrites g (planEntry fs0 d rn cf :: csvPlan fs0 rest d rn)
      rw [applyWrites, ← hg1']
      exact hrec

theorem csvPartsLoop_plan (d : String) (parts : List String) (fs0 g gout : FS)
    (rn vb : Bool) (hgD : goodPath d)
    (hsep : ∀ ep ∈ parts, partsSeparated d ep)
    (hepG : ∀ ep ∈ parts, goodPath ep)
    (hdirs : g.dirs = fs0.dirs)
    (hout : ∀ r, pathUnder d r = false → g.lookupFile r = fs0.lookupFile r)
    (hchild : ∀ ep ∈ parts, childNames g ep = childNames fs0 ep)
    (hok : csvPartsLoop g parts (.str d) false rn vb false = .ok gout) :
    gout = applyWrites g (partsPlan fs0 parts d rn) := by
  induction parts generalizing g with
  | nil =>
    unfold csvPartsLoop at hok
    injection hok with h2
    exact h2.symm
  | cons ep rest ih =>
    unfold csvPartsLoop at hok
    rw [if_neg (by simp)] at hok
    obtain ⟨g2, hA, hB⟩ := bind_eq_ok hok
    have hglob : glob g ep "*.CSV" = glob fs0 ep "*.CSV" :=
      glob_congr g fs0 ep "*.CSV" (hchild ep (by simp))
    rw [hglob] at hA
    have hL : ∀ cf ∈ glob fs0 ep "*.CSV", pathUnder d cf = false := by
      intro cf hcf
      obtain ⟨n, rfl, _, hnsl, _⟩ := glob_shape fs0 ep "*.CSV" cf hcf
      exact child_not_under d ep n (hepG ep (by simp)) hnsl (hsep ep (by simp))
    have hg2 : g2 = applyWrites g (csvPlan fs0 (glob fs0 ep "*.CSV") d rn) :=
      saveCSVLoop_plan d _ fs0 g g2 rn vb hgD hdirs hout hL hA
    have hPU := csvPlan_targets_under fs0 (glob fs0 ep "*.CSV") d rn hgD
    have hrec := ih g2
      (fun x hx => hsep x (by simp [hx]))
      (fun x hx => hepG x (by simp [hx]))
      (by rw [hg2, applyWrites_dirs]; exact hdirs)
      (by
        intro r hr
        rw [hg2, applyWrites_outside d _ g hPU r hr, hout r hr])
      (by
        intro x hx
        rw [hg2, applyWrites_childNames d x _ g hPU (hsep x (by simp [hx])),
          hchild x (by simp [hx])])
      hB
    show gout = applyWrites g
      (csvPlan fs0 (glob fs0 ep "*.CSV") d rn ++ partsPlan fs0 rest d rn)
    rw [applyWrites_append, ← hg2]
    exact hrec

/-! ### Further FS and path basics for the idempotence proof -/

theorem isFile_iff_lookup (fs : FS) (p : String) :
    fs.isFile p = true ↔ ∃ c, fs.lookupFile p = some c := by
  unfold FS.isFile FS.lookupFile
  induction fs.files with
  | nil => simp
  | cons e t ih =>
    by_cases he : e.1 = p
    · rw [List.find?_cons_of_pos _ (by simp [he])]
      simp [he]
    · rw [List.find?_cons_of_neg _ (by simp [he])]
      simp only [List.any_cons, Bool.or_eq_true, decide_eq_true_eq]
      constructor
      · rintro (h | h)
        · exact absurd h he
        · exact ih.mp h
      · intro h
        exact Or.inr (ih.mpr h)

theorem isFile_eq_of_lookup_eq (g1 g2 : FS) (p : String)
    (hl : g2.lookupFile p = g1.lookupFile p) : g2.isFile p = g1.isFile p := by
  by_cases hf : g1.isFile p = true
  · obtain ⟨c, hc⟩ := (isFile_iff_lookup g1 p).mp hf
    rw [hf, (isFile_iff_lookup g2 p).mpr ⟨c, by rw [hl, hc]⟩]
  · have h2 : ¬ g2.isFile p = true := by
      intro hh
      obtain ⟨c, hc⟩ := (isFile_iff_lookup g2 p).mp hh
      exact hf ((isFile_iff_lookup g1 p).mpr ⟨c, by rw [← hl, hc]⟩)
    rw [Bool.not_eq_true] at hf h2
    rw [hf, h2]

theorem pathExists_eq_of (g1 g2 : FS) (p : String)
    (hl : g2.lookupFile p = g1.lookupFile p) (hd : g2.hasDir p = g1.hasDir p) :
    pathExists g2 p = pathExists g1 p := by
  unfold pathExists
  rw [hd, isFile_eq_of_lookup_eq g1 g2 p hl]

theorem pathExists_mono_writeFile (g : FS) (w c q : String)
    (h : pathExists g q = true) : pathExists (g.writeFile w c) q = true := by
  unfold pathExists at h ⊢
  rcases Bool.or_eq_true_iff.mp h with h1 | h1
  · rw [isFile_writeFile_of g w c q h1]
    rfl
  · rw [show (g.writeFile w c).hasDir q = g.hasDir q from rfl, h1]
    simp

theorem hasDir_append_or (f : List (String × String)) (l1 l2 : List String) (p : String) :
    FS.hasDir ⟨f, l1 ++ l2⟩ p = (FS.hasDir ⟨f, l1⟩ p || FS.hasDir ⟨f, l2⟩ p) := by
  unfold FS.hasDir
  simp only []
  by_cases h1 : p ∈ l1 <;> by_cases h2 : p ∈ l2 <;>
    simp [List.elem_iff, List.mem_append, h1, h2]

theorem pathExists_mono_makedirs (g : FS) (w q : String)
    (h : pathExists g q = true) : pathExists (g.makedirs w) q = true := by
  unfold pathExists at h ⊢
  rcases Bool.or_eq_true_iff.mp h with h1 | h1
  · rw [show (g.makedirs w).isFile q = g.isFile q from rfl, h1]
    rfl
  · have h2 : (g.makedirs w).hasDir q = true := by
      unfold FS.makedirs
      rw [hasDir_append_or]
      have h3 : FS.hasDir ⟨g.files, g.dirs⟩ q = true := h1
      rw [h3]
      simp
    rw [h2]
    simp

theorem splitSlash_cons (c : Char) (rest : List Char) :
    splitSlash (c :: rest) = if c = '/' then [] :: splitSlash rest
      else (c :: (splitSlash rest).headD []) :: (splitSlash rest).tail := rfl

theorem splitSlash_getLast (l : List Char) (hne : l ≠ []) (hlast : l.getLast? ≠ some '/') :
    ∃ lc, (splitSlash l).getLast? = some lc ∧ lc ≠ [] := by
  induction l with
  | nil => exact absurd rfl hne
  | cons c rest ih =>
    cases rest with
    | nil =>
      have hc : c ≠ '/' := fun h => hlast (by simp [h])
      refine ⟨[c], ?_, by simp⟩
      simp [splitSlash, hc]
    | cons b t =>
      have hlast2 : (b :: t).getLast? ≠ some '/' := by
        rw [List.getLast?_cons_cons] at hlast
        exact hlast
      obtain ⟨lc, hlc, hlcne⟩ := ih (by simp) hlast2
      have hr := splitSlash_ne_nil (b :: t)
      by_cases hc : c = '/'
      · refine ⟨lc, ?_, hlcne⟩
        rw [show splitSlash (c :: b :: t) = [] :: splitSlash (b :: t) by
          simp [splitSlash, hc]]
        rw [show ([] :: splitSlash (b :: t)) = [([] : List Char)] ++ splitSlash (b :: t)
          from rfl]
        rw [List.getLast?_append_of_ne_nil _ hr]
        exact hlc
      · match hsp : splitSlash (b :: t) with
        | [] => exact absurd hsp hr
        | h1 :: t1 =>
          have hform : splitSlash (c :: b :: t) = (c :: h1) :: t1 := by
            rw [splitSlash_cons, if_neg hc, hsp]
            simp
          cases t1 with
          | nil =>
            rw [hsp] at hlc
            simp only [List.getLast?_singleton] at hlc
            injection hlc with hlc2
            refine ⟨c :: h1, ?_, by simp⟩
            rw [hform]
            simp
          | cons h2 t2 =>
            refine ⟨lc, ?_, hlcne⟩
            rw [hform]
            rw [hsp] at hlc
            rw [show ((c :: h1) :: h2 :: t2) = [c :: h1] ++ (h2 :: t2) from rfl,
              List.getLast?_append_of_ne_nil _ (by simp)]
            rw [show (h1 :: h2 :: t2) = [h1] ++ (h2 :: t2) from rfl,
              List.getLast?_append_of_ne_nil _ (by simp)] at hlc
            exact hlc

theorem pyBasename_nonempty (p : String) (hg : goodPath p) :
    (pyBasename p).data ≠ [] := by
  obtain ⟨lc, hlc, hlcne⟩ := splitSlash_getLast p.data hg.1 hg.2
  have hmap : (pySplit p).getLast? = some ⟨lc⟩ := by
    unfold pySplit
    rw [List.getLast?_map, hlc]
    rfl
  have hhead : (pySplit p).reverse.head? = some ⟨lc⟩ := by
    rw [List.head?_reverse]
    exact hmap
  unfold pyBasename
  match hrev : (pySplit p).reverse with
  | [] => rw [hrev] at hhead; simp at hhead
  | x :: xs =>
    rw [hrev] at hhead
    simp only [List.head?_cons] at hhead
    injection hhead with hx
    rw [hx]
    simpa using hlcne

theorem ne_two_comp (d w z x : String) (r : List Char) (hgD : goodPath d)
    (hw : w.data = d.data ++ '/' :: (x.data ++ '/' :: r))
    (hz : ∀ ch ∈ z.data, ch ≠ '/') : w ≠ pyJoin d z := by
  intro he
  have hd2 := congrArg String.data he
  rw [hw, data_pyJoin_good d z hgD (head_ne_slash_of_noSlash z hz)] at hd2
  have h3 := List.append_cancel_left hd2
  injection h3 with h4 h5
  refine hz '/' (h5 ▸ ?_) rfl
  exact List.mem_append.mpr (Or.inr (by simp))

theorem pathUnder_of_dataExt (d s w : String) (tail : List Char)
    (hC : inCone d s) (hw : w.data = s.data ++ '/' :: tail) :
    pathUnder d w = true := by
  unfold pathUnder
  rw [List.isPrefixOf_iff_prefix]
  rcases hC with rfl | hU
  · refine ⟨tail, ?_⟩
    rw [string_append_data, hw, show ("/" : String).data = ['/'] from rfl]
    simp
  · unfold pathUnder at hU
    rw [List.isPrefixOf_iff_prefix] at hU
    obtain ⟨u, hu⟩ := hU
    refine ⟨u ++ '/' :: tail, ?_⟩
    rw [hw, ← hu]
    simp

theorem shutilCopy_ok_full (g gx : FS) (src dst : String)
    (hok : shutilCopy g src dst = .ok gx) :
    g.hasDir src = false ∧
    ∃ c, g.lookupFile src = some c ∧
      g.hasDir (pyDirname (if g.hasDir dst then pyJoin dst (pyBasename src) else dst)) = true ∧
      gx = g.writeFile (if g.hasDir dst then pyJoin dst (pyBasename src) else dst) c := by
  unfold shutilCopy at hok
  dsimp only [] at hok
  generalize hD2 : (if g.hasDir dst = true then pyJoin dst (pyBasename src) else dst) = dst2 at hok ⊢
  split_ifs at hok with h1 h2 h3
  · cases hl : g.lookupFile src with
    | none => rw [hl] at hok; exact absurd hok (by simp)
    | some c0 =>
      rw [hl] at hok
      injection hok with h4
      exact ⟨by simpa using h2, c0, rfl, h3, h4.symm⟩
  · cases hl : g.lookupFile src with
    | none => rw [hl] at hok; exact absurd hok (by simp)
    | some c0 => rw [hl] at hok; exact absurd hok (by simp)

theorem shutilCopy_replay (g2 : FS) (src dst dst2 : String) (c : String)
    (hD2 : dst2 = (if g2.hasDir dst then pyJoin dst (pyBasename src) else dst))
    (hne : src ≠ dst2)
    (hsrcF : g2.hasDir src = false)
    (hlk : g2.lookupFile src = some c)
    (hpar : g2.hasDir (pyDirname dst2) = true) :
    shutilCopy g2 src dst = .ok (g2.writeFile dst2 c) := by
  unfold shutilCopy
  dsimp only []
  rw [← hD2]
  rw [if_neg (fun hh => hne hh.1)]
  rw [if_neg (by simp [hsrcF])]
  rw [hlk]
  dsimp only []
  rw [if_pos hpar]

theorem save_pair (d s : String) (g1 g1' g2 : FS) (f : File) (vb : Bool)
    (hsG : goodPath s) (hsC : inCone d s)
    (hnmSl : ∀ ch ∈ f.name.data, ch ≠ '/') (hnmNe : f.name.data ≠ [])
    (hlocO : pathUnder d f.location = false)
    (hlook : g2.lookupFile f.location = g1.lookupFile f.location)
    (hdirSrc : g2.hasDir f.location = g1.hasDir f.location)
    (hdstCk : g2.hasDir (pyJoin s f.name) = g1.hasDir (pyJoin s f.name))
    (hmono : ∀ w, g1.hasDir w = true → g2.hasDir w = true)
    (hdest : osPathExistsArg g2 (.str s) = true)
    (hok1 : File.save g1 f (.str s) vb false = .ok g1') :
    ∃ w c, (∃ tail, w.data = s.data ++ '/' :: tail) ∧
      g1' = g1.writeFile w c ∧
      File.save g2 f (.str s) vb false = .ok (g2.writeFile w c) := by
  have hnmH : f.name.data.head? ≠ some '/' := head_ne_slash_of_noSlash f.name hnmSl
  have hdstData : (pyJoin s f.name).data = s.data ++ '/' :: f.name.data :=
    data_pyJoin_good s f.name hsG hnmH
  unfold File.save at hok1
  by_cases hex : osPathExistsArg g1 (.str s) = true
  · rw [if_neg (by simp [hex])] at hok1
    simp only [osPathJoinChk, Bool.or_false] at hok1
    cases hs1 : shutilCopy g1 f.location (pyJoin s f.name) with
    | error e =>
      simp only [hs1] at hok1
      cases vb <;>
        simp [Bind.bind, Except.bind, throw, throwThe, MonadExceptOf.throw,
          Pure.pure, Except.pure] at hok1
    | ok x =>
      simp only [hs1] at hok1
      have hx : x = g1' := by
        cases vb <;>
          simp [Bind.bind, Except.bind, Pure.pure, Except.pure] at hok1 <;>
          exact hok1
      obtain ⟨hsrcF1, c, hlk1, hpar1, hxw⟩ :=
        shutilCopy_ok_full g1 x f.location (pyJoin s f.name) hs1
      set dst2 := (if g1.hasDir (pyJoin s f.name) then
        pyJoin (pyJoin s f.name) (pyBasename f.location) else pyJoin s f.name) with hdst2
      have hshape : ∃ tail, dst2.data = s.data ++ '/' :: tail := by
        rw [hdst2]
        by_cases hDd : g1.hasDir (pyJoin s f.name) = true
        · rw [if_pos hDd]
          refine ⟨f.name.data ++ '/' :: (pyBasename f.location).data, ?_⟩
          rw [data_pyJoin_good (pyJoin s f.name) (pyBasename f.location)
            (goodPath_extend s f.name.data _ hdstData hnmNe hnmSl)
            (head_ne_slash_of_noSlash _ (pyBasename_noSlash f.location)), hdstData]
          simp
        · rw [if_neg hDd]
          exact ⟨f.name.data, hdstData⟩
      have hU2 : pathUnder d dst2 = true := by
        obtain ⟨tail, ht⟩ := hshape
        exact pathUnder_of_dataExt d s dst2 tail hsC ht
      have hne2 : f.location ≠ dst2 := by
        intro he
        rw [he, hU2] at hlocO
        exact absurd hlocO (by simp)
      have hrep : shutilCopy g2 f.location (pyJoin s f.name) =
          .ok (g2.writeFile dst2 c) := by
        refine shutilCopy_replay g2 f.location (pyJoin s f.name) dst2 c ?_ hne2 ?_ ?_ ?_
        · rw [hdst2, hdstCk]
        · rw [hdirSrc]
          exact hsrcF1
        · rw [hlook]
          exact hlk1
        · exact hmono _ hpar1
      refine ⟨dst2, c, hshape, by rw [← hx, hxw], ?_⟩
      unfold File.save
      rw [if_neg (by simp [hdest])]
      simp only [osPathJoinChk, Bool.or_false]
      rw [hrep]
      cases vb <;> simp [Bind.bind, Except.bind, Pure.pure, Except.pure]
  · rw [if_pos (by simp [hex])] at hok1
    simp [Bind.bind, Except.bind, throw, throwThe, MonadExceptOf.throw] at hok1

theorem CSVFile_congr (g1 g2 : FS) (loc : String) (rn : Bool)
    (h : pathExists g2 loc = pathExists g1 loc) :
    CSVFile g2 loc rn = CSVFile g1 loc rn := by
  unfold CSVFile File.make
  rw [h]

theorem JPGFile_congr (g1 g2 : FS) (loc : String)
    (h : pathExists g2 loc = pathExists g1 loc) :
    JPGFile g2 loc = JPGFile g1 loc := by
  unfold JPGFile File.make
  rw [h]

theorem osPathExistsArg_str (g : FS) (s : String) :
    osPathExistsArg g (.str s) = pathExists g s := rfl

theorem saveCSVLoop_pair (d s : String) (PS : String → Prop) (L : List String)
    (g1 g1' g2 : FS) (rn vb : Bool)
    (hsG : goodPath s) (hsC : inCone d s)
    (hLout : ∀ cf ∈ L, pathUnder d cf = false)
    (hLnm : ∀ cf ∈ L, fnmatch "*.CSV" (pyBasename cf) = true)
    (hout : ∀ r, pathUnder d r = false → g2.lookupFile r = g1.lookupFile r)
    (hdirOut : ∀ r, pathUnder d r = false → g2.hasDir r = g1.hasDir r)
    (hmono : ∀ w, g1.hasDir w = true → g2.hasDir w = true)
    (hback : ∀ w, g2.hasDir w = true → g1.hasDir w = true ∨ PS w)
    (hPSne : ∀ cf ∈ L, ¬ PS (pyJoin s (csvName cf rn)))
    (hdest : osPathExistsArg g2 (.str s) = true)
    (hok1 : saveCSVLoop g1 L (.str s) rn vb false = .ok g1') :
    ∃ P : List (String × String),
      (∀ wc ∈ P, ∃ tail, wc.1.data = s.data ++ '/' :: tail) ∧
      g1' = applyWrites g1 P ∧
      saveCSVLoop g2 L (.str s) rn vb false = .ok (applyWrites g2 P) := by
  induction L generalizing g1 g2 with
  | nil =>
    unfold saveCSVLoop at hok1 ⊢
    injection hok1 with h2
    exact ⟨[], by simp, h2.symm, rfl⟩
  | cons cf rest ih =>
    unfold saveCSVLoop at hok1
    cases hc1 : CSVFile g1 cf rn with
    | error e =>
      simp only [hc1] at hok1
      simp [throw, throwThe, MonadExceptOf.throw] at hok1
    | ok f =>
      simp only [hc1] at hok1
      obtain ⟨g1m, hA, hB⟩ := bind_eq_ok hok1
      have hcfO := hLout cf (by simp)
      have hpe : pathExists g2 cf = pathExists g1 cf :=
        pathExists_eq_of g1 g2 cf (hout cf hcfO) (hdirOut cf hcfO)
      have hc2 : CSVFile g2 cf rn = .ok f := by
        rw [CSVFile_congr g1 g2 cf rn hpe]
        exact hc1
      obtain ⟨hname, hloc⟩ := CSVFile_name_eq_csvName g1 cf rn f hc1
      have hnmSl := CSVFile_name_noSlash g1 cf rn f hc1
      obtain ⟨hnmNe, -⟩ := CSVFile_name_props g1 cf rn f hc1 (hLnm cf (by simp))
      have hdstCk : g2.hasDir (pyJoin s f.name) = g1.hasDir (pyJoin s f.name) := by
        cases h1v : g1.hasDir (pyJoin s f.name) with
        | true => exact hmono _ h1v
        | false =>
          cases h2v : g2.hasDir (pyJoin s f.name) with
          | false => rfl
          | true =>
            rcases hback _ h2v with h3 | h3
            · rw [h3] at h1v
              exact absurd h1v (by simp)
            · rw [hname] at h3
              exact absurd h3 (hPSne cf (by simp))
      obtain ⟨w, c, hshape, hg1w, hsave2⟩ := save_pair d s g1 g1m g2 f vb hsG hsC
        hnmSl hnmNe (hloc ▸ hcfO) (hloc ▸ hout cf hcfO)
        (hloc ▸ hdirOut cf hcfO) hdstCk hmono hdest hA
      obtain ⟨P', hPsh, hg1rec, hrun2⟩ := ih (g1.writeFile w c) (g2.writeFile w c)
        (fun x hx => hLout x (by simp [hx]))
        (fun x hx => hLnm x (by simp [hx]))
        (by
          intro r hr
          by_cases hrw : r = w
          · rw [hrw, lookup_writeFile_self, lookup_writeFile_self]
          · rw [lookup_writeFile_ne _ _ _ _ hrw, lookup_writeFile_ne _ _ _ _ hrw]
            exact hout r hr)
        (fun r hr => hdirOut r hr)
        (fun x hx => hmono x hx)
        (fun x hx => hback x hx)
        (fun x hx => hPSne x (by simp [hx]))
        (by
          rw [osPathExistsArg_str] at hdest ⊢
          exact pathExists_mono_writeFile g2 w c s hdest)
        (by rw [← hg1w]; exact hB)
      refine ⟨(w, c) :: P', ?_, ?_, ?_⟩
      · intro wc hwc
        rcases List.mem_cons.mp hwc with rfl | h
        · exact hshape
        · exact hPsh wc h
      · rw [show applyWrites g1 ((w, c) :: P') = applyWrites (g1.writeFile w c) P' from rfl]
        exact hg1rec
      · unfold saveCSVLoop
        simp only [hc2]
        rw [hsave2, ok_bind]
        exact hrun2

theorem saveJPGLoop_pair (d tsp : String) (PS : String → Prop) (parts : List String)
    (g1 g1' g2 : FS) (vb : Bool)
    (htspU : pathUnder d tsp = true) (htspG : goodPath tsp)
    (hsep : ∀ ep ∈ parts, partsSeparated d ep)
    (hepG : ∀ ep ∈ parts, goodPath ep)
    (hchild : ∀ ep ∈ parts, childNames g2 ep = childNames g1 ep)
    (hout : ∀ r, pathUnder d r = false → g2.lookupFile r = g1.lookupFile r)
    (hdirOut : ∀ r, pathUnder d r = false → g2.hasDir r = g1.hasDir r)
    (hmono : ∀ w, g1.hasDir w = true → g2.hasDir w = true)
    (hback : ∀ w, g2.hasDir w = true → g1.hasDir w = true ∨ PS w)
    (hPSne : ∀ ep ∈ parts, ¬ PS (pyJoin tsp (asciiLower (pyBasename ep) ++ ".jpg")))
    (hdest : osPathExistsArg g2 (.str tsp) = true)
    (hok1 : saveJPGLoop g1 parts tsp vb false = .ok g1') :
    ∃ P : List (String × String),
      (∀ wc ∈ P, ∃ tail, wc.1.data = tsp.data ++ '/' :: tail) ∧
      g1' = applyWrites g1 P ∧
      saveJPGLoop g2 parts tsp vb false = .ok (applyWrites g2 P) := by
  induction parts generalizing g1 g2 with
  | nil =>
    unfold saveJPGLoop at hok1 ⊢
    injection hok1 with h2
    exact ⟨[], by simp, h2.symm, rfl⟩
  | cons ep rest ih =>
    unfold saveJPGLoop at hok1
    cases hgl : glob g1 ep "*.JPG" with
    | nil =>
      simp only [hgl] at hok1
      simp [throw, throwThe, MonadExceptOf.throw] at hok1
    | cons j js =>
      simp only [hgl] at hok1
      cases hj : JPGFile g1 j with
      | error e =>
        simp only [hj] at hok1
        simp [throw, throwThe, MonadExceptOf.throw] at hok1
      | ok f =>
        simp only [hj] at hok1
        obtain ⟨g1m, hA, hB⟩ := bind_eq_ok hok1
        have hjmem : j ∈ glob g1 ep "*.JPG" := by rw [hgl]; simp
        obtain ⟨n, hjn, hnne, hnsl, -⟩ := glob_shape g1 ep "*.JPG" j hjmem
        have hepGood : goodPath ep := hepG ep (by simp)
        have hjO : pathUnder d j = false := by
          rw [hjn]
          exact child_not_under d ep n hepGood hnsl (hsep ep (by simp))
        obtain ⟨-, hfloc, parent, hpar, hfname⟩ := JPGFile_ok_inv g1 j f hj
        have hparval : parent = pyBasename ep := by
          have h2 := (join_split_facts ep n hepGood hnsl).2
          rw [← hjn] at h2
          rw [h2] at hpar
          injection hpar with h3
          exact h3.symm
        have hfname2 : f.name = asciiLower (pyBasename ep) ++ ".jpg" := by
          rw [hfname, hparval]
        have hglobEq : glob g2 ep "*.JPG" = glob g1 ep "*.JPG" :=
          glob_congr g2 g1 ep "*.JPG" (hchild ep (by simp))
        have hpe : pathExists g2 j = pathExists g1 j :=
          pathExists_eq_of g1 g2 j (hout j hjO) (hdirOut j hjO)
        have hj2 : JPGFile g2 j = .ok f := by
          rw [JPGFile_congr g1 g2 j hpe]
          exact hj
        have hnmSl : ∀ ch ∈ f.name.data, ch ≠ '/' := by
          rw [hfname2]
          exact jpgTargetName_noSlash ep
        have hnmNe : f.name.data ≠ [] := by
          rw [hfname2, string_append_data]
          simp
        have hdstCk : g2.hasDir (pyJoin tsp f.name) = g1.hasDir (pyJoin tsp f.name) := by
          cases h1v : g1.hasDir (pyJoin tsp f.name) with
          | true => exact hmono _ h1v
          | false =>
            cases h2v : g2.hasDir (pyJoin tsp f.name) with
            | false => rfl
            | true =>
              rcases hback _ h2v with h3 | h3
              · rw [h3] at h1v
                exact absurd h1v (by simp)
              · rw [hfname2] at h3
                exact absurd h3 (hPSne ep (by simp))
        obtain ⟨w, c, hshape, hg1w, hsave2⟩ := save_pair d tsp g1 g1m g2 f vb htspG
          (Or.inr htspU) hnmSl hnmNe (hfloc ▸ hjO) (hfloc ▸ hout j hjO)
          (hfloc ▸ hdirOut j hjO) hdstCk hmono hdest hA
        have hwU : pathUnder d w = true := by
          obtain ⟨tail, ht⟩ := hshape
          exact pathUnder_of_dataExt d tsp w tail (Or.inr htspU) ht
        obtain ⟨P', hPsh, hg1rec, hrun2⟩ := ih (g1.writeFile w c) (g2.writeFile w c)
          (fun x hx => hsep x (by simp [hx]))
          (fun x hx => hepG x (by simp [hx]))
          (by
            intro x hx
            have hcn : childName x w = none :=
              childName_none_of_not_under x w
                (not_under_of_separated d x w (hsep x (by simp [hx])) hwU)
            rw [childNames_writeFile g2 w c x hcn, childNames_writeFile g1 w c x hcn]
            exact hchild x (by simp [hx]))
          (by
            intro r hr
            by_cases hrw : r = w
            · rw [hrw, lookup_writeFile_self, lookup_writeFile_self]
            · rw [lookup_writeFile_ne _ _ _ _ hrw, lookup_writeFile_ne _ _ _ _ hrw]
              exact hout r hr)
          (fun r hr => hdirOut r hr)
          (fun x hx => hmono x hx)
          (fun x hx => hback x hx)
          (fun x hx => hPSne x (by simp [hx]))
          (by
            rw [osPathExistsArg_str] at hdest ⊢
            exact pathExists_mono_writeFile g2 w c tsp hdest)
          (by rw [← hg1w]; exact hB)
        refine ⟨(w, c) :: P', ?_, ?_, ?_⟩
        · intro wc hwc
          rcases List.mem_cons.mp hwc with rfl | h
          · exact hshape
          · exact hPsh wc h
        · rw [show applyWrites g1 ((w, c) :: P') = applyWrites (g1.writeFile w c) P' from rfl]
          exact hg1rec
        · unfold saveJPGLoop
          rw [hglobEq]
          simp only [hgl, hj2]
          rw [hsave2, ok_bind]
          exact hrun2

theorem applyWrites_files_congr (P : List (String × String)) (g g' : FS)
    (h : g.files = g'.files) : (applyWrites g P).files = (applyWrites g' P).files := by
  induction P generalizing g g' with
  | nil => exact h
  | cons wc rest ih =>
    simp only [applyWrites]
    exact ih _ _ (by unfold FS.writeFile; rw [h])

theorem pathExists_mono_applyWrites (P : List (String × String)) (g : FS) (q : String)
    (h : pathExists g q = true) : pathExists (applyWrites g P) q = true := by
  induction P generalizing g with
  | nil => exact h
  | cons wc rest ih => exact ih _ (pathExists_mono_writeFile g wc.1 wc.2 q h)

theorem jpgPhase_pair (d : String) (PS : String → Prop) (parts : List String)
    (g1 g1' g2 : FS) (vb : Bool)
    (hgD : goodPath d)
    (hsep : ∀ ep ∈ parts, partsSeparated d ep)
    (hepG : ∀ ep ∈ parts, goodPath ep)
    (hchild : ∀ ep ∈ parts, childNames g2 ep = childNames g1 ep)
    (hout : ∀ r, pathUnder d r = false → g2.lookupFile r = g1.lookupFile r)
    (hdirOut : ∀ r, pathUnder d r = false → g2.hasDir r = g1.hasDir r)
    (hmono : ∀ w, g1.hasDir w = true → g2.hasDir w = true)
    (hback : ∀ w, g2.hasDir w = true → g1.hasDir w = true ∨ PS w)
    (hPSne : ∀ ep ∈ parts,
      ¬ PS (pyJoin (pyJoin d "jpgs") (asciiLower (pyBasename ep) ++ ".jpg")))
    (hex2 : pathExists g2 (pyJoin d "jpgs") = true)
    (htspD : pathExists g1 (pyJoin d "jpgs") = false →
      g2.hasDir (pyJoin d "jpgs") = true)
    (hok1 : jpgPhase g1 parts (.str d) vb false = .ok g1') :
    ∃ P : List (String × String),
      (∀ wc ∈ P, ∃ tail, wc.1.data = (pyJoin d "jpgs").data ++ '/' :: tail) ∧
      g1'.files = (applyWrites g1 P).files ∧
      (g1'.dirs = g1.dirs ∨ g1'.dirs = g1.dirs ++ [pyJoin d "jpgs"]) ∧
      pathExists g1' (pyJoin d "jpgs") = true ∧
      jpgPhase g2 parts (.str d) vb false = .ok (applyWrites g2 P) := by
  have htspU : pathUnder d (pyJoin d "jpgs") = true :=
    pathUnder_join_self d "jpgs" hgD (by decide)
  have htspG : goodPath (pyJoin d "jpgs") :=
    goodPath_join d "jpgs" hgD (by decide) (by decide)
  unfold jpgPhase at hok1
  simp only [osPathJoinChk] at hok1
  have hrun2 : ∀ P : List (String × String),
      saveJPGLoop g2 parts (pyJoin d "jpgs") vb false = .ok (applyWrites g2 P) →
      jpgPhase g2 parts (.str d) vb false = .ok (applyWrites g2 P) := by
    intro P hloop2
    unfold jpgPhase
    simp only [osPathJoinChk]
    rw [if_pos hex2]
    simp only [hloop2]
    rw [ok_bind, if_neg (by simp)]
    rfl
  by_cases hexT : pathExists g1 (pyJoin d "jpgs") = true
  · rw [if_pos hexT] at hok1
    obtain ⟨gl, hA, hC⟩ := bind_eq_ok hok1
    rw [if_neg (by simp)] at hC
    simp only [Pure.pure, Except.pure] at hC
    injection hC with h2
    obtain ⟨P, hPsh, hg1res, hloop2⟩ := saveJPGLoop_pair d (pyJoin d "jpgs") PS parts
      g1 gl g2 vb htspU htspG hsep hepG hchild hout hdirOut hmono hback hPSne
      (by rw [osPathExistsArg_str]; exact hex2) hA
    refine ⟨P, ?_, ?_, Or.inl ?_, ?_, hrun2 P hloop2⟩
    · intro wc hwc
      exact hPsh wc hwc
    · rw [← h2, hg1res]
    · rw [← h2, hg1res, applyWrites_dirs]
    · rw [← h2, hg1res]
      exact pathExists_mono_applyWrites P g1 _ hexT
  · rw [if_neg hexT] at hok1
    obtain ⟨gl, hA, hC⟩ := bind_eq_ok hok1
    rw [if_neg (by simp)] at hC
    simp only [Pure.pure, Except.pure] at hC
    injection hC with h2
    have hexF : pathExists g1 (pyJoin d "jpgs") = false := by
      cases hres : pathExists g1 (pyJoin d "jpgs")
      · rfl
      · exact absurd hres hexT
    have htspD2 : g2.hasDir (pyJoin d "jpgs") = true := htspD hexF
    obtain ⟨P, hPsh, hg1res, hloop2⟩ := saveJPGLoop_pair d (pyJoin d "jpgs") PS parts
      (g1.makedirs (pyJoin d "jpgs")) gl g2 vb htspU htspG hsep hepG
      (by
        intro x hx
        rw [childNames_makedirs g1 (pyJoin d "jpgs") x
          (childName_none_of_not_under x _
            (not_under_of_separated d x _ (hsep x hx) htspU))]
        exact hchild x hx)
      (fun r hr => hout r hr)
      (by
        intro r hr
        rw [hasDir_makedirs_ne g1 (pyJoin d "jpgs") r
          (by
            intro he
            rw [he, htspU] at hr
            exact absurd hr (by simp))]
        exact hdirOut r hr)
      (by
        intro w hw
        unfold FS.makedirs at hw
        rw [hasDir_append_or] at hw
        rcases Bool.or_eq_true_iff.mp hw with h3 | h3
        · exact hmono w h3
        · have hwt : w = pyJoin d "jpgs" := by
            have := h3
            unfold FS.hasDir at this
            simpa [List.elem_iff] using this
          rw [hwt]
          exact htspD2)
      (by
        intro w hw
        rcases hback w hw with h3 | h3
        · left
          unfold FS.makedirs
          rw [hasDir_append_or]
          have h4 : FS.hasDir ⟨g1.files, g1.dirs⟩ w = true := h3
          rw [h4]
          simp
        · exact Or.inr h3)
      hPSne
      (by rw [osPathExistsArg_str]; exact hex2) hA
    refine ⟨P, ?_, ?_, Or.inr ?_, ?_, hrun2 P hloop2⟩
    · intro wc hwc
      exact hPsh wc hwc
    · rw [← h2, hg1res]
      exact applyWrites_files_congr P _ _ rfl
    · rw [← h2, hg1res, applyWrites_dirs]
      rfl
    · rw [← h2, hg1res]
      refine pathExists_mono_applyWrites P _ _ ?_
      unfold pathExists
      have h4 : (g1.makedirs (pyJoin d "jpgs")).hasDir (pyJoin d "jpgs") = true := by
        unfold FS.makedirs
        rw [hasDir_append_or]
        have h5 : FS.hasDir ⟨g1.files, [pyJoin d "jpgs"]⟩ (pyJoin d "jpgs") = true := by
          unfold FS.hasDir
          simp [List.elem_iff]
        rw [h5]
        simp
      rw [h4]
      simp

theorem lookup_applyWrites_ne (P : List (String × String)) (g : FS) (q : String)
    (h : ∀ wd ∈ P, wd.1 ≠ q) : (applyWrites g P).lookupFile q = g.lookupFile q := by
  induction P generalizing g with
  | nil => rfl
  | cons wc rest ih =>
    rw [show applyWrites g (wc :: rest) = applyWrites (g.writeFile wc.1 wc.2) rest from rfl]
    rw [ih _ (fun x hx => h x (by simp [hx])),
      lookup_writeFile_ne g wc.1 wc.2 q (fun hh => h wc (by simp) hh.symm)]

theorem lookup_pair_applyWrites (C : String → Prop) (P : List (String × String))
    (g1 g2 : FS) (h : ∀ r, C r → g2.lookupFile r = g1.lookupFile r) :
    ∀ r, C r → (applyWrites g2 P).lookupFile r = (applyWrites g1 P).lookupFile r := by
  induction P generalizing g1 g2 with
  | nil => exact h
  | cons wc rest ih =>
    refine ih (g1.writeFile wc.1 wc.2) (g2.writeFile wc.1 wc.2) ?_
    intro r hr
    by_cases hrw : r = wc.1
    · rw [hrw, lookup_writeFile_self, lookup_writeFile_self]
    · rw [lookup_writeFile_ne _ _ _ _ hrw, lookup_writeFile_ne _ _ _ _ hrw]
      exact h r hr

theorem hasDir_makedirs_or (g : FS) (p w : String) :
    (g.makedirs p).hasDir w = true ↔ g.hasDir w = true ∨ w = p := by
  unfold FS.makedirs FS.hasDir
  simp [List.elem_iff, List.mem_append]

theorem pathExists_false_earlier (g g' : FS) (q : String)
    (hmono : pathExists g q = true → pathExists g' q = true)
    (h : pathExists g' q = false) : pathExists g q = false := by
  cases hres : pathExists g q
  · rfl
  · rw [hmono hres] at h
    exact absurd h (by simp)

theorem csvPartsLoop_pair (d : String) (PS : String → Prop) (parts : List String)
    (g1 g1' g2 : FS) (cf rn vb : Bool)
    (hgD : goodPath d)
    (hsep : ∀ ep ∈ parts, partsSeparated d ep)
    (hepG : ∀ ep ∈ parts, goodPath ep)
    (hchild : ∀ ep ∈ parts, childNames g2 ep = childNames g1 ep)
    (hout : ∀ r, pathUnder d r = false → g2.lookupFile r = g1.lookupFile r)
    (hdirOut : ∀ r, pathUnder d r = false → g2.hasDir r = g1.hasDir r)
    (hmono : ∀ w, g1.hasDir w = true → g2.hasDir w = true)
    (hback : ∀ w, g2.hasDir w = true → g1.hasDir w = true ∨ PS w)
    (hPS2 : ∀ w, PS w → ∃ bn, w = pyJoin d bn ∧ (∀ ch ∈ bn.data, ch ≠ '/'))
    (hPSd : cf = false → ∀ nm, (∀ ch ∈ nm.data, ch ≠ '/') → ¬ PS (pyJoin d nm))
    (hPfact : ∀ ep ∈ parts, cf = true →
      (pathExists g1 (pyJoin d (pyBasename ep)) = false →
        g2.hasDir (pyJoin d (pyBasename ep)) = true) ∧
      (pathExists g1 (pyJoin d (pyBasename ep)) = true →
        pathExists g2 (pyJoin d (pyBasename ep)) = true))
    (hdest : osPathExistsArg g2 (.str d) = true)
    (hok1 : csvPartsLoop g1 parts (.str d) cf rn vb false = .ok g1') :
    ∃ P : List (String × String),
      (∀ wc ∈ P, pathUnder d wc.1 = true) ∧
      g1'.files = (applyWrites g1 P).files ∧
      (∃ ex, g1'.dirs = g1.dirs ++ ex ∧
        ∀ e ∈ ex, cf = true ∧ ∃ ep ∈ parts, e = pyJoin d (pyBasename ep)) ∧
      csvPartsLoop g2 parts (.str d) cf rn vb false = .ok (applyWrites g2 P) := by
  induction parts generalizing g1 g2 with
  | nil =>
    unfold csvPartsLoop at hok1 ⊢
    injection hok1 with h2
    refine ⟨[], by simp, ?_, ⟨[], ?_, by simp⟩, rfl⟩
    · rw [h2]
      rfl
    · rw [h2]
      simp
  | cons ep rest ih =>
    unfold csvPartsLoop at hok1
    cases cf with
    | false =>
      rw [if_neg (by simp)] at hok1
      obtain ⟨g1m, hA1, hC1⟩ := bind_eq_ok hok1
      have hglob1 : glob g2 ep "*.CSV" = glob g1 ep "*.CSV" :=
        glob_congr g2 g1 ep "*.CSV" (hchild ep (by simp))
      have hLout : ∀ x ∈ glob g1 ep "*.CSV", pathUnder d x = false := by
        intro x hx
        obtain ⟨n, rfl, -, hnsl, -⟩ := glob_shape g1 ep "*.CSV" x hx
        exact child_not_under d ep n (hepG ep (by simp)) hnsl (hsep ep (by simp))
      obtain ⟨Pi, hPiSh, hg1m, hrun2i⟩ := saveCSVLoop_pair d d PS
        (glob g1 ep "*.CSV") g1 g1m g2 rn vb hgD (Or.inl rfl) hLout
        (glob_csv_matches g1 ep (hepG ep (by simp)))
        hout hdirOut hmono hback
        (fun x hx => hPSd rfl (csvName x rn) (csvName_noSlash x rn))
        hdest hA1
      have hPiU : ∀ wc ∈ Pi, pathUnder d wc.1 = true := by
        intro wc hwc
        obtain ⟨tail, ht⟩ := hPiSh wc hwc
        exact pathUnder_of_dataExt d d wc.1 tail (Or.inl rfl) ht
      obtain ⟨Prest, hPreU, hfiles, ⟨ex, hexd, hexm⟩, hrun2rest⟩ := ih g1m
        (applyWrites g2 Pi)
        (fun x hx => hsep x (by simp [hx]))
        (fun x hx => hepG x (by simp [hx]))
        (by
          intro x hx
          rw [applyWrites_childNames d x Pi g2 hPiU (hsep x (by simp [hx])),
            hchild x (by simp [hx]), hg1m,
            applyWrites_childNames d x Pi g1 hPiU (hsep x (by simp [hx]))])
        (by
          intro r hr
          rw [applyWrites_outside d Pi g2 hPiU r hr, hout r hr, hg1m,
            applyWrites_outside d Pi g1 hPiU r hr])
        (by
          intro r hr
          rw [hasDir_of_dirs_eq _ g2 (applyWrites_dirs Pi g2) r, hdirOut r hr, hg1m,
            hasDir_of_dirs_eq _ g1 (applyWrites_dirs Pi g1) r])
        (by
          intro w hw
          rw [hg1m, hasDir_of_dirs_eq _ g1 (applyWrites_dirs Pi g1) w] at hw
          rw [hasDir_of_dirs_eq _ g2 (applyWrites_dirs Pi g2) w]
          exact hmono w hw)
        (by
          intro w hw
          rw [hasDir_of_dirs_eq _ g2 (applyWrites_dirs Pi g2) w] at hw
          rw [hg1m, hasDir_of_dirs_eq _ g1 (applyWrites_dirs Pi g1) w]
          exact hback w hw)
        (fun x hx hcf => absurd hcf (by simp))
        (by
          rw [osPathExistsArg_str] at hdest ⊢
          exact pathExists_mono_applyWrites Pi g2 d hdest)
        hC1
      refine ⟨Pi ++ Prest, ?_, ?_, ⟨ex, ?_, ?_⟩, ?_⟩
      · intro wc hwc
        rcases List.mem_append.mp hwc with h | h
        · exact hPiU wc h
        · exact hPreU wc h
      · rw [hfiles, applyWrites_append]
        exact applyWrites_files_congr Prest _ _ (by rw [hg1m])
      · rw [hexd, hg1m, applyWrites_dirs]
      · intro e he
        obtain ⟨hcf, hrest⟩ := hexm e he
        exact absurd hcf (by simp)
      · unfold csvPartsLoop
        rw [if_neg (by simp)]
        rw [hglob1]
        simp only [hrun2i, ok_bind]
        rw [applyWrites_append]
        exact hrun2rest
    | true =>
      rw [if_pos rfl] at hok1
      simp only [osPathJoinChk] at hok1
      have hbnne : (pyBasename ep).data ≠ [] := pyBasename_nonempty ep (hepG ep (by simp))
      have hbnsl := pyBasename_noSlash ep
      have hpG : goodPath (pyJoin d (pyBasename ep)) :=
        goodPath_join d (pyBasename ep) hgD hbnne hbnsl
      have hpU : pathUnder d (pyJoin d (pyBasename ep)) = true :=
        pathUnder_join_self d (pyBasename ep) hgD (head_ne_slash_of_noSlash _ hbnsl)
      have hpData : (pyJoin d (pyBasename ep)).data = d.data ++ '/' :: (pyBasename ep).data :=
        data_pyJoin_good d (pyBasename ep) hgD (head_ne_slash_of_noSlash _ hbnsl)
      set p := pyJoin d (pyBasename ep) with hpdef
      obtain ⟨hPF1, hPF2⟩ := hPfact ep (by simp) rfl
      set g1i := if pathExists g1 p = true then g1 else g1.makedirs p with hg1idef
      obtain ⟨g1m, hA1, hC1⟩ := bind_eq_ok hok1
      rw [if_neg (by simp)] at hC1
      rw [pure_bind] at hC1
      have hsepEp : partsSeparated d ep := hsep ep (by simp)
      have f_files : g1i.files = g1.files := by
        rw [hg1idef]
        split_ifs <;> rfl
      have f_lookup : ∀ r, g1i.lookupFile r = g1.lookupFile r := by
        intro r
        unfold FS.lookupFile
        rw [f_files]
      have f_isFile : ∀ r, g1i.isFile r = g1.isFile r := by
        intro r
        unfold FS.isFile
        rw [f_files]
      have f_dirs_or : ∀ w, g1i.hasDir w = true → g1.hasDir w = true ∨ w = p := by
        intro w hw
        rw [hg1idef] at hw
        split_ifs at hw
        · exact Or.inl hw
        · exact (hasDir_makedirs_or g1 p w).mp hw
      have f_dirs_mono : ∀ w, g1.hasDir w = true → g1i.hasDir w = true := by
        intro w hw
        rw [hg1idef]
        split_ifs
        · exact hw
        · exact (hasDir_makedirs_or g1 p w).mpr (Or.inl hw)
      have f_child : ∀ x, partsSeparated d x → childNames g1i x = childNames g1 x := by
        intro x hx
        rw [hg1idef]
        split_ifs
        · rfl
        · exact childNames_makedirs g1 p x
            (childName_none_of_not_under x p (not_under_of_separated d x p hx hpU))
      have f_glob : glob g1i ep "*.CSV" = glob g1 ep "*.CSV" :=
        glob_congr g1i g1 ep "*.CSV" (f_child ep hsepEp)
      have f_dirOut : ∀ r, pathUnder d r = false → g1i.hasDir r = g1.hasDir r := by
        intro r hr
        rw [hg1idef]
        split_ifs
        · rfl
        · refine hasDir_makedirs_ne g1 p r ?_
          intro he
          rw [he, hpU] at hr
          exact absurd hr (by simp)
      have f_pe_mono : ∀ q, pathExists g1 q = true → pathExists g1i q = true := by
        intro q hq
        rw [hg1idef]
        split_ifs
        · exact hq
        · exact pathExists_mono_makedirs g1 p q hq
      have hpe2 : pathExists g2 p = true := by
        by_cases hE1 : pathExists g1 p = true
        · exact hPF2 hE1
        · have hE1f : pathExists g1 p = false := by
            cases hres : pathExists g1 p
            · rfl
            · exact absurd hres hE1
          unfold pathExists
          rw [hPF1 hE1f]
          simp
      have f_mono : ∀ w, g1i.hasDir w = true → g2.hasDir w = true := by
        intro w hw
        rw [hg1idef] at hw
        split_ifs at hw with hE1
        · exact hmono w hw
        · rcases (hasDir_makedirs_or g1 p w).mp hw with h3 | h3
          · exact hmono w h3
          · rw [h3]
            refine hPF1 ?_
            cases hres : pathExists g1 p
            · rfl
            · exact absurd hres hE1
      rw [f_glob] at hA1
      have hLout : ∀ x ∈ glob g1 ep "*.CSV", pathUnder d x = false := by
        intro x hx
        obtain ⟨n, rfl, -, hnsl, -⟩ := glob_shape g1 ep "*.CSV" x hx
        exact child_not_under d ep n (hepG ep (by simp)) hnsl hsepEp
      obtain ⟨Pi, hPiSh, hg1m, hrun2i⟩ := saveCSVLoop_pair d p PS
        (glob g1 ep "*.CSV") g1i g1m g2 rn vb hpG (Or.inr hpU) hLout
        (glob_csv_matches g1 ep (hepG ep (by simp)))
        (fun r hr => by rw [f_lookup r]; exact hout r hr)
        (fun r hr => by rw [f_dirOut r hr]; exact hdirOut r hr)
        f_mono
        (fun w hw => by
          rcases hback w hw with h3 | h3
          · exact Or.inl (f_dirs_mono w h3)
          · exact Or.inr h3)
        (by
          intro x hx hps
          obtain ⟨bn2, heq, hbn2sl⟩ := hPS2 _ hps
          refine ne_two_comp d (pyJoin p (csvName x rn)) bn2 (pyBasename ep)
            (csvName x rn).data hgD ?_ hbn2sl heq
          rw [data_pyJoin_good p (csvName x rn) hpG
            (head_ne_slash_of_noSlash _ (csvName_noSlash x rn)), hpData]
          simp [List.append_assoc])
        (by rw [osPathExistsArg_str]; exact hpe2)
        hA1
      have hPiU : ∀ wc ∈ Pi, pathUnder d wc.1 = true := by
        intro wc hwc
        obtain ⟨tail, ht⟩ := hPiSh wc hwc
        exact pathUnder_of_dataExt d p wc.1 tail (Or.inr hpU) ht
      have hPiNe2 : ∀ wc ∈ Pi, ∀ z : String, (∀ ch ∈ z.data, ch ≠ '/') →
          wc.1 ≠ pyJoin d z := by
        intro wc hwc z hzsl
        obtain ⟨tail, ht⟩ := hPiSh wc hwc
        refine ne_two_comp d wc.1 z (pyBasename ep) tail hgD ?_ hzsl
        rw [ht, hpdef, hpData]
        simp [List.append_assoc]
      have hg1mdirs : g1m.dirs = g1i.dirs := by rw [hg1m, applyWrites_dirs]
      have hg2mdirs : (applyWrites g2 Pi).dirs = g2.dirs := applyWrites_dirs Pi g2
      obtain ⟨Prest, hPreU, hfiles, ⟨ex, hexd, hexm⟩, hrun2rest⟩ := ih g1m
        (applyWrites g2 Pi)
        (fun x hx => hsep x (by simp [hx]))
        (fun x hx => hepG x (by simp [hx]))
        (by
          intro x hx
          rw [applyWrites_childNames d x Pi g2 hPiU (hsep x (by simp [hx])),
            hchild x (by simp [hx]), ← f_child x (hsep x (by simp [hx])), hg1m,
            applyWrites_childNames d x Pi g1i hPiU (hsep x (by simp [hx]))])
        (by
          intro r hr
          rw [applyWrites_outside d Pi g2 hPiU r hr, hout r hr, ← f_lookup r, hg1m,
            applyWrites_outside d Pi g1i hPiU r hr])
        (by
          intro r hr
          rw [hasDir_of_dirs_eq _ g2 hg2mdirs r, hdirOut r hr, ← f_dirOut r hr,
            hasDir_of_dirs_eq g1m g1i hg1mdirs r])
        (by
          intro w hw
          rw [hasDir_of_dirs_eq g1m g1i hg1mdirs w] at hw
          rw [hasDir_of_dirs_eq _ g2 hg2mdirs w]
          exact f_mono w hw)
        (by
          intro w hw
          rw [hasDir_of_dirs_eq _ g2 hg2mdirs w] at hw
          rw [hasDir_of_dirs_eq g1m g1i hg1mdirs w]
          rcases hback w hw with h3 | h3
          · exact Or.inl (f_dirs_mono w h3)
          · exact Or.inr h3)
        (by
          intro ep2 hm2 hcf2
          have hbn2sl := pyBasename_noSlash ep2
          have hmono1m : ∀ q, pathExists g1i q = true → pathExists g1m q = true := by
            intro q hq
            rw [hg1m]
            exact pathExists_mono_applyWrites Pi g1i q hq
          constructor
          · intro hf2
            have hf0 : pathExists g1i (pyJoin d (pyBasename ep2)) = false :=
              pathExists_false_earlier g1i g1m _ (hmono1m _) hf2
            have hf1 : pathExists g1 (pyJoin d (pyBasename ep2)) = false :=
              pathExists_false_earlier g1 g1i _ (f_pe_mono _) hf0
            rw [hasDir_of_dirs_eq _ g2 hg2mdirs]
            exact (hPfact ep2 (by simp [hm2]) rfl).1 hf1
          · intro ht2
            by_cases h0 : pathExists g1 (pyJoin d (pyBasename ep2)) = true
            · have := (hPfact ep2 (by simp [hm2]) rfl).2 h0
              exact pathExists_mono_applyWrites Pi g2 _ this
            · have h0f : pathExists g1 (pyJoin d (pyBasename ep2)) = false := by
                cases hres : pathExists g1 (pyJoin d (pyBasename ep2))
                · rfl
                · exact absurd hres h0
              unfold pathExists at ht2
              rcases Bool.or_eq_true_iff.mp ht2 with hIf | hDd
              · have hif1 : g1m.isFile (pyJoin d (pyBasename ep2)) =
                    g1i.isFile (pyJoin d (pyBasename ep2)) := by
                  refine isFile_eq_of_lookup_eq g1i g1m _ ?_
                  rw [hg1m]
                  exact lookup_applyWrites_ne Pi g1i _
                    (fun wc hwc => hPiNe2 wc hwc (pyBasename ep2) hbn2sl)
                rw [hif1, f_isFile] at hIf
                have : pathExists g1 (pyJoin d (pyBasename ep2)) = true := by
                  unfold pathExists
                  rw [hIf]
                  simp
                exact absurd this h0
              · rw [hasDir_of_dirs_eq g1m g1i hg1mdirs] at hDd
                rw [hg1idef] at hDd
                split_ifs at hDd with hE1
                · have : pathExists g1 (pyJoin d (pyBasename ep2)) = true := by
                    unfold pathExists
                    rw [hDd]
                    simp
                  exact absurd this h0
                · rcases (hasDir_makedirs_or g1 p _).mp hDd with h3 | h3
                  · have : pathExists g1 (pyJoin d (pyBasename ep2)) = true := by
                      unfold pathExists
                      rw [h3]
                      simp
                    exact absurd this h0
                  · have hg2p : g2.hasDir p = true := by
                      refine hPF1 ?_
                      cases hres : pathExists g1 p
                      · rfl
                      · exact absurd hres hE1
                    unfold pathExists
                    rw [h3, hasDir_of_dirs_eq _ g2 hg2mdirs, hg2p]
                    simp)
        (by
          rw [osPathExistsArg_str] at hdest ⊢
          exact pathExists_mono_applyWrites Pi g2 d hdest)
        hC1
      refine ⟨Pi ++ Prest, ?_, ?_, ?_, ?_⟩
      · intro wc hwc
        rcases List.mem_append.mp hwc with h | h
        · exact hPiU wc h
        · exact hPreU wc h
      · rw [hfiles, applyWrites_append]
        refine applyWrites_files_congr Prest _ _ ?_
        rw [hg1m]
        exact applyWrites_files_congr Pi _ _ f_files
      · refine ⟨(if pathExists g1 p = true then [] else [p]) ++ ex, ?_, ?_⟩
        · rw [hexd, hg1mdirs, hg1idef]
          split_ifs
          · simp
          · unfold FS.makedirs
            simp
        · intro e he
          rcases List.mem_append.mp he with h | h
          · split_ifs at h
            · simp at h
            · rcases List.mem_singleton.mp h with rfl
              exact ⟨rfl, ep, by simp, hpdef⟩
          · obtain ⟨hcf2, ep2, hm2, he2⟩ := hexm e h
            exact ⟨hcf2, ep2, by simp [hm2], he2⟩
      · unfold csvPartsLoop
        rw [if_pos rfl]
        simp only [osPathJoinChk]
        rw [← hpdef, if_pos hpe2]
        rw [glob_congr g2 g1 ep "*.CSV" (hchild ep (by simp))]
        simp only [hrun2i, ok_bind]
        rw [if_neg (by simp)]
        rw [pure_bind, applyWrites_append]
        exact hrun2rest

theorem pathUnder_irrefl (d : String) : pathUnder d d = false := by
  cases hres : pathUnder d d
  · rfl
  · unfold pathUnder at hres
    obtain ⟨t, ht⟩ := List.isPrefixOf_iff_prefix.mp hres
    have hl := congrArg List.length ht
    rw [string_append_data] at hl
    simp [show ("/" : String).data = ['/'] from rfl] at hl

theorem hasDir_append_cases (g g' : FS) (ex : List String)
    (h : g'.dirs = g.dirs ++ ex) (w : String) :
    g'.hasDir w = true ↔ g.hasDir w = true ∨ w ∈ ex := by
  unfold FS.hasDir
  rw [h]
  simp [List.elem_iff, List.mem_append]

theorem save_target_shape (s nm b2 : String) (hsG : goodPath s)
    (hnm : ∀ ch ∈ nm.data, ch ≠ '/') (hb2 : b2.data.head? ≠ some '/') :
    (∃ tail, (pyJoin s nm).data = s.data ++ '/' :: tail) ∧
    (∃ tail, (pyJoin (pyJoin s nm) b2).data = s.data ++ '/' :: tail) := by
  have hnmH : nm.data.head? ≠ some '/' := head_ne_slash_of_noSlash nm hnm
  have h1 : (pyJoin s nm).data = s.data ++ '/' :: nm.data :=
    data_pyJoin_good s nm hsG hnmH
  refine ⟨⟨nm.data, h1⟩, ?_⟩
  by_cases hnm0 : nm.data = []
  · have hnm' : nm = "" := String.ext hnm0
    subst hnm'
    have hdE : (pyJoin s "").data = s.data ++ ['/'] := data_pyJoin_empty s hsG
    have hlast : (pyJoin s "").data.getLast? = some '/' := by
      rw [hdE, List.getLast?_append_of_ne_nil _ (by simp)]
      rfl
    refine ⟨b2.data, ?_⟩
    rw [data_pyJoin_slashEnd _ _ hlast hb2, hdE]
    simp
  · have hig : goodPath (pyJoin s nm) := goodPath_extend s nm.data _ h1 hnm0 hnm
    refine ⟨nm.data ++ '/' :: b2.data, ?_⟩
    rw [data_pyJoin_good _ _ hig hb2, h1]
    simp [List.append_assoc]

theorem data_ne_two_comp (d bn2 bnh : String) (tail : List Char) (hgD : goodPath d)
    (hbn2 : ∀ ch ∈ bn2.data, ch ≠ '/') :
    (pyJoin d bn2).data ≠ d.data ++ '/' :: (bnh.data ++ '/' :: tail) := by
  intro he
  rw [data_pyJoin_good d bn2 hgD (head_ne_slash_of_noSlash bn2 hbn2)] at he
  have h3 := List.append_cancel_left he
  injection h3 with h4 h5
  refine hbn2 '/' (h5 ▸ ?_) rfl
  exact List.mem_append.mpr (Or.inr (by simp))

theorem saveCSVLoop_facts (s : String) (L : List String) (g g' : FS) (rn vb : Bool)
    (hsG : goodPath s)
    (hok : saveCSVLoop g L (.str s) rn vb false = .ok g') :
    g'.dirs = g.dirs ∧ (∀ q, pathExists g q = true → pathExists g' q = true) ∧
    (∀ q : String, (∀ tail, q.data ≠ s.data ++ '/' :: tail) →
      g'.lookupFile q = g.lookupFile q) := by
  induction L generalizing g with
  | nil =>
    unfold saveCSVLoop at hok
    injection hok with h2
    rw [← h2]
    exact ⟨rfl, fun q h => h, fun q _ => rfl⟩
  | cons cfile rest ih =>
    unfold saveCSVLoop at hok
    cases hc : CSVFile g cfile rn with
    | error e =>
      simp only [hc] at hok
      simp [throw, throwThe, MonadExceptOf.throw] at hok
    | ok f =>
      simp only [hc] at hok
      obtain ⟨g1m, hA, hB⟩ := bind_eq_ok hok
      have hnmSl := CSVFile_name_noSlash g cfile rn f hc
      obtain ⟨w, c, hg1m, hor⟩ := save_write_shape g g1m f s vb hA
      have hshape : ∃ tail, w.data = s.data ++ '/' :: tail := by
        obtain ⟨h1, h2⟩ := save_target_shape s f.name (pyBasename f.location) hsG hnmSl
          (head_ne_slash_of_noSlash _ (pyBasename_noSlash f.location))
        rcases hor with rfl | rfl
        · exact h1
        · exact h2
      obtain ⟨hd1, hpe1, hlk1⟩ := ih g1m hB
      refine ⟨?_, ?_, ?_⟩
      · rw [hd1, hg1m]
        rfl
      · intro q hq
        refine hpe1 q ?_
        rw [hg1m]
        exact pathExists_mono_writeFile g w c q hq
      · intro q hq
        rw [hlk1 q hq, hg1m]
        refine lookup_writeFile_ne g w c q ?_
        intro he
        obtain ⟨tail, ht⟩ := hshape
        exact hq tail (by rw [he]; exact ht)

theorem saveJPGLoop_facts (s : String) (parts : List String) (g g' : FS) (vb : Bool)
    (hok : saveJPGLoop g parts s vb false = .ok g') :
    g'.dirs = g.dirs ∧ (∀ q, pathExists g q = true → pathExists g' q = true) := by
  induction parts generalizing g with
  | nil =>
    unfold saveJPGLoop at hok
    injection hok with h2
    rw [← h2]
    exact ⟨rfl, fun q h => h⟩
  | cons ep rest ih =>
    unfold saveJPGLoop at hok
    cases hgl : glob g ep "*.JPG" with
    | nil =>
      simp only [hgl] at hok
      simp [throw, throwThe, MonadExceptOf.throw] at hok
    | cons j js =>
      simp only [hgl] at hok
      cases hj : JPGFile g j with
      | error e =>
        simp only [hj] at hok
        simp [throw, throwThe, MonadExceptOf.throw] at hok
      | ok f =>
        simp only [hj] at hok
        obtain ⟨g1m, hA, hB⟩ := bind_eq_ok hok
        obtain ⟨w, c, hg1m, hor⟩ := save_write_shape g g1m f s vb hA
        obtain ⟨hd1, hpe1⟩ := ih g1m hB
        refine ⟨?_, ?_⟩
        · rw [hd1, hg1m]
          rfl
        · intro q hq
          refine hpe1 q ?_
          rw [hg1m]
          exact pathExists_mono_writeFile g w c q hq

theorem jpgPhase_facts (d : String) (parts : List String) (g g' : FS) (vb : Bool)
    (hgD : goodPath d)
    (hok : jpgPhase g parts (.str d) vb false = .ok g') :
    (∃ exj, g'.dirs = g.dirs ++ exj ∧ ∀ e ∈ exj, e = pyJoin d "jpgs") ∧
    (∀ q, pathExists g q = true → pathExists g' q = true) ∧
    pathExists g' (pyJoin d "jpgs") = true ∧
    (pathExists g (pyJoin d "jpgs") = false → g'.hasDir (pyJoin d "jpgs") = true) := by
  have htspG : goodPath (pyJoin d "jpgs") :=
    goodPath_join d "jpgs" hgD (by decide) (by decide)
  unfold jpgPhase at hok
  simp only [osPathJoinChk] at hok
  by_cases hexT : pathExists g (pyJoin d "jpgs") = true
  · rw [if_pos hexT] at hok
    obtain ⟨gl, hA, hC⟩ := bind_eq_ok hok
    rw [if_neg (by simp)] at hC
    simp only [Pure.pure, Except.pure] at hC
    injection hC with h2
    obtain ⟨hd1, hpe1⟩ := saveJPGLoop_facts (pyJoin d "jpgs") parts g gl vb hA
    rw [← h2]
    exact ⟨⟨[], by rw [hd1]; simp, by simp⟩, hpe1, hpe1 _ hexT,
      fun hff => absurd hexT (by rw [hff]; simp)⟩
  · rw [if_neg hexT] at hok
    obtain ⟨gl, hA, hC⟩ := bind_eq_ok hok
    rw [if_neg (by simp)] at hC
    simp only [Pure.pure, Except.pure] at hC
    injection hC with h2
    obtain ⟨hd1, hpe1⟩ :=
      saveJPGLoop_facts (pyJoin d "jpgs") parts (g.makedirs (pyJoin d "jpgs")) gl vb hA
    have hdirtsp : gl.hasDir (pyJoin d "jpgs") = true := by
      rw [hasDir_of_dirs_eq gl _ hd1]
      exact (hasDir_makedirs_or g (pyJoin d "jpgs") _).mpr (Or.inr rfl)
    rw [← h2]
    refine ⟨⟨[pyJoin d "jpgs"], ?_, by simp⟩, ?_, ?_, fun _ => hdirtsp⟩
    · rw [hd1]
      rfl
    · intro q hq
      exact hpe1 q (pathExists_mono_makedirs g _ q hq)
    · unfold pathExists
      rw [hdirtsp]
      simp

theorem csvPartsLoop_facts (d : String) (parts : List String) (g g' : FS)
    (cf rn vb : Bool) (hgD : goodPath d)
    (hsep : ∀ ep ∈ parts, partsSeparated d ep)
    (hepG : ∀ ep ∈ parts, goodPath ep)
    (hok : csvPartsLoop g parts (.str d) cf rn vb false = .ok g') :
    (∃ ex, g'.dirs = g.dirs ++ ex ∧
      ∀ e ∈ ex, cf = true ∧ ∃ ep ∈ parts, e = pyJoin d (pyBasename ep)) ∧
    (∀ q, pathExists g q = true → pathExists g' q = true) ∧
    (cf = true → ∀ ep ∈ parts,
      pathExists g (pyJoin d (pyBasename ep)) = false →
        g'.hasDir (pyJoin d (pyBasename ep)) = true) := by
  induction parts generalizing g with
  | nil =>
    unfold csvPartsLoop at hok
    injection hok with h2
    rw [← h2]
    exact ⟨⟨[], by simp, by simp⟩, fun q h => h, fun _ ep hm => absurd hm (by simp)⟩
  | cons ep rest ih =>
    unfold csvPartsLoop at hok
    cases cf with
    | false =>
      rw [if_neg (by simp)] at hok
      obtain ⟨g1m, hA1, hC1⟩ := bind_eq_ok hok
      obtain ⟨hd1, hpe1, -⟩ := saveCSVLoop_facts d (glob g ep "*.CSV") g g1m rn vb hgD hA1
      obtain ⟨⟨ex, hexd, hexm⟩, hpeR, -⟩ := ih g1m
        (fun x hx => hsep x (by simp [hx])) (fun x hx => hepG x (by simp [hx])) hC1
      refine ⟨⟨ex, by rw [hexd, hd1], ?_⟩, ?_, ?_⟩
      · intro e he
        obtain ⟨hcf, -⟩ := hexm e he
        exact absurd hcf (by simp)
      · intro q hq
        exact hpeR q (hpe1 q hq)
      · intro hcf
        exact absurd hcf (by simp)
    | true =>
      rw [if_pos rfl] at hok
      simp only [osPathJoinChk] at hok
      have hsepEp : partsSeparated d ep := hsep ep (by simp)
      have hbnne : (pyBasename ep).data ≠ [] := pyBasename_nonempty ep (hepG ep (by simp))
      have hbnsl := pyBasename_noSlash ep
      have hpG : goodPath (pyJoin d (pyBasename ep)) :=
        goodPath_join d (pyBasename ep) hgD hbnne hbnsl
      have hpU : pathUnder d (pyJoin d (pyBasename ep)) = true :=
        pathUnder_join_self d (pyBasename ep) hgD (head_ne_slash_of_noSlash _ hbnsl)
      have hpData : (pyJoin d (pyBasename ep)).data =
          d.data ++ '/' :: (pyBasename ep).data :=
        data_pyJoin_good d (pyBasename ep) hgD (head_ne_slash_of_noSlash _ hbnsl)
      set p := pyJoin d (pyBasename ep) with hpdef
      set g1i := if pathExists g p = true then g else g.makedirs p with hg1idef
      obtain ⟨g1m, hA1, hC1⟩ := bind_eq_ok hok
      rw [if_neg (by simp)] at hC1
      rw [pure_bind] at hC1
      have f_files : g1i.files = g.files := by
        rw [hg1idef]
        split_ifs <;> rfl
      have f_isFile : ∀ r, g1i.isFile r = g.isFile r := by
        intro r
        unfold FS.isFile
        rw [f_files]
      have f_child : childNames g1i ep = childNames g ep := by
        rw [hg1idef]
        split_ifs
        · rfl
        · exact childNames_makedirs g p ep
            (childName_none_of_not_under ep p (not_under_of_separated d ep p hsepEp hpU))
      have f_glob : glob g1i ep "*.CSV" = glob g ep "*.CSV" :=
        glob_congr g1i g ep "*.CSV" f_child
      have f_pe_mono : ∀ q, pathExists g q = true → pathExists g1i q = true := by
        intro q hq
        rw [hg1idef]
        split_ifs
        · exact hq
        · exact pathExists_mono_makedirs g p q hq
      rw [f_glob] at hA1
      obtain ⟨hd1, hpe1, hlk1⟩ :=
        saveCSVLoop_facts p (glob g ep "*.CSV") g1i g1m rn vb hpG hA1
      obtain ⟨⟨ex, hexd, hexm⟩, hpeR, hiiiR⟩ := ih g1m
        (fun x hx => hsep x (by simp [hx])) (fun x hx => hepG x (by simp [hx])) hC1
      have hGdirs : g'.dirs = g1m.dirs ++ ex := hexd
      have hmonoG : ∀ w, g1m.hasDir w = true → g'.hasDir w = true := by
        intro w hw
        exact (hasDir_append_cases g1m g' ex hGdirs w).mpr (Or.inl hw)
      refine ⟨⟨(if pathExists g p = true then [] else [p]) ++ ex, ?_, ?_⟩, ?_, ?_⟩
      · rw [hGdirs, hd1, hg1idef]
        split_ifs
        · simp
        · unfold FS.makedirs
          simp
      · intro e he
        rcases List.mem_append.mp he with h | h
        · split_ifs at h
          · simp at h
          · rcases List.mem_singleton.mp h with rfl
            exact ⟨rfl, ep, by simp, hpdef⟩
        · obtain ⟨hcf2, ep2, hm2, he2⟩ := hexm e h
          exact ⟨hcf2, ep2, by simp [hm2], he2⟩
      · intro q hq
        exact hpeR q (hpe1 q (f_pe_mono q hq))
      · intro hcf ep2 hm2 hf2
        rcases List.mem_cons.mp hm2 with rfl | hm3
        · have hbranch : g1i.hasDir p = true := by
            rw [hg1idef, if_neg (by simp [hf2])]
            exact (hasDir_makedirs_or g p p).mpr (Or.inr rfl)
          refine hmonoG p ?_
          rw [hasDir_of_dirs_eq g1m g1i hd1]
          exact hbranch
        · have hbn2sl := pyBasename_noSlash ep2
          by_cases hE2 : pathExists g1m (pyJoin d (pyBasename ep2)) = true
          · unfold pathExists at hE2
            rcases Bool.or_eq_true_iff.mp hE2 with hIf | hDd
            · have hne_shape : ∀ tail,
                  (pyJoin d (pyBasename ep2)).data ≠ p.data ++ '/' :: tail := by
                intro tail hcontra
                rw [hpData] at hcontra
                simp only [List.append_assoc, List.cons_append, List.nil_append] at hcontra
                exact data_ne_two_comp d (pyBasename ep2) (pyBasename ep) tail hgD
                  hbn2sl hcontra
              have hlkeq : g1m.lookupFile (pyJoin d (pyBasename ep2)) =
                  g1i.lookupFile (pyJoin d (pyBasename ep2)) :=
                hlk1 _ hne_shape
              have hIf2 : g.isFile (pyJoin d (pyBasename ep2)) = true := by
                rw [← f_isFile, ← isFile_eq_of_lookup_eq g1i g1m _ hlkeq]
                exact hIf
              have : pathExists g (pyJoin d (pyBasename ep2)) = true := by
                unfold pathExists
                rw [hIf2]
                simp
              exact absurd this (by rw [hf2]; simp)
            · rw [hasDir_of_dirs_eq g1m g1i hd1, hg1idef] at hDd
              split_ifs at hDd with hE1
              · have : pathExists g (pyJoin d (pyBasename ep2)) = true := by
                  unfold pathExists
                  rw [hDd]
                  simp
                exact absurd this (by rw [hf2]; simp)
              · rcases (hasDir_makedirs_or g p _).mp hDd with h3 | h3
                · have : pathExists g (pyJoin d (pyBasename ep2)) = true := by
                    unfold pathExists
                    rw [h3]
                    simp
                  exact absurd this (by rw [hf2]; simp)
                · refine hmonoG _ ?_
                  rw [hasDir_of_dirs_eq g1m g1i hd1, h3, hg1idef, if_neg hE1]
                  exact (hasDir_makedirs_or g p p).mpr (Or.inr rfl)
          · have hE2f : pathExists g1m (pyJoin d (pyBasename ep2)) = false := by
              cases hres : pathExists g1m (pyJoin d (pyBasename ep2))
              · rfl
              · exact absurd hres hE2
            exact hiiiR rfl ep2 hm3 hE2f

theorem FS_ext_parts (g g' : FS) (hf : g.files = g'.files) (hd : g.dirs = g'.dirs) :
    g = g' := by
  obtain ⟨f1, d1⟩ := g
  obtain ⟨f2, d2⟩ := g'
  simp only [] at hf hd
  rw [hf, hd]

/-- C6 as amended.  When the destination directory neither contains nor is
contained in any matched part folder, `copy_scope_data` is idempotent for
every flag combination (`create_folders`, `rename_csv`, `save_jpg`,
`verbose`) with `softrun=False`: a second run with the same arguments
succeeds and returns exactly the state the first run left, because it
repeats the first run's write plan — each destination file is overwritten
with identical contents, and every directory it would create already
exists.  The counterexample shows the claim fails as stated when the
destination lies inside a part folder (`shutil.copy` raises
`SameFileError` instead of overwriting). -/
theorem copy_twice_equals_copy_once (c : OscilloscopeDataCopier) (fs fs1 : FS)
    (d : String) (cf rn sj vb : Bool)
    (hgD : goodPath d)
    (hnk : (fs.files.map Prod.fst).Nodup)
    (hsep : ∀ ep ∈ c.exercise_parts, partsSeparated d ep)
    (hepG : ∀ ep ∈ c.exercise_parts, goodPath ep)
    (h1 : c.copy_scope_data fs (.str d) cf rn sj vb false = .ok fs1) :
    c.copy_scope_data fs1 (.str d) cf rn sj vb false = .ok fs1 := by
  unfold OscilloscopeDataCopier.copy_scope_data at h1 ⊢
  by_cases hexd : osPathExistsArg fs (.str d) = true
  · rw [if_neg (by simp [hexd])] at h1
    simp only [pure_bind] at h1
    cases sj with
    | false =>
      rw [if_neg (by simp)] at h1
      obtain ⟨⟨ex, hexd1, hexm⟩, hpemono, hiii⟩ :=
        csvPartsLoop_facts d c.exercise_parts fs fs1 cf rn vb hgD hsep hepG h1
      have hframe : FrameOutside d fs fs1 :=
        csvPartsLoop_frame d c.exercise_parts fs fs1 cf rn vb hgD h1
      have hdest1 : osPathExistsArg fs1 (.str d) = true := by
        rw [osPathExistsArg_str] at hexd ⊢
        rw [pathExists_eq_of fs fs1 d (hframe.1 d (pathUnder_irrefl d))
          (hframe.2.1 d (pathUnder_irrefl d))]
        exact hexd
      obtain ⟨P, hPU, hfiles, -, hrun2⟩ := csvPartsLoop_pair d
        (fun w => cf = true ∧ ∃ ep ∈ c.exercise_parts, w = pyJoin d (pyBasename ep))
        c.exercise_parts fs fs1 fs1 cf rn vb hgD hsep hepG
        (fun ep hm => hframe.2.2.2 ep (hsep ep hm))
        hframe.1 hframe.2.1
        (fun w hw => (hasDir_append_cases fs fs1 ex hexd1 w).mpr (Or.inl hw))
        (by
          intro w hw
          rcases (hasDir_append_cases fs fs1 ex hexd1 w).mp hw with h3 | h3
          · exact Or.inl h3
          · obtain ⟨hcf0, ep0, hm0, he0⟩ := hexm w h3
            exact Or.inr ⟨hcf0, ep0, hm0, he0⟩)
        (by
          rintro w ⟨-, ep0, hm0, he0⟩
          exact ⟨pyBasename ep0, he0, pyBasename_noSlash ep0⟩)
        (by
          rintro hcf nm hnm ⟨hcf2, -⟩
          rw [hcf] at hcf2
          exact absurd hcf2 (by simp))
        (by
          intro ep hm hcf
          exact ⟨fun hf => hiii hcf ep hm hf, fun ht => hpemono _ ht⟩)
        hdest1 h1
      have hReq : applyWrites fs1 P = fs1 := by
        refine FS_ext_parts _ _ ?_ (applyWrites_dirs P fs1)
        calc (applyWrites fs1 P).files
            = (applyWrites (applyWrites fs P) P).files :=
              applyWrites_files_congr P fs1 (applyWrites fs P) hfiles
          _ = (applyWrites fs P).files :=
              congrArg FS.files (applyWrites_idem P fs hnk)
          _ = fs1.files := hfiles.symm
      rw [if_neg (by simp [hdest1])]
      simp only [pure_bind]
      rw [if_neg (by simp)]
      rw [hrun2, hReq]
    | true =>
      rw [if_pos rfl] at h1
      obtain ⟨fsJ, hJ, hC⟩ := bind_eq_ok h1
      have htspU : pathUnder d (pyJoin d "jpgs") = true :=
        pathUnder_join_self d "jpgs" hgD (by decide)
      have htspG : goodPath (pyJoin d "jpgs") :=
        goodPath_join d "jpgs" hgD (by decide) (by decide)
      have htspData : (pyJoin d "jpgs").data = d.data ++ '/' :: ("jpgs" : String).data :=
        data_pyJoin_good d "jpgs" hgD (by decide)
      obtain ⟨⟨exj, hexjd, hexjm⟩, hpeJ, hpeJtsp, hdirJtsp⟩ :=
        jpgPhase_facts d c.exercise_parts fs fsJ vb hgD hJ
      obtain ⟨⟨exc, hexcd, hexcm⟩, hpeC, hiiiC⟩ :=
        csvPartsLoop_facts d c.exercise_parts fsJ fs1 cf rn vb hgD hsep hepG hC
      have hframeJ : FrameOutside d fs fsJ :=
        jpgPhase_frame d c.exercise_parts fs fsJ vb hgD hJ
      have hframeC : FrameOutside d fsJ fs1 :=
        csvPartsLoop_frame d c.exercise_parts fsJ fs1 cf rn vb hgD hC
      have hframe := frameOutside_trans d fs fsJ fs1 hframeJ hframeC
      have hdirsJ1 : fs1.dirs = fs.dirs ++ (exj ++ exc) := by
        rw [hexcd, hexjd, List.append_assoc]
      have hdest1 : osPathExistsArg fs1 (.str d) = true := by
        rw [osPathExistsArg_str] at hexd ⊢
        rw [pathExists_eq_of fs fs1 d (hframe.1 d (pathUnder_irrefl d))
          (hframe.2.1 d (pathUnder_irrefl d))]
        exact hexd
      obtain ⟨Pj, hPjSh, hfilesJ, -, -, hrun2J⟩ := jpgPhase_pair d
        (fun w => w = pyJoin d "jpgs" ∨
          ∃ ep ∈ c.exercise_parts, w = pyJoin d (pyBasename ep))
        c.exercise_parts fs fsJ fs1 vb hgD hsep hepG
        (fun ep hm => hframe.2.2.2 ep (hsep ep hm))
        hframe.1 hframe.2.1
        (fun w hw => (hasDir_append_cases fs fs1 (exj ++ exc) hdirsJ1 w).mpr (Or.inl hw))
        (by
          intro w hw
          rcases (hasDir_append_cases fs fs1 (exj ++ exc) hdirsJ1 w).mp hw with h3 | h3
          · exact Or.inl h3
          · rcases List.mem_append.mp h3 with h4 | h4
            · exact Or.inr (Or.inl (hexjm w h4))
            · obtain ⟨-, ep0, hm0, he0⟩ := hexcm w h4
              exact Or.inr (Or.inr ⟨ep0, hm0, he0⟩))
        (by
          intro ep hm hPS
          have hnmSl := jpgTargetName_noSlash ep
          rcases hPS with heq | ⟨ep0, hm0, he0⟩
          · exact pyJoin_ne_base (pyJoin d "jpgs") _ htspG
              (head_ne_slash_of_noSlash _ hnmSl) heq
          · refine ne_two_comp d (pyJoin (pyJoin d "jpgs")
                (asciiLower (pyBasename ep) ++ ".jpg")) (pyBasename ep0) "jpgs"
              (asciiLower (pyBasename ep) ++ ".jpg").data hgD ?_
              (pyBasename_noSlash ep0) he0
            rw [data_pyJoin_good (pyJoin d "jpgs") _ htspG
              (head_ne_slash_of_noSlash _ hnmSl), htspData]
            simp [List.append_assoc])
        (hpeC _ hpeJtsp)
        (by
          intro hf
          refine (hasDir_append_cases fsJ fs1 exc hexcd _).mpr (Or.inl ?_)
          exact hdirJtsp hf)
        hJ
      have hPjU : ∀ wc ∈ Pj, pathUnder d wc.1 = true := by
        intro wc hwc
        obtain ⟨tail, ht⟩ := hPjSh wc hwc
        exact pathUnder_of_dataExt d (pyJoin d "jpgs") wc.1 tail (Or.inr htspU) ht
      obtain ⟨Pc, hPcU, hfilesC, -, hrun2C⟩ := csvPartsLoop_pair d
        (fun w => cf = true ∧ ∃ ep ∈ c.exercise_parts, w = pyJoin d (pyBasename ep))
        c.exercise_parts fsJ fs1 (applyWrites fs1 Pj) cf rn vb hgD hsep hepG
        (by
          intro x hx
          rw [applyWrites_childNames d x Pj fs1 hPjU (hsep x hx)]
          exact hframeC.2.2.2 x (hsep x hx))
        (by
          intro r hr
          rw [applyWrites_outside d Pj fs1 hPjU r hr]
          exact hframeC.1 r hr)
        (by
          intro r hr
          rw [hasDir_of_dirs_eq _ fs1 (applyWrites_dirs Pj fs1) r]
          exact hframeC.2.1 r hr)
        (by
          intro w hw
          rw [hasDir_of_dirs_eq _ fs1 (applyWrites_dirs Pj fs1) w]
          exact (hasDir_append_cases fsJ fs1 exc hexcd w).mpr (Or.inl hw))
        (by
          intro w hw
          rw [hasDir_of_dirs_eq _ fs1 (applyWrites_dirs Pj fs1) w] at hw
          rcases (hasDir_append_cases fsJ fs1 exc hexcd w).mp hw with h3 | h3
          · exact Or.inl h3
          · obtain ⟨hcf0, ep0, hm0, he0⟩ := hexcm w h3
            exact Or.inr ⟨hcf0, ep0, hm0, he0⟩)
        (by
          rintro w ⟨-, ep0, hm0, he0⟩
          exact ⟨pyBasename ep0, he0, pyBasename_noSlash ep0⟩)
        (by
          rintro hcf nm hnm ⟨hcf2, -⟩
          rw [hcf] at hcf2
          exact absurd hcf2 (by simp))
        (by
          intro ep hm hcf
          constructor
          · intro hf
            rw [hasDir_of_dirs_eq _ fs1 (applyWrites_dirs Pj fs1)]
            exact hiiiC hcf ep hm hf
          · intro ht
            exact pathExists_mono_applyWrites Pj fs1 _ (hpeC _ ht))
        (by
          rw [osPathExistsArg_str] at hdest1 ⊢
          exact pathExists_mono_applyWrites Pj fs1 d hdest1)
        hC
      have hfs1files : fs1.files = (applyWrites fs (Pj ++ Pc)).files := by
        rw [hfilesC, applyWrites_append]
        exact applyWrites_files_congr Pc fsJ (applyWrites fs Pj) hfilesJ
      have hReq : applyWrites fs1 (Pj ++ Pc) = fs1 := by
        refine FS_ext_parts _ _ ?_ (applyWrites_dirs (Pj ++ Pc) fs1)
        calc (applyWrites fs1 (Pj ++ Pc)).files
            = (applyWrites (applyWrites fs (Pj ++ Pc)) (Pj ++ Pc)).files :=
              applyWrites_files_congr (Pj ++ Pc) fs1 _ hfs1files
          _ = (applyWrites fs (Pj ++ Pc)).files :=
              congrArg FS.files (applyWrites_idem (Pj ++ Pc) fs hnk)
          _ = fs1.files := hfs1files.symm
      rw [if_neg (by simp [hdest1])]
      simp only [pure_bind]
      rw [if_pos trivial]
      simp only [hrun2J, ok_bind]
      rw [hrun2C, ← applyWrites_append, hReq]
  · rw [if_pos (by simp [hexd])] at h1
    simp [Bind.bind, Except.bind, throw, throwThe, MonadExceptOf.throw] at h1

/-- Witness for `copy_twice_equals_copy_once` at the sample drive, with the
default flags (`save_jpg=True`): the first run produces `sampleCopyResult`
(the `rfl` discharging the run hypothesis) and the theorem shows the second
run returns it unchanged. -/
theorem copy_twice_equals_copy_once_witness :
    OscilloscopeDataCopier.copy_scope_data
      ⟨"/Volumes/ECE65-DATA", ["/Volumes/ECE65-DATA/E1P1"]⟩ sampleCopyResult
      (.str "/dest") false true true false false = .ok sampleCopyResult :=
  copy_twice_equals_copy_once
    ⟨"/Volumes/ECE65-DATA", ["/Volumes/ECE65-DATA/E1P1"]⟩ sampleDrive
    sampleCopyResult "/dest" false true true false
    ⟨by decide, by decide⟩ (by decide)
    (by
      intro ep hep
      rcases List.mem_singleton.mp hep with rfl
      exact ⟨by decide, by decide⟩)
    (by
      intro ep hep
      rcases List.mem_singleton.mp hep with rfl
      exact ⟨by decide, by decide⟩)
    rfl
